import Mathlib

/-!
# Server browser of mainui_cpp (`menus/ServerBrowser.cpp`)

A shallow embedding of the server list model (`server_t`, `CMenuGameListModel`) and of the
browser controller (`CMenuServerBrowser`), followed by theorems about them.

Conventions of the embedding:

* a C string is the list of its bytes before the terminating NUL, one `Char` per byte;
* `float` and `double` values are exact rationals;
* `int` values are mathematical integers (no operation of the browser gets near the 32-bit range);
* a `CUtlVector<T>` is a `List T`, index 0 first;
* calls into the engine and into other menus that only have an effect are recorded, in order,
  in the `effects` trace of the state.
-/

namespace ServerBrowser

/-! ## C strings and library helpers -/

/-- A C string: its bytes before the terminating NUL, one `Char` per byte. -/
abbrev CStr := List Char

/-- Bounded copy `Q_strncpy( dst, src, size )` into a buffer of `size` bytes: the destination
receives at most `size - 1` bytes of the source, followed by the NUL. -/
def Q_strncpy (src : CStr) (size : Nat) : CStr :=
  src.take (size - 1)

/-- C library `strcmp`. The browser only ever tests its result against zero, so the model
returns the sign of the comparison. -/
def strcmp : CStr → CStr → Int
  | [], [] => 0
  | [], _ :: _ => -1
  | _ :: _, [] => 1
  | a :: as, b :: bs =>
    if a = b then strcmp as bs else if a.toNat < b.toNat then -1 else 1

/-- C library `stricmp` (`strcasecmp`): compares byte by byte after ASCII lower-casing and
returns the difference of the first pair of bytes that differ (the end of a string counts as
byte 0), which is what the usual C libraries return. -/
def stricmp : CStr → CStr → Int
  | [], [] => 0
  | [], b :: _ => -(b.toLower.toNat : Int)
  | a :: _, [] => (a.toLower.toNat : Int)
  | a :: as, b :: bs =>
    if a.toLower = b.toLower then stricmp as bs
    else (a.toLower.toNat : Int) - (b.toLower.toNat : Int)

/-- The macro `bound( min, num, max )`. -/
def bound (lo num hi : ℚ) : ℚ :=
  if num ≥ lo then (if num < hi then num else hi) else lo

/-- Value of a decimal digit, if the byte is one. -/
def digitVal (c : Char) : Option Nat :=
  if 48 ≤ c.toNat ∧ c.toNat ≤ 57 then some (c.toNat - 48) else none

/-- Digits loop of `atoi`: accumulates leading decimal digits. -/
def atoiDigits : Nat → CStr → Nat
  | acc, [] => acc
  | acc, c :: cs =>
    match digitVal c with
    | some d => atoiDigits (acc * 10 + d) cs
    | none => acc

/-- C library `isspace` in the C locale: space, `\t`, `\n`, `\v`, `\f` and `\r`. -/
def isspace (c : Char) : Bool :=
  c = ' ' || (decide (9 ≤ c.toNat) && decide (c.toNat ≤ 13))

/-- The number `strtol( s, NULL, 10 )` reads before any range check: leading white space is
skipped, then an optional sign and the leading decimal digits are read; 0 when there are no
digits. -/
def strtolValue (s : CStr) : Int :=
  match s.dropWhile isspace with
  | '-' :: cs => -(atoiDigits 0 cs : Int)
  | '+' :: cs => (atoiDigits 0 cs : Int)
  | cs => (atoiDigits 0 cs : Int)

/-- Conversion of a `long` to the 32-bit `int`: the low 32 bits, read as a signed number. -/
def toInt32 (v : Int) : Int :=
  (v + 2147483648) % 4294967296 - 2147483648

/-- C library `atoi`, computed as `(int) strtol( s, NULL, 10 )`: the value read is clamped to
the range of the 64-bit `long` and then cut to the 32-bit `int` that the fields `numcl` and
`maxcl` are. The C standard leaves the result open when the value does not fit an `int`; this
is what the usual 64-bit C libraries return. -/
def atoi (s : CStr) : Int :=
  let v := strtolValue s
  toInt32 (if v > 9223372036854775807 then 9223372036854775807
    else if v < -9223372036854775808 then -9223372036854775808 else v)

/-- Output of `printf( "%d" )`. -/
def fmt_d (n : Int) : CStr :=
  (toString n).toList

/-- Nearest integer, ties to even: the rounding of `printf( "%.f" )`. -/
def roundHalfEven (q : ℚ) : Int :=
  let f := q.floor
  let r := q - (f : ℚ)
  if r < 1 / 2 then f
  else if 1 / 2 < r then f + 1
  else if f % 2 = 0 then f else f + 1

/-- Output of `printf( "%.f" )` for a non-negative value. -/
def fmt_f0 (q : ℚ) : CStr :=
  fmt_d (roundHalfEven q)

/-- Splits the text after the leading backslash of a descriptor at its backslashes. -/
def splitBackslash : CStr → CStr → List CStr
  | cur, [] => [cur.reverse]
  | cur, c :: cs =>
    if c = '\\' then cur.reverse :: splitBackslash [] cs
    else splitBackslash (c :: cur) cs

/-- Looks a key up in the alternating key, value, key, value, ... list of a descriptor. -/
def lookupKV (key : CStr) : List CStr → CStr
  | k :: v :: rest => if k = key then v else lookupKV key rest
  | _ => []

/-- Modelled from the spec: `Info_ValueForKey` is defined outside `menus/ServerBrowser.cpp`.
The spec describes a descriptor as a raw key/value string `\key\value\...`; the model drops
one leading backslash, splits at the backslashes and returns the value that follows the first
occurrence of the key, or the empty string when the key is absent. -/
def Info_ValueForKey (s key : CStr) : CStr :=
  match s with
  | '\\' :: rest => lookupKV key (splitBackslash [] rest)
  | _ => lookupKV key (splitBackslash [] s)

/-- The method `CUtlVector::FastRemove( elem )`: removes element `elem` without preserving
the order, by moving the last element into the freed slot. An invalid index leaves the vector
alone. -/
def FastRemove {α : Type} (v : List α) (elem : Nat) : List α :=
  if h : elem < v.length then
    if elem = v.length - 1 then v.dropLast
    else (v.set elem (v.get ⟨v.length - 1, by omega⟩)).dropLast
  else v

/-- C library `qsort` with comparison callback `compar`, modelled by insertion sort on
`compar a b ≤ 0`. Whatever the callback, the result is a rearrangement of the input. -/
def qsort {α : Type} (compar : α → α → Int) (base : List α) : List α :=
  base.insertionSort (fun a b => compar a b ≤ 0)

/-! ## The engine -/

/-- The engine type `netadr_t`: a network endpoint, kept as the bytes of its record. -/
structure netadr_t where
  raw : List Nat
deriving DecidableEq, Repr

/-- The engine callbacks the browser's data depends on and the game information the engine
supplies, with the part of their contract the browser relies on. `colorstricmp` is the menu
library's colour-code-aware `stricmp`. -/
structure EngFuncs where
  /-- Address comparison `EngFuncs::NET_CompareAdr`; zero means equal. -/
  NET_CompareAdr : netadr_t → netadr_t → Int
  /-- Address formatting `EngFuncs::NET_AdrToString`. -/
  NET_AdrToString : netadr_t → CStr
  /-- Case and colour-code insensitive string comparison. -/
  colorstricmp : CStr → CStr → Int
  /-- Comparing equal does not depend on the order of the arguments. -/
  NET_CompareAdr_symm : ∀ a b, NET_CompareAdr a b = 0 → NET_CompareAdr b a = 0
  /-- The engine formats an address into a short static buffer; the text fits the 128-byte
  `sadr` field of a favourites entry. -/
  NET_AdrToString_length : ∀ a, (NET_AdrToString a).length < 128
  /-- The address parser `pNetAPI->StringToAdr`: the address, or `none` when it returns 0. -/
  StringToAdr : CStr → Option netadr_t
  /-- The current game folder `gMenu.m_gameinfo.gamefolder`. -/
  gamefolder : CStr
  /-- The game folder is the name of a directory, kept in a 64-byte field. -/
  gamefolder_name : '\\' ∉ gamefolder ∧ gamefolder.length < 64

/-! ## `server_t` -/

/-- One discovered server (`struct server_t`). -/
structure server_t where
  adr : netadr_t
  info : CStr
  ping : ℚ
  numcl : Int
  maxcl : Int
  name : CStr
  mapname : CStr
  clientsstr : CStr
  pingstr : CStr
  ipstr : CStr
  favorite : Bool
  havePassword : Bool
  isLegacy : Bool
  isGoldSrc : Bool
deriving DecidableEq

/-- The constructor `server_t::server_t( adr, info, is_favorite )`. It sets `adr`, `favorite`
and `info` (a bounded copy into `char info[512]`); the fields it leaves uninitialised are
given zero values here. -/
def server_t.new (adr : netadr_t) (info : CStr) (is_favorite : Bool) : server_t :=
  { adr := adr, info := Q_strncpy info 512, ping := 0, numcl := 0, maxcl := 0,
    name := [], mapname := [], clientsstr := [], pingstr := [], ipstr := [],
    favorite := is_favorite, havePassword := false, isLegacy := false, isGoldSrc := false }

/-- The method `server_t::UpdateData`. -/
def server_t.UpdateData (E : EngFuncs) (s : server_t) : server_t :=
  let numcl := atoi (Info_ValueForKey s.info "numcl".toList)
  let maxcl := atoi (Info_ValueForKey s.info "maxcl".toList)
  { s with
    name := Q_strncpy (Info_ValueForKey s.info "host".toList) 64
    mapname := Q_strncpy (Info_ValueForKey s.info "map".toList) 64
    ipstr := Q_strncpy (E.NET_AdrToString s.adr) 64
    numcl := numcl
    maxcl := maxcl
    clientsstr := Q_strncpy (fmt_d numcl ++ '\\' :: fmt_d maxcl) 64
    havePassword := decide (strcmp (Info_ValueForKey s.info "password".toList) "1".toList = 0)
    isGoldSrc := decide (strcmp (Info_ValueForKey s.info "gs".toList) "1".toList = 0)
    isLegacy := decide (strcmp (Info_ValueForKey s.info "legacy".toList) "1".toList = 0) }

/-- The method `server_t::SetPing`. -/
def server_t.SetPing (s : server_t) (ping : ℚ) : server_t :=
  let ping1 := bound 0 ping (9999 / 1000)
  let ping2 := if s.isLegacy then ping1 / 2 else ping1
  { s with ping := ping2, pingstr := Q_strncpy (fmt_f0 (ping2 * 1000) ++ " ms".toList) 64 }

/-- The method `server_t::ToProtocol`. -/
def server_t.ToProtocol (s : server_t) : CStr :=
  if s.isLegacy then "48".toList
  else if s.isGoldSrc then "gs".toList
  else "49".toList

/-- The method `server_t::Rank`. -/
def server_t.Rank (s other : server_t) : Int :=
  if s.isLegacy && !other.isLegacy then 100
  else if !s.isLegacy && other.isLegacy then -100
  else 0

/-- The method `server_t::NameCmp`. -/
def server_t.NameCmp (E : EngFuncs) (s other : server_t) : Int :=
  E.colorstricmp s.name other.name

/-- The method `server_t::AdrCmp`. -/
def server_t.AdrCmp (E : EngFuncs) (s other : server_t) : Int :=
  E.NET_CompareAdr s.adr other.adr

/-- The method `server_t::MapCmp`. -/
def server_t.MapCmp (s other : server_t) : Int :=
  stricmp s.mapname other.mapname

/-- The method `server_t::ClientCmp`. -/
def server_t.ClientCmp (s other : server_t) : Int :=
  if s.numcl > other.numcl then 1
  else if s.numcl < other.numcl then -1
  else 0

/-- The method `server_t::PingCmp`. -/
def server_t.PingCmp (s other : server_t) : Int :=
  if s.ping > other.ping then 1
  else if s.ping < other.ping then -1
  else 0

/-- The `method ## Ascend` function generated by `GENERATE_COMPAR_FN( method )`. -/
def comparAscend (method : server_t → server_t → Int) (a b : server_t) : Int :=
  a.Rank b + method a b

/-- The `method ## Descend` function generated by `GENERATE_COMPAR_FN( method )`. -/
def comparDescend (method : server_t → server_t → Int) (a b : server_t) : Int :=
  a.Rank b + method b a

/-- The generated comparator `server_t::NameCmpAscend`. -/
def server_t.NameCmpAscend (E : EngFuncs) : server_t → server_t → Int :=
  comparAscend (server_t.NameCmp E)

/-- The generated comparator `server_t::NameCmpDescend`. -/
def server_t.NameCmpDescend (E : EngFuncs) : server_t → server_t → Int :=
  comparDescend (server_t.NameCmp E)

/-- The generated comparator `server_t::AdrCmpAscend`. -/
def server_t.AdrCmpAscend (E : EngFuncs) : server_t → server_t → Int :=
  comparAscend (server_t.AdrCmp E)

/-- The generated comparator `server_t::AdrCmpDescend`. -/
def server_t.AdrCmpDescend (E : EngFuncs) : server_t → server_t → Int :=
  comparDescend (server_t.AdrCmp E)

/-- The generated comparator `server_t::MapCmpAscend`. -/
def server_t.MapCmpAscend : server_t → server_t → Int :=
  comparAscend server_t.MapCmp

/-- The generated comparator `server_t::MapCmpDescend`. -/
def server_t.MapCmpDescend : server_t → server_t → Int :=
  comparDescend server_t.MapCmp

/-- The generated comparator `server_t::ClientCmpAscend`. -/
def server_t.ClientCmpAscend : server_t → server_t → Int :=
  comparAscend server_t.ClientCmp

/-- The generated comparator `server_t::ClientCmpDescend`. -/
def server_t.ClientCmpDescend : server_t → server_t → Int :=
  comparDescend server_t.ClientCmp

/-- The generated comparator `server_t::PingCmpAscend`. -/
def server_t.PingCmpAscend : server_t → server_t → Int :=
  comparAscend server_t.PingCmp

/-- The generated comparator `server_t::PingCmpDescend`. -/
def server_t.PingCmpDescend : server_t → server_t → Int :=
  comparDescend server_t.PingCmp

/-! ## Favourites and history entries -/

/-- One entry of the favourites or history list (`struct favlist_entry_t`). -/
structure favlist_entry_t where
  sadr : CStr
  prot : CStr
  favorited : Bool
deriving DecidableEq

/-- The constructor `favlist_entry_t( sadr, prot, favorited )`: bounded copies into
`char sadr[128]` and `char prot[16]`. -/
def favlist_entry_t.new (sadr prot : CStr) (favorited : Bool) : favlist_entry_t :=
  { sadr := Q_strncpy sadr 128, prot := Q_strncpy prot 16, favorited := favorited }

/-! ## The table model `CMenuGameListModel` -/

/-- Column `COLUMN_PASSWORD`. -/
def COLUMN_PASSWORD : Int := 0
/-- Column `COLUMN_FAVORITE`. -/
def COLUMN_FAVORITE : Int := 1
/-- Column `COLUMN_NAME`. -/
def COLUMN_NAME : Int := 2
/-- Column `COLUMN_MAP`. -/
def COLUMN_MAP : Int := 3
/-- Column `COLUMN_PLAYERS`. -/
def COLUMN_PLAYERS : Int := 4
/-- Column `COLUMN_PING`. -/
def COLUMN_PING : Int := 5
/-- Column `COLUMN_IP`. -/
def COLUMN_IP : Int := 6

/-- The data members of `class CMenuGameListModel`. -/
structure CMenuGameListModel where
  serversRefreshTime : ℚ
  servers : List server_t
  m_iSortingColumn : Int
  m_bAscend : Bool
deriving DecidableEq

/-- The constructor `CMenuGameListModel( parent )`: no servers, sorting column -1. The members
it leaves uninitialised are given zero values. -/
def CMenuGameListModel.new : CMenuGameListModel :=
  { serversRefreshTime := 0, servers := [], m_iSortingColumn := -1, m_bAscend := false }

/-- The method `CMenuGameListModel::Sort`, returning its result and the model after it. -/
def CMenuGameListModel.Sort (E : EngFuncs) (m : CMenuGameListModel) (column : Int)
    (ascend : Bool) : Bool × CMenuGameListModel :=
  let m1 := { m with m_iSortingColumn := column }
  if column = -1 then (false, m1)
  else
    let m2 := { m1 with m_bAscend := ascend }
    if column = COLUMN_PASSWORD then (false, m2)
    else if column = COLUMN_NAME then
      let compar := if ascend then server_t.NameCmpAscend E else server_t.NameCmpDescend E
      (true, { m2 with servers := qsort compar m2.servers })
    else if column = COLUMN_MAP then
      let compar := if ascend then server_t.MapCmpAscend else server_t.MapCmpDescend
      (true, { m2 with servers := qsort compar m2.servers })
    else if column = COLUMN_PLAYERS then
      let compar := if ascend then server_t.ClientCmpAscend else server_t.ClientCmpDescend
      (true, { m2 with servers := qsort compar m2.servers })
    else if column = COLUMN_PING then
      let compar := if ascend then server_t.PingCmpAscend else server_t.PingCmpDescend
      (true, { m2 with servers := qsort compar m2.servers })
    else if column = COLUMN_IP then
      let compar := if ascend then server_t.AdrCmpAscend E else server_t.AdrCmpDescend E
      (true, { m2 with servers := qsort compar m2.servers })
    else (false, m2)

/-- The duplicate test of the loop in `CMenuGameListModel::AddServerToList`: some record has
an address that compares equal to `adr`, or an `info` that `stricmp` finds equal to `info`. -/
def isDuplicated (E : EngFuncs) (servers : List server_t) (adr : netadr_t) (info : CStr) :
    Bool :=
  servers.any (fun s =>
    decide (E.NET_CompareAdr s.adr adr = 0) || decide (stricmp s.info info = 0))

/-- The method `CMenuGameListModel::AddServerToList`; `now` is the value of
`EngFuncs::DoubleTime()` at the call. -/
def CMenuGameListModel.AddServerToList (E : EngFuncs) (m : CMenuGameListModel)
    (adr : netadr_t) (info : CStr) (is_favorite : Bool) (now : ℚ) : CMenuGameListModel :=
  if isDuplicated E m.servers adr info then m
  else
    let server := ((server_t.new adr info is_favorite).UpdateData E).SetPing
      (now - m.serversRefreshTime)
    let m1 := { m with servers := m.servers ++ [server] }
    if m1.m_iSortingColumn ≠ -1 then (m1.Sort E m1.m_iSortingColumn m1.m_bAscend).2
    else m1

/-- The method `CMenuGameListModel::Flush`; `time` is `gpGlobals->time`. -/
def CMenuGameListModel.Flush (m : CMenuGameListModel) (time : ℚ) : CMenuGameListModel :=
  { m with servers := [], serversRefreshTime := time }

/-! ## The browser `CMenuServerBrowser` and the state around it -/

/-- The data members of `class CMenuServerBrowser` that its logic reads or writes. Of a widget
only the attributes the browser touches are kept. -/
structure CMenuServerBrowser where
  gameListModel : CMenuGameListModel
  /-- Value of `gameList.GetCurrentIndex()`. -/
  gameList_iCurItem : Int
  joinGame_grayed : Bool
  viewGameInfo_grayed : Bool
  favorite_grayed : Bool
  refresh_grayed : Bool
  favorite_szName : CStr
  /-- Value of `tabSwitch.GetState()`. -/
  tabSwitch_state : Int
  refreshTime : Int
  refreshTime2 : Int
  m_bLanOnly : Bool
  favoritesList : List favlist_entry_t
  historyList : List favlist_entry_t
  /-- Value of `addressField.GetBuffer()`. -/
  addressField : CStr
  /-- Value of `(int)serverProtocol.GetCurrentValue()`. -/
  serverProtocol : Int
  /-- Value of `WasInit()`. -/
  wasInit : Bool
  /-- Value of `IsVisible()`. -/
  isVisible : Bool
deriving DecidableEq

/-- A call whose effect lies outside the browser, as recorded in the trace. -/
inductive Effect where
  /-- A call of `EngFuncs::ClientCmd` or `EngFuncs::ClientCmdF` with the formatted command text. -/
  | ClientCmd (cmd : CStr)
  /-- A call of `EngFuncs::DeleteFile`. -/
  | DeleteFile (filename : CStr)
  /-- A call of `EngFuncs::COM_SaveFile` with the bytes written. -/
  | COM_SaveFile (filename : CStr) (data : CStr)
  /-- A call of `askPassword.Show()`. -/
  | askPassword_Show
  /-- A call of `UI_ConnectionProgress_Connect`. -/
  | UI_ConnectionProgress_Connect (arg : CStr)
  /-- A call of `UI_ShowMessageBox`. -/
  | UI_ShowMessageBox (text : CStr)
deriving DecidableEq

/-- Modelled from the spec: the engine's file store behind `COM_LoadFile`, `COM_SaveFile` and
`DeleteFile` is defined outside `menus/ServerBrowser.cpp`. The spec treats persisted storage
as named flat text files that are either present with a content or absent; the model is the
list of the present files with their contents. -/
abbrev FileStore := List (CStr × CStr)

/-- The callback `EngFuncs::COM_LoadFile`: the content of the file, or `none` (NULL) when it
is absent. -/
def COM_LoadFile (files : FileStore) (filename : CStr) : Option CStr :=
  (files.find? (fun p => decide (p.1 = filename))).map Prod.snd

/-- Effect of `EngFuncs::DeleteFile` on the file store. -/
def FileStore.delete (files : FileStore) (filename : CStr) : FileStore :=
  files.filter (fun p => decide (p.1 ≠ filename))

/-- Effect of `EngFuncs::COM_SaveFile` on the file store. -/
def FileStore.save (files : FileStore) (filename data : CStr) : FileStore :=
  (filename, data) :: files.filter (fun p => decide (p.1 ≠ filename))

/-- The process-wide state the browser code runs in: the menu object, the two file-scope
statics of the connect flow, and the engine state it reads or writes. -/
structure UIState where
  menu_internetgames : CMenuServerBrowser
  staticServerSelect : server_t
  staticWaitingPassword : Bool
  /-- Value of `uiStatic.realTime`. -/
  realTime : Int
  /-- The cvar `cl_nat`. -/
  cl_nat : ℚ
  /-- The cvar `password`. -/
  password : CStr
  /-- Value of `gpGlobals->time`. -/
  time : ℚ
  /-- Value of `EngFuncs::DoubleTime()`. -/
  doubleTime : ℚ
  files : FileStore
  effects : List Effect
deriving DecidableEq

/-! ### Persistence of the favourites and history lists -/

/-- Modelled from the spec: the engine tokenizer `COM_ParseFile` is defined outside
`menus/ServerBrowser.cpp`. The spec describes the persisted format as lines of white-space
separated tokens; the model skips white space, then copies the bytes up to the next white
space into the token buffer of `size` bytes and returns the rest of the text. At the end of
the text, or when called with NULL, it returns NULL with an empty token. -/
def COM_ParseFile (data : Option CStr) (size : Nat) : CStr × Option CStr :=
  match data with
  | none => ([], none)
  | some d =>
    match d.dropWhile Char.isWhitespace with
    | [] => ([], none)
    | c :: cs =>
      (Q_strncpy ((c :: cs).takeWhile (fun x => !x.isWhitespace)) size,
       some ((c :: cs).dropWhile (fun x => !x.isWhitespace)))

/-- The `while( true )` loop of `CMenuServerBrowser::ParseServerListFromFile`, run for at most
`fuel` iterations. -/
def parseLoop : Nat → Option CStr → List favlist_entry_t → List favlist_entry_t
  | 0, _, list => list
  | fuel + 1, afile, list =>
    match COM_ParseFile afile 128 with
    | (_, none) => list
    | (sadr, some afile1) =>
      match COM_ParseFile (some afile1) 16 with
      | (_, none) => list
      | (prot, some afile2) =>
        parseLoop fuel (some afile2)
          (list ++ [{ sadr := sadr, prot := prot, favorited := true }])

/-- The method `CMenuServerBrowser::ParseServerListFromFile`, as a function of the file store
and the list it appends to. Every iteration of the loop that continues consumes at least two
bytes of the text, so the length of the text bounds their number. -/
def CMenuServerBrowser.ParseServerListFromFile (files : FileStore) (filename : CStr)
    (list : List favlist_entry_t) : List favlist_entry_t :=
  match COM_LoadFile files filename with
  | none => parseLoop 1 none list
  | some text => parseLoop (text.length + 1) (some text) list

/-- The text the loop of `CMenuServerBrowser::SaveServerListToFile` builds in `s`. -/
def saveText : List favlist_entry_t → CStr
  | [] => []
  | e :: es =>
    if e.favorited then e.sadr ++ ' ' :: (e.prot ++ '\n' :: saveText es)
    else saveText es

/-- The method `CMenuServerBrowser::SaveServerListToFile`. -/
def CMenuServerBrowser.SaveServerListToFile (u : UIState) (filename : CStr)
    (list : List favlist_entry_t) : UIState :=
  if list.length = 0 then
    { u with files := u.files.delete filename,
             effects := u.effects ++ [Effect.DeleteFile filename] }
  else
    { u with files := u.files.save filename (saveText list),
             effects := u.effects ++ [Effect.COM_SaveFile filename (saveText list)] }

/-- The method `CMenuServerBrowser::SaveLists`. -/
def CMenuServerBrowser.SaveLists (u : UIState) : UIState :=
  if u.menu_internetgames.m_bLanOnly then u
  else
    let u1 := SaveServerListToFile u "favorite_servers.lst".toList
      u.menu_internetgames.favoritesList
    SaveServerListToFile u1 "history_servers.lst".toList u1.menu_internetgames.historyList

/-! ### Button state -/

/-- The method `CMenuServerBrowser::ToggleFavoriteButton`. -/
def CMenuServerBrowser.ToggleFavoriteButton (b : CMenuServerBrowser) (en : Bool) :
    CMenuServerBrowser :=
  if en then { b with favorite_szName := "Favorite".toList }
  else { b with favorite_szName := "Unfavorite".toList }

/-- The method `CMenuServerBrowser::MaybeEnableFavoriteButton`. -/
def CMenuServerBrowser.MaybeEnableFavoriteButton (u : UIState) : UIState :=
  { u with menu_internetgames :=
      { u.menu_internetgames with favorite_grayed := decide (u.cl_nat > 0) } }

/-- The method `CUtlVector::IsValidIndex`. -/
def IsValidIndex {α : Type} (v : List α) (i : Int) : Bool :=
  decide (0 ≤ i) && decide (i < (v.length : Int))

/-- The method `CMenuServerBrowser::OnChangeSelectedServer`. -/
def CMenuServerBrowser.OnChangeSelectedServer (b : CMenuServerBrowser) : CMenuServerBrowser :=
  if !IsValidIndex b.gameListModel.servers b.gameList_iCurItem then b
  else
    match b.gameListModel.servers.get? b.gameList_iCurItem.toNat with
    | some serv => ToggleFavoriteButton b (!serv.favorite)
    | none => b

/-- Modelled from the spec: the class `CColor` is defined outside `menus/ServerBrowser.cpp`.
The spec speaks of the text opacity of a row; the model keeps a colour as its four channels,
each a byte, `a` being the opacity. -/
structure CColor where
  r : Nat
  g : Nat
  b : Nat
  a : Nat
deriving DecidableEq

/-- The method `CMenuGameListModel::GetCellColors`, returning its result together with its two
output parameters `textColor` and `force` as they stand after the call (they enter with the
values of the caller); `none` when `line` is not a row of the table. The colour written to
`textColor` is kept as a `CColor`; storing the product `color.a * 0.5` in the byte `a`
drops the fraction. -/
def CMenuGameListModel.GetCellColors (m : CMenuGameListModel) (uiPromptTextColor : CColor)
    (line column : Int) (textColor : CColor) (force : Bool) : Option (Bool × CColor × Bool) :=
  if !IsValidIndex m.servers line then none
  else
    match m.servers.get? line.toNat with
    | none => none
    | some s =>
      if s.isLegacy then
        let color := uiPromptTextColor
        let color1 : CColor := { color with a := color.a / 2 }
        some (true, color1, decide (column ≠ COLUMN_NAME))
      else some (false, textColor, force)

/-- The method `CMenuGameListModel::Update`, which also updates widgets of its parent. -/
def CMenuGameListModel.Update (E : EngFuncs) (u : UIState) : UIState :=
  let b := u.menu_internetgames
  let m1 : CMenuGameListModel := { b.gameListModel with
    servers := b.gameListModel.servers.map (server_t.UpdateData E) }
  let u1 : UIState := { u with menu_internetgames := { b with gameListModel := m1 } }
  if m1.servers.length ≠ 0 then
    let u2 := { u1 with menu_internetgames :=
      { u1.menu_internetgames with joinGame_grayed := false } }
    let u3 := CMenuServerBrowser.MaybeEnableFavoriteButton u2
    let u4 := { u3 with menu_internetgames :=
      CMenuServerBrowser.OnChangeSelectedServer u3.menu_internetgames }
    let m4 := u4.menu_internetgames.gameListModel
    if m4.m_iSortingColumn ≠ -1 then
      { u4 with menu_internetgames := { u4.menu_internetgames with
          gameListModel := (m4.Sort E m4.m_iSortingColumn m4.m_bAscend).2 } }
    else u4
  else u1

/-! ### Connecting and favourites -/

/-- The text `connect "<sadr>" "<prot>"` with its final newline, as formatted by
`EngFuncs::ClientCmdF( false, "connect \"%s\" \"%s\"\n", sadr, prot )`. -/
def connectCmd (sadr prot : CStr) : CStr :=
  "connect \"".toList ++ sadr ++ "\" \"".toList ++ prot ++ "\"\n".toList

/-- The history update of `CMenuServerBrowser::Connect`: the block guarded by
`historyList.Count() > 20`, then `AddToTail`. -/
def pushHistory (history : List favlist_entry_t) (sadr prot : CStr) : List favlist_entry_t :=
  (if history.length > 20 then FastRemove history 0 else history)
    ++ [favlist_entry_t.new sadr prot true]

/-- The static method `CMenuServerBrowser::Connect( server )`. -/
def CMenuServerBrowser.Connect (E : EngFuncs) (u : UIState) (server : server_t) : UIState :=
  let u1 := { u with menu_internetgames :=
    { u.menu_internetgames with refreshTime := u.realTime + 999999 } }
  if server.havePassword && !u1.staticWaitingPassword then
    { u1 with staticServerSelect := server, staticWaitingPassword := true,
              effects := u1.effects ++ [Effect.askPassword_Show] }
  else
    let u2 := if server.havePassword then u1 else { u1 with password := [] }
    let u3 := { u2 with staticWaitingPassword := false }
    let sadr := E.NET_AdrToString server.adr
    let prot := server.ToProtocol
    let u4 :=
      if u3.menu_internetgames.m_bLanOnly = false then
        SaveLists { u3 with menu_internetgames := { u3.menu_internetgames with
          historyList := pushHistory u3.menu_internetgames.historyList sadr prot } }
      else u3
    { u4 with effects := u4.effects ++
        [Effect.ClientCmd (connectCmd sadr prot), Effect.UI_ConnectionProgress_Connect []] }

/-- Index of the first favourites entry whose `sadr` is `strcmp`-equal to `sadr`: where the
`FOR_EACH_VEC` loop of `CMenuServerBrowser::FavoriteServer` stops. -/
def findFavorite (list : List favlist_entry_t) (sadr : CStr) : Option Nat :=
  let i := list.findIdx (fun e => decide (strcmp e.sadr sadr = 0))
  if i < list.length then some i else none

/-- The method `CMenuServerBrowser::FavoriteServer`. -/
def CMenuServerBrowser.FavoriteServer (E : EngFuncs) (b : CMenuServerBrowser) :
    CMenuServerBrowser :=
  let i := b.gameList_iCurItem
  if !IsValidIndex b.gameListModel.servers i then b
  else
    match b.gameListModel.servers.get? i.toNat with
    | none => b
    | some serv0 =>
      let sadr := E.NET_AdrToString serv0.adr
      let serv := { serv0 with favorite := !serv0.favorite }
      let b1 := { b with gameListModel := { b.gameListModel with
        servers := b.gameListModel.servers.set i.toNat serv } }
      let b2 := ToggleFavoriteButton b1 (!serv.favorite)
      if serv.favorite then
        { b2 with favoritesList :=
            b2.favoritesList ++ [favlist_entry_t.new sadr serv.ToProtocol true] }
      else
        match findFavorite b2.favoritesList sadr with
        | some j => { b2 with favoritesList := FastRemove b2.favoritesList j }
        | none => b2

/-! ### Discovery: refresh, tabs and replies -/

/-- The method `CMenuServerBrowser::ResetPing`. -/
def CMenuServerBrowser.ResetPing (u : UIState) : UIState :=
  { u with menu_internetgames := { u.menu_internetgames with
      gameListModel := { u.menu_internetgames.gameListModel with
        serversRefreshTime := u.doubleTime } } }

/-- The function `UI_MenuResetPing_f`; the menu object exists. -/
def UI_MenuResetPing_f (u : UIState) : UIState :=
  CMenuServerBrowser.ResetPing u

/-- The method `CMenuServerBrowser::ClearList`. -/
def CMenuServerBrowser.ClearList (u : UIState) : UIState :=
  { u with menu_internetgames := { u.menu_internetgames with
      gameListModel := u.menu_internetgames.gameListModel.Flush u.time,
      joinGame_grayed := true, viewGameInfo_grayed := true, favorite_grayed := true } }

/-- The text `queryserver "<sadr>" "<prot>"`, as formatted by
`EngFuncs::ClientCmdF( false, "queryserver \"%s\" \"%s\"", sadr, prot )`. -/
def queryCmd (sadr prot : CStr) : CStr :=
  "queryserver \"".toList ++ sadr ++ "\" \"".toList ++ prot ++ "\"".toList

/-- The method `CMenuServerBrowser::QueryServerList`. -/
def CMenuServerBrowser.QueryServerList (u : UIState) (list : List favlist_entry_t) :
    UIState :=
  UI_MenuResetPing_f { u with effects :=
    (u.effects ++ list.map (fun e => Effect.ClientCmd (queryCmd e.sadr e.prot))) }

/-- The method `CMenuServerBrowser::RefreshList`. -/
def CMenuServerBrowser.RefreshList (u : UIState) : UIState :=
  let u1 := ClearList u
  if u1.menu_internetgames.m_bLanOnly then
    { u1 with effects := u1.effects ++ [Effect.ClientCmd "localservers\n".toList] }
  else if u1.realTime > u1.menu_internetgames.refreshTime2 then
    let u2 :=
      if u1.menu_internetgames.tabSwitch_state = 2 then
        QueryServerList u1 u1.menu_internetgames.favoritesList
      else if u1.menu_internetgames.tabSwitch_state = 3 then
        QueryServerList u1 u1.menu_internetgames.historyList
      else
        { u1 with effects := u1.effects ++ [Effect.ClientCmd "internetservers\n".toList] }
    let u3 := { u2 with menu_internetgames := { u2.menu_internetgames with
      refreshTime2 := u2.realTime + (if u2.cl_nat ≠ 0 then 4000 else 1000),
      refresh_grayed := true } }
    if u3.realTime + 20000 < u3.menu_internetgames.refreshTime then
      { u3 with menu_internetgames := { u3.menu_internetgames with
          refreshTime := u3.realTime + 20000 } }
    else u3
  else u1

/-- The method `CMenuServerBrowser::OnTabSwitch`. -/
def CMenuServerBrowser.OnTabSwitch (u : UIState) : UIState :=
  let idx := u.menu_internetgames.tabSwitch_state
  let u1 : UIState :=
    if idx = 0 ∨ idx = 1 then { u with cl_nat := (idx : ℚ) } else { u with cl_nat := 0 }
  RefreshList (ClearList u1)

/-- The method `CMenuServerBrowser::AddServerToList` (the discovery callback), in a build
without `XASH_ALL_SERVERS`. -/
def CMenuServerBrowser.AddServerToList (E : EngFuncs) (u : UIState) (adr : netadr_t)
    (info : CStr) : UIState :=
  if stricmp E.gamefolder (Info_ValueForKey info "gamedir".toList) ≠ 0 then u
  else if !u.menu_internetgames.wasInit then u
  else if !u.menu_internetgames.isVisible then u
  else
    let s := E.NET_AdrToString adr
    let is_favorite := u.menu_internetgames.favoritesList.any
      (fun e => decide (strcmp e.sadr s = 0))
    let m1 := u.menu_internetgames.gameListModel.AddServerToList E adr info is_favorite
      u.doubleTime
    let u1 : UIState := { u with menu_internetgames := { u.menu_internetgames with
      gameListModel := m1, joinGame_grayed := false, viewGameInfo_grayed := false } }
    let u2 := MaybeEnableFavoriteButton u1
    { u2 with menu_internetgames := OnChangeSelectedServer u2.menu_internetgames }

/-- The descriptor that `CMenuServerBrowser::AddServer` builds in `info` for the entered text,
the game folder and the value of the protocol spin control. -/
def customServerInfo (host gamefolder : CStr) (protocol : Int) : CStr :=
  "\\host\\".toList ++ host ++ ("\\gamedir\\".toList ++ gamefolder) ++
    "\\map\\unknown\\numcl\\0\\maxcl\\0".toList ++
    (if protocol = 0 then "\\p\\49".toList
     else if protocol = 1 then "\\p\\48\\legacy\\1".toList
     else if protocol = 2 then "\\p\\48\\gs\\1".toList
     else [])

/-- The record `serv` that `CMenuServerBrowser::AddServer` builds for the parsed address. -/
def customServer (E : EngFuncs) (adr : netadr_t) (host : CStr) (protocol : Int) : server_t :=
  ((server_t.new adr (customServerInfo host E.gamefolder protocol) false).UpdateData E).SetPing
    (99999 / 10000)

/-- The method `CMenuServerBrowser::AddServer`. `tabSwitch.SetState( 2 )` is taken to store
the state. -/
def CMenuServerBrowser.AddServer (E : EngFuncs) (u : UIState) : UIState :=
  match E.StringToAdr u.menu_internetgames.addressField with
  | none =>
    { u with effects := u.effects ++ [Effect.UI_ShowMessageBox "Invalid address".toList] }
  | some adr =>
    let b := u.menu_internetgames
    let serv := customServer E adr b.addressField b.serverProtocol
    let entry := favlist_entry_t.new b.addressField serv.ToProtocol false
    let b1 : CMenuServerBrowser := { b with favoritesList := b.favoritesList ++ [entry] }
    let b2 : CMenuServerBrowser :=
      if b1.tabSwitch_state ≠ 2 then { b1 with tabSwitch_state := 2 } else b1
    let b3 : CMenuServerBrowser := { b2 with gameListModel := { b2.gameListModel with
      servers := b2.gameListModel.servers ++ [serv] } }
    let b4 : CMenuServerBrowser := { b3 with refreshTime2 := u.realTime }
    RefreshList { u with menu_internetgames := b4 }

open CMenuServerBrowser (Connect FavoriteServer SaveLists SaveServerListToFile
  ParseServerListFromFile ToggleFavoriteButton MaybeEnableFavoriteButton OnChangeSelectedServer
  ResetPing ClearList QueryServerList RefreshList OnTabSwitch AddServer)

/-! ## A sample engine and sample data -/

/-- Three-way comparison of two byte sequences, with results -1, 0 and 1. -/
def compareBytes : List Nat → List Nat → Int
  | [], [] => 0
  | [], _ :: _ => -1
  | _ :: _, [] => 1
  | a :: as, b :: bs => if a = b then compareBytes as bs else if a < b then -1 else 1

/-- Dotted decimal rendering of the bytes of an address, cut to 63 bytes. -/
def dottedDecimal (a : netadr_t) : CStr :=
  (String.intercalate "." (a.raw.map toString)).toList.take 63

/-- Reads a dotted decimal text with an optional port into the numbers between its dots and
colon. -/
def parseDotted : Nat → CStr → List Nat
  | acc, [] => [acc]
  | acc, c :: cs =>
    if c = '.' ∨ c = ':' then acc :: parseDotted 0 cs
    else parseDotted (acc * 10 + (c.toNat - 48)) cs

/-- A sample address parser: a text that starts with a digit is accepted, its leading run of
digits, dots and colons is read as the address and whatever follows is ignored; any other
text is rejected. -/
def parseAddress (s : CStr) : Option netadr_t :=
  if s.head?.map Char.isDigit = some true then
    some ⟨parseDotted 0 (s.takeWhile (fun c => c.isDigit || c == '.' || c == ':'))⟩
  else none

/-- A sample engine: addresses compare by their bytes and print in dotted decimal,
`colorstricmp` ignores no colour codes, and the game folder is `valve`. -/
def sampleEngine : EngFuncs where
  NET_CompareAdr a b := compareBytes a.raw b.raw
  NET_AdrToString := dottedDecimal
  colorstricmp := stricmp
  NET_CompareAdr_symm := by
    intro a b
    have key : ∀ x y : List Nat, compareBytes x y = 0 → compareBytes y x = 0 := by
      intro x
      induction x with
      | nil => intro y; cases y <;> simp [compareBytes]
      | cons c cs ih =>
        intro y
        cases y with
        | nil => simp [compareBytes]
        | cons d ds =>
          by_cases hcd : c = d
          · subst hcd
            simpa [compareBytes] using ih ds
          · have hdc : ¬ d = c := fun h => hcd h.symm
            simp only [compareBytes, if_neg hcd, if_neg hdc]
            split <;> simp
    exact key a.raw b.raw
  NET_AdrToString_length := by
    intro a
    have h := List.length_take_le 63 (String.intercalate "." (a.raw.map toString)).toList
    unfold dottedDecimal
    omega
  StringToAdr := parseAddress
  gamefolder := "valve".toList
  gamefolder_name := by decide

/-- A second sample engine: as `sampleEngine`, but two addresses compare equal exactly when
they print alike. -/
def textEngine : EngFuncs :=
  { sampleEngine with
    NET_CompareAdr := fun a b => if dottedDecimal a = dottedDecimal b then 0 else 1
    NET_CompareAdr_symm := by
      intro a b h
      by_cases hab : dottedDecimal a = dottedDecimal b
      · simp [hab]
      · simp [hab] at h }

/-- The browser once shown, before anything else has happened: empty lists, nothing selected,
Internet mode. -/
def sampleBrowser : CMenuServerBrowser :=
  { gameListModel := CMenuGameListModel.new, gameList_iCurItem := 0,
    joinGame_grayed := true, viewGameInfo_grayed := true, favorite_grayed := true,
    refresh_grayed := false, favorite_szName := "Favorite".toList, tabSwitch_state := 0,
    refreshTime := 500, refreshTime2 := 500, m_bLanOnly := false,
    favoritesList := [], historyList := [], addressField := [], serverProtocol := 0,
    wasInit := true, isVisible := true }

/-- A sample process state around `sampleBrowser`: no pending connect, no files. -/
def sampleState : UIState :=
  { menu_internetgames := sampleBrowser,
    staticServerSelect := server_t.new ⟨[]⟩ [] false,
    staticWaitingPassword := false, realTime := 0, cl_nat := 0, password := [],
    time := 0, doubleTime := 0, files := [], effects := [] }

/-- A sample favourites or history list: entries for `10.0.0.1` to `10.0.0.n`, oldest first. -/
def sampleHistory (n : Nat) : List favlist_entry_t :=
  (List.range n).map
    (fun i =>
      favlist_entry_t.new ("10.0.0.".toList ++ (toString (i + 1)).toList) "49".toList true)

/-- The record of the server at `10.0.0.k` that answered with descriptor `info`. -/
def sampleServer (k : Nat) (info : CStr) : server_t :=
  ((server_t.new ⟨[10, 0, 0, k]⟩ info false).UpdateData sampleEngine).SetPing 0

/-- The sample state with `sampleHistory n` as its history list. -/
def stateWithHistory (n : Nat) : UIState :=
  { sampleState with
    menu_internetgames := { sampleBrowser with historyList := sampleHistory n } }

/-- The sample state with the given records in the table, row 0 selected. -/
def stateWithServers (servers : List server_t) : UIState :=
  { sampleState with
    menu_internetgames := { sampleBrowser with
      gameListModel := { CMenuGameListModel.new with servers := servers } } }

/-- The sample state at time 1000 ms with `10.0.0.1` as its only favourite, the add-server
dialog filled in with the given text and protocol choice, and the given tab active. -/
def stateWithAddress (text : CStr) (protocol tab : Int) : UIState :=
  { sampleState with
    realTime := 1000
    menu_internetgames := { sampleBrowser with
      tabSwitch_state := tab, favoritesList := sampleHistory 1, addressField := text,
      serverProtocol := protocol } }

/-! ## Vocabulary of the properties -/

/-- One event in the life of the table model: a discovery reply handed to
`CMenuGameListModel::AddServerToList`, a call of `Sort`, or a call of `Update`. -/
inductive ModelOp where
  | addServer (adr : netadr_t) (info : CStr) (is_favorite : Bool) (now : ℚ)
  | sort (column : Int) (ascend : Bool)
  | update

/-- The state after one event. -/
def ModelOp.apply (E : EngFuncs) (u : UIState) : ModelOp → UIState
  | .addServer adr info is_favorite now =>
    { u with menu_internetgames := { u.menu_internetgames with gameListModel :=
        (u.menu_internetgames.gameListModel.AddServerToList E adr info is_favorite now) } }
  | .sort column ascend =>
    { u with menu_internetgames := { u.menu_internetgames with gameListModel :=
        (u.menu_internetgames.gameListModel.Sort E column ascend).2 } }
  | .update => CMenuGameListModel.Update E u

/-- The state after a sequence of events, first event first. -/
def runOps (E : EngFuncs) (u : UIState) (ops : List ModelOp) : UIState :=
  ops.foldl (ModelOp.apply E) u

/-- No two records of the list have addresses that compare equal, and no two records have
the same descriptor string. -/
def NoDuplicates (E : EngFuncs) (servers : List server_t) : Prop :=
  servers.Pairwise (fun a b => E.NET_CompareAdr a.adr b.adr ≠ 0 ∧ a.info ≠ b.info)

instance (E : EngFuncs) (servers : List server_t) : Decidable (NoDuplicates E servers) := by
  unfold NoDuplicates
  infer_instance

/-- The descriptor of a reply fits the 512-byte `info` buffer of a record. -/
def ModelOp.fits : ModelOp → Prop
  | .addServer _ info _ _ => info.length < 512
  | _ => True

/-- The commands handed to the engine's command buffer, in order. -/
def commandsOf : List Effect → List CStr
  | [] => []
  | Effect.ClientCmd cmd :: rest => cmd :: commandsOf rest
  | _ :: rest => commandsOf rest

/-- A string that reads back as one token of at most `size - 1` bytes: not empty, free of
white space, and short enough for a buffer of `size` bytes. -/
def IsToken (s : CStr) (size : Nat) : Prop :=
  s ≠ [] ∧ (∀ c ∈ s, c.isWhitespace = false) ∧ s.length < size

instance (s : CStr) (size : Nat) : Decidable (IsToken s size) := by
  unfold IsToken
  infer_instance

/-- The favourites list holds an entry with address text `sadr`. -/
def hasAddress (list : List favlist_entry_t) (sadr : CStr) : Prop :=
  ∃ e ∈ list, e.sadr = sadr

instance (list : List favlist_entry_t) (sadr : CStr) : Decidable (hasAddress list sadr) := by
  unfold hasAddress
  infer_instance

/-- Index `j` holds the first entry of the list whose address text is `sadr`. -/
def IsFirstMatch (list : List favlist_entry_t) (sadr : CStr) (j : Nat) : Prop :=
  (∃ e, list.get? j = some e ∧ e.sadr = sadr) ∧
  ∀ k e, k < j → list.get? k = some e → e.sadr ≠ sadr

/-- No two entries of the list share the same address text. -/
def UniqueAddresses (list : List favlist_entry_t) : Prop :=
  (list.map (fun e => e.sadr)).Nodup

instance (list : List favlist_entry_t) : Decidable (UniqueAddresses list) := by
  unfold UniqueAddresses
  infer_instance

/-- Joins the tokens of a descriptor with backslashes. -/
def joinBackslash : List CStr → CStr
  | [] => []
  | [t] => t
  | t :: t2 :: ts => t ++ '\\' :: joinBackslash (t2 :: ts)

/-- The keys and values, in order, of the descriptor of a custom server: `host`, `gamedir`,
`map`, `numcl`, `maxcl`, then the keys of the chosen protocol. -/
def customServerKeys (host gamefolder : CStr) (protocol : Int) : List CStr :=
  ["host".toList, host, "gamedir".toList, gamefolder, "map".toList, "unknown".toList,
    "numcl".toList, "0".toList, "maxcl".toList, "0".toList] ++
  (if protocol = 0 then ["p".toList, "49".toList]
   else if protocol = 1 then ["p".toList, "48".toList, "legacy".toList, "1".toList]
   else if protocol = 2 then ["p".toList, "48".toList, "gs".toList, "1".toList]
   else [])

/-- Every record that is not legacy stands before every legacy record, and of two records
with the same legacy flag the earlier one is related by `r` to the later one. -/
def LegacyLastOrderedBy (r : server_t → server_t → Prop) (l : List server_t) : Prop :=
  l.Pairwise (fun x y => (x.isLegacy = true → y.isLegacy = true) ∧
    (x.isLegacy = y.isLegacy → r x y))

/-- The comparator `cmp` is a consistent order that compares two records as the pairs
(isLegacy, key) compare lexicographically, `false` before `true`: its sign is the sign of
that comparison, it is antisymmetric in sign, transitive and total, and a list in which every
record is followed by one that `cmp` does not put before it has all records that are not
legacy first and, among records with the same legacy flag, the keys in ascending order. -/
def IsLegacyKeyOrder {K : Type} [LinearOrder K] (cmp : server_t → server_t → Int)
    (key : server_t → K) : Prop :=
  (∀ a b, (cmp a b < 0 ↔ toLex (a.isLegacy, key a) < toLex (b.isLegacy, key b)) ∧
      (cmp a b = 0 ↔ toLex (a.isLegacy, key a) = toLex (b.isLegacy, key b)) ∧
      (0 < cmp a b ↔ toLex (b.isLegacy, key b) < toLex (a.isLegacy, key a))) ∧
  (∀ a b, Int.sign (cmp b a) = -Int.sign (cmp a b)) ∧
  (∀ a b c, cmp a b ≤ 0 → cmp b c ≤ 0 → cmp a c ≤ 0) ∧
  (∀ a b, cmp a b ≤ 0 ∨ cmp b a ≤ 0) ∧
  (∀ l : List server_t, l.Chain' (fun x y => cmp x y ≤ 0) →
    LegacyLastOrderedBy (fun x y => key x ≤ key y) l)

/-- The lines of a saved list as the file format has them: one line `<sadr> <prot>` for each
entry marked favorited, in list order. -/
def savedLines (list : List favlist_entry_t) : List CStr :=
  (list.filter (fun e => e.favorited)).map
    (fun e => e.sadr ++ " ".toList ++ e.prot ++ "\n".toList)

/-- The number that a plain decimal numeral denotes: `some n` for a string that is not empty
and consists of decimal digits, the most significant first; `none` for any other string. -/
def decimalValue (s : CStr) : Option Nat :=
  if s ≠ [] ∧ s.all Char.isDigit = true then
    some (Nat.ofDigits 10 (s.reverse.map (fun c => c.toNat - 48)))
  else none

/-- The favourite flags of the table agree with the favourites list: every record flagged
favourite has an entry with its address text in the list, and no two records of the table
have the same address text. -/
def FlagsAgree (E : EngFuncs) (servers : List server_t) (favorites : List favlist_entry_t) :
    Prop :=
  (∀ s ∈ servers, s.favorite = true → hasAddress favorites (E.NET_AdrToString s.adr)) ∧
  (servers.map (fun s => E.NET_AdrToString s.adr)).Nodup

/-- The states the browser can be in, as far as the table and the favourites list go. The
table is empty when the browser is shown (`Show` reloads the favourites list and flushes the
table) and after every `ClearList`. From there the code changes the table or the favourites
list by a discovery reply, by `FavoriteServer`, by `Sort`, by `Update`, by `AddServer`, by
`RefreshList` and by `OnTabSwitch`; any other step (a selection, the passing of time, an edit
of the address field, a connect, saving the lists) leaves both as they are. -/
inductive Reachable (E : EngFuncs) : UIState → Prop where
  | cleared (u : UIState) (h : u.menu_internetgames.gameListModel.servers = []) :
    Reachable E u
  | reply (u : UIState) (adr : netadr_t) (info : CStr) (h : Reachable E u) :
    Reachable E (CMenuServerBrowser.AddServerToList E u adr info)
  | favorite (u : UIState) (h : Reachable E u) :
    Reachable E { u with menu_internetgames := FavoriteServer E u.menu_internetgames }
  | sort (u : UIState) (column : Int) (ascend : Bool) (h : Reachable E u) :
    Reachable E { u with menu_internetgames := { u.menu_internetgames with
      gameListModel := (u.menu_internetgames.gameListModel.Sort E column ascend).2 } }
  | update (u : UIState) (h : Reachable E u) : Reachable E (CMenuGameListModel.Update E u)
  | addServer (u : UIState) (h : Reachable E u) : Reachable E (AddServer E u)
  | refresh (u : UIState) (h : Reachable E u) : Reachable E (RefreshList u)
  | tabSwitch (u : UIState) (h : Reachable E u) : Reachable E (OnTabSwitch u)
  | other (u v : UIState) (h : Reachable E u)
    (hservers : v.menu_internetgames.gameListModel.servers =
      u.menu_internetgames.gameListModel.servers)
    (hfavorites : v.menu_internetgames.favoritesList = u.menu_internetgames.favoritesList) :
    Reachable E v

/-! ## Auxiliary facts -/

theorem stricmp_self (a : CStr) : stricmp a a = 0 := by
  induction a with
  | nil => rfl
  | cons c cs ih => simp [stricmp, ih]

theorem strcmp_eq_zero_iff (a b : CStr) : strcmp a b = 0 ↔ a = b := by
  induction a generalizing b with
  | nil => cases b <;> simp [strcmp]
  | cons c cs ih =>
    cases b with
    | nil => simp [strcmp]
    | cons d ds =>
      by_cases hcd : c = d
      · subst hcd
        simp [strcmp, ih]
      · simp only [strcmp, if_neg hcd]
        constructor
        · intro h
          split at h <;> simp at h
        · intro h
          exact absurd (List.cons.inj h).1 hcd

theorem Q_strncpy_of_length_lt (src : CStr) (size : Nat) (h : src.length < size) :
    Q_strncpy src size = src := by
  unfold Q_strncpy
  exact List.take_of_length_le (by omega)

theorem qsort_perm {α : Type} (compar : α → α → Int) (base : List α) :
    (qsort compar base).Perm base :=
  List.perm_insertionSort _ base

theorem Sort_servers_perm (E : EngFuncs) (m : CMenuGameListModel) (column : Int)
    (ascend : Bool) : (m.Sort E column ascend).2.servers.Perm m.servers := by
  unfold CMenuGameListModel.Sort
  simp only
  split_ifs <;> first | exact List.Perm.refl _ | exact qsort_perm _ _

theorem UpdateData_adr (E : EngFuncs) (s : server_t) : (s.UpdateData E).adr = s.adr := rfl

theorem UpdateData_info (E : EngFuncs) (s : server_t) : (s.UpdateData E).info = s.info := rfl

theorem UpdateData_favorite (E : EngFuncs) (s : server_t) :
    (s.UpdateData E).favorite = s.favorite := rfl

theorem isDuplicated_eq_true_iff (E : EngFuncs) (servers : List server_t) (adr : netadr_t)
    (info : CStr) :
    isDuplicated E servers adr info = true ↔
      ∃ s ∈ servers, E.NET_CompareAdr s.adr adr = 0 ∨ stricmp s.info info = 0 := by
  simp [isDuplicated]

/-- The record that `CMenuGameListModel::AddServerToList` appends when it accepts a reply. -/
theorem AddServerToList_servers_of_not_duplicated (E : EngFuncs) (m : CMenuGameListModel)
    (adr : netadr_t) (info : CStr) (fav : Bool) (now : ℚ)
    (h : isDuplicated E m.servers adr info = false) :
    (m.AddServerToList E adr info fav now).servers.Perm
      (m.servers ++ [((server_t.new adr info fav).UpdateData E).SetPing
        (now - m.serversRefreshTime)]) := by
  unfold CMenuGameListModel.AddServerToList
  simp only [h, Bool.false_eq_true, if_false]
  split_ifs
  · exact Sort_servers_perm E _ _ _
  · exact List.Perm.refl _

theorem NoDuplicates_perm (E : EngFuncs) {l l' : List server_t} (hp : l.Perm l')
    (h : NoDuplicates E l) : NoDuplicates E l' := by
  unfold NoDuplicates at h ⊢
  refine hp.pairwise h ?_
  intro x y hxy
  exact ⟨fun h0 => hxy.1 (E.NET_CompareAdr_symm _ _ h0), fun h0 => hxy.2 h0.symm⟩

theorem NoDuplicates_map_UpdateData (E : EngFuncs) {l : List server_t}
    (h : NoDuplicates E l) : NoDuplicates E (l.map (server_t.UpdateData E)) := by
  unfold NoDuplicates at h ⊢
  rw [List.pairwise_map]
  exact h

theorem NoDuplicates_AddServerToList (E : EngFuncs) (m : CMenuGameListModel)
    (adr : netadr_t) (info : CStr) (fav : Bool) (now : ℚ) (hlen : info.length < 512)
    (h : NoDuplicates E m.servers) :
    NoDuplicates E (m.AddServerToList E adr info fav now).servers := by
  cases hdup : isDuplicated E m.servers adr info with
  | true =>
    unfold CMenuGameListModel.AddServerToList
    simpa [hdup] using h
  | false =>
    refine NoDuplicates_perm E
      (AddServerToList_servers_of_not_duplicated E m adr info fav now hdup).symm ?_
    have hnot : ¬ ∃ s ∈ m.servers, E.NET_CompareAdr s.adr adr = 0 ∨ stricmp s.info info = 0 := by
      rw [← isDuplicated_eq_true_iff, hdup]
      simp
    unfold NoDuplicates at h ⊢
    rw [List.pairwise_append]
    refine ⟨h, List.pairwise_singleton _ _, ?_⟩
    intro a ha b hb
    rw [List.mem_singleton] at hb
    subst hb
    have hinfo : (((server_t.new adr info fav).UpdateData E).SetPing
        (now - m.serversRefreshTime)).info = info :=
      Q_strncpy_of_length_lt info 512 hlen
    have hadr : (((server_t.new adr info fav).UpdateData E).SetPing
        (now - m.serversRefreshTime)).adr = adr := rfl
    rw [hinfo, hadr]
    constructor
    · intro h0
      exact hnot ⟨a, ha, Or.inl h0⟩
    · intro h0
      exact hnot ⟨a, ha, Or.inr (by rw [h0]; exact stricmp_self info)⟩

theorem NoDuplicates_Update (E : EngFuncs) (u : UIState)
    (h : NoDuplicates E u.menu_internetgames.gameListModel.servers) :
    NoDuplicates E (CMenuGameListModel.Update E u).menu_internetgames.gameListModel.servers := by
  have hmap := NoDuplicates_map_UpdateData E h
  have hOn : ∀ b : CMenuServerBrowser, (OnChangeSelectedServer b).gameListModel = b.gameListModel := by
    intro b
    unfold OnChangeSelectedServer ToggleFavoriteButton
    split_ifs <;> try rfl
    all_goals (split <;> try rfl)
    all_goals (split_ifs <;> rfl)
  unfold CMenuGameListModel.Update
  simp only
  split_ifs
  · refine NoDuplicates_perm E (Sort_servers_perm E _ _ _).symm ?_
    rw [hOn]
    exact hmap
  · rw [hOn]
    exact hmap
  · exact hmap

theorem NoDuplicates_apply (E : EngFuncs) (u : UIState) (op : ModelOp) (hfit : op.fits)
    (h : NoDuplicates E u.menu_internetgames.gameListModel.servers) :
    NoDuplicates E (op.apply E u).menu_internetgames.gameListModel.servers := by
  cases op with
  | addServer adr info fav now => exact NoDuplicates_AddServerToList E _ adr info fav now hfit h
  | sort column ascend => exact NoDuplicates_perm E (Sort_servers_perm E _ _ _).symm h
  | update => exact NoDuplicates_Update E u h

/-! ## C1: duplicate suppression as an invariant -/

/-- C1, amended: starting from an empty server list, after every finite sequence of discovery
replies whose descriptors fit the 512-byte `info` buffer of a record, fed through
`CMenuGameListModel::AddServerToList` and interleaved with `Sort` and `Update`, no two records
have addresses that compare equal and no two records have the same descriptor string. -/
theorem C1_no_duplicates (E : EngFuncs) (u : UIState) (ops : List ModelOp)
    (hempty : u.menu_internetgames.gameListModel.servers = [])
    (hfit : ∀ op ∈ ops, op.fits) :
    NoDuplicates E (runOps E u ops).menu_internetgames.gameListModel.servers := by
  have hstart : NoDuplicates E u.menu_internetgames.gameListModel.servers := by
    rw [hempty]
    exact List.Pairwise.nil
  clear hempty
  unfold runOps
  induction ops generalizing u with
  | nil => exact hstart
  | cons op rest ih =>
    rw [List.foldl_cons]
    refine ih (op.apply E u) (fun o ho => hfit o (List.mem_cons_of_mem _ ho)) ?_
    exact NoDuplicates_apply E u op (hfit op (List.mem_cons_self _ _)) hstart

/-- Witness for C1: two replies from different servers, a repeated reply, a sort by name and an
update leave two records, without duplicates. -/
theorem C1_no_duplicates_witness :
    (runOps sampleEngine sampleState
      [ModelOp.addServer ⟨[10, 0, 0, 1]⟩ "\\host\\One\\map\\crossfire".toList false 1,
       ModelOp.addServer ⟨[10, 0, 0, 2]⟩ "\\host\\Two\\map\\bounce".toList false 2,
       ModelOp.addServer ⟨[10, 0, 0, 1]⟩ "\\host\\One\\map\\crossfire".toList false 3,
       ModelOp.sort COLUMN_NAME true,
       ModelOp.update]).menu_internetgames.gameListModel.servers.length = 2 ∧
    NoDuplicates sampleEngine (runOps sampleEngine sampleState
      [ModelOp.addServer ⟨[10, 0, 0, 1]⟩ "\\host\\One\\map\\crossfire".toList false 1,
       ModelOp.addServer ⟨[10, 0, 0, 2]⟩ "\\host\\Two\\map\\bounce".toList false 2,
       ModelOp.addServer ⟨[10, 0, 0, 1]⟩ "\\host\\One\\map\\crossfire".toList false 3,
       ModelOp.sort COLUMN_NAME true,
       ModelOp.update]).menu_internetgames.gameListModel.servers :=
  ⟨by decide!, C1_no_duplicates sampleEngine sampleState _ rfl (by
    intro op hop
    simp only [List.mem_cons, List.mem_singleton, List.not_mem_nil, or_false] at hop
    rcases hop with rfl | rfl | rfl | rfl | rfl <;> simp [ModelOp.fits])⟩

/-- Counterexample to C1 as stated: the same descriptor of 606 bytes, received from two
different addresses, is stored twice; both records hold its first 511 bytes. -/
theorem C1_counterexample :
    ¬ NoDuplicates sampleEngine (runOps sampleEngine sampleState
      [ModelOp.addServer ⟨[10, 0, 0, 1]⟩ ("\\host\\".toList ++ List.replicate 600 'x') false 1,
       ModelOp.addServer ⟨[10, 0, 0, 2]⟩ ("\\host\\".toList ++ List.replicate 600 'x') false 1]
      ).menu_internetgames.gameListModel.servers := by
  set_option maxRecDepth 100000 in
  decide!

/-! ## C2: when a reply is accepted -/

/-- C2, amended: for a descriptor that fits the 512-byte `info` buffer,
`CMenuGameListModel::AddServerToList` rejects the reply (model unchanged) if and only if some
existing record has an address that compares equal or a descriptor that `stricmp` finds equal,
that is, equal up to the case of ASCII letters; otherwise exactly one record is added,
carrying that address, that descriptor and the favourite hint. -/
theorem C2_accept_iff (E : EngFuncs) (m : CMenuGameListModel) (adr : netadr_t) (info : CStr)
    (fav : Bool) (now : ℚ) (hlen : info.length < 512) :
    (m.AddServerToList E adr info fav now = m ↔
      ∃ s ∈ m.servers, E.NET_CompareAdr s.adr adr = 0 ∨ stricmp s.info info = 0) ∧
    ((¬ ∃ s ∈ m.servers, E.NET_CompareAdr s.adr adr = 0 ∨ stricmp s.info info = 0) →
      ∃ r : server_t, r.adr = adr ∧ r.info = info ∧ r.favorite = fav ∧
        (m.AddServerToList E adr info fav now).servers.Perm (m.servers ++ [r])) := by
  have hacc : (¬ ∃ s ∈ m.servers, E.NET_CompareAdr s.adr adr = 0 ∨ stricmp s.info info = 0) →
      ∃ r : server_t, r.adr = adr ∧ r.info = info ∧ r.favorite = fav ∧
        (m.AddServerToList E adr info fav now).servers.Perm (m.servers ++ [r]) := by
    intro hnot
    have hdup : isDuplicated E m.servers adr info = false := by
      rw [← Bool.not_eq_true, isDuplicated_eq_true_iff]
      exact hnot
    exact ⟨_, rfl, Q_strncpy_of_length_lt info 512 hlen, rfl,
      AddServerToList_servers_of_not_duplicated E m adr info fav now hdup⟩
  refine ⟨⟨?_, ?_⟩, hacc⟩
  · intro heq
    by_contra hnot
    obtain ⟨r, -, -, -, hperm⟩ := hacc hnot
    have hlen2 := hperm.length_eq
    rw [heq] at hlen2
    simp at hlen2
  · intro hex
    have hdup : isDuplicated E m.servers adr info = true :=
      (isDuplicated_eq_true_iff E m.servers adr info).2 hex
    unfold CMenuGameListModel.AddServerToList
    simp [hdup]

/-- Witness for C2: a first reply is accepted into the empty model. -/
theorem C2_accept_iff_witness :
    "\\host\\One".toList.length < 512 ∧
    ∃ r : server_t, r.adr = ⟨[10, 0, 0, 1]⟩ ∧ r.info = "\\host\\One".toList ∧
      r.favorite = true ∧
      (CMenuGameListModel.new.AddServerToList sampleEngine ⟨[10, 0, 0, 1]⟩
        "\\host\\One".toList true 1).servers.Perm (CMenuGameListModel.new.servers ++ [r]) :=
  ⟨by decide, (C2_accept_iff sampleEngine CMenuGameListModel.new ⟨[10, 0, 0, 1]⟩
    "\\host\\One".toList true 1 (by decide)).2 (by simp [CMenuGameListModel.new])⟩

/-- Counterexample to C2 as stated: the model holds the record of `10.0.0.1` with descriptor
`\host\a`; the reply of `10.0.0.2` with descriptor `\host\A` has neither an equal address nor
a byte-equal descriptor among the records, and is rejected all the same. -/
theorem C2_counterexample :
    (∀ s ∈ (CMenuGameListModel.new.AddServerToList sampleEngine ⟨[10, 0, 0, 1]⟩
        "\\host\\a".toList false 1).servers,
      sampleEngine.NET_CompareAdr s.adr ⟨[10, 0, 0, 2]⟩ ≠ 0 ∧ s.info ≠ "\\host\\A".toList) ∧
    (CMenuGameListModel.new.AddServerToList sampleEngine ⟨[10, 0, 0, 1]⟩
        "\\host\\a".toList false 1).AddServerToList sampleEngine ⟨[10, 0, 0, 2]⟩
        "\\host\\A".toList false 2 =
      CMenuGameListModel.new.AddServerToList sampleEngine ⟨[10, 0, 0, 1]⟩
        "\\host\\a".toList false 1 := by
  decide!

/-! ## C3: the rank bonus -/

/-- The rank bonus decides the order of a legacy record `A` and a non-legacy record `B`
whenever the field comparison stays below 100 in magnitude: both generated comparators then
order `A` after `B`. -/
theorem rank_bonus_dominates (method : server_t → server_t → Int) (A B : server_t)
    (hA : A.isLegacy = true) (hB : B.isLegacy = false)
    (hAB : |method A B| < 100) (hBA : |method B A| < 100) :
    0 < comparAscend method A B ∧ comparAscend method B A < 0 ∧
    0 < comparDescend method A B ∧ comparDescend method B A < 0 := by
  have h1 : A.Rank B = 100 := by simp [server_t.Rank, hA, hB]
  have h2 : B.Rank A = -100 := by simp [server_t.Rank, hA, hB]
  rw [abs_lt] at hAB hBA
  unfold comparAscend comparDescend
  rw [h1, h2]
  refine ⟨?_, ?_, ?_, ?_⟩ <;> omega

theorem ClientCmp_abs_lt (a b : server_t) : |a.ClientCmp b| < 100 := by
  unfold server_t.ClientCmp
  split_ifs <;> simp

theorem PingCmp_abs_lt (a b : server_t) : |a.PingCmp b| < 100 := by
  unfold server_t.PingCmp
  split_ifs <;> simp

/-- On the players and ping columns a legacy record `A` is ordered after a non-legacy record
`B` by the ascending and by the descending comparator. -/
theorem rank_bonus_players_ping (A B : server_t)
    (hA : A.isLegacy = true) (hB : B.isLegacy = false) :
    (0 < server_t.ClientCmpAscend A B ∧ server_t.ClientCmpAscend B A < 0 ∧
      0 < server_t.ClientCmpDescend A B ∧ server_t.ClientCmpDescend B A < 0) ∧
    (0 < server_t.PingCmpAscend A B ∧ server_t.PingCmpAscend B A < 0 ∧
      0 < server_t.PingCmpDescend A B ∧ server_t.PingCmpDescend B A < 0) :=
  ⟨rank_bonus_dominates server_t.ClientCmp A B hA hB (ClientCmp_abs_lt A B)
      (ClientCmp_abs_lt B A),
    rank_bonus_dominates server_t.PingCmp A B hA hB (PingCmp_abs_lt A B) (PingCmp_abs_lt B A)⟩

/-- Witness: a legacy server with 30 players against a non-legacy server with 2 players. -/
theorem rank_bonus_players_ping_witness :
    (sampleServer 1 "\\host\\Old\\numcl\\30\\legacy\\1".toList).isLegacy = true ∧
    (sampleServer 2 "\\host\\New\\numcl\\2".toList).isLegacy = false ∧
    0 < server_t.ClientCmpDescend (sampleServer 1 "\\host\\Old\\numcl\\30\\legacy\\1".toList)
      (sampleServer 2 "\\host\\New\\numcl\\2".toList) :=
  ⟨by decide, by decide,
    (rank_bonus_players_ping (sampleServer 1 "\\host\\Old\\numcl\\30\\legacy\\1".toList)
      (sampleServer 2 "\\host\\New\\numcl\\2".toList) (by decide) (by decide)).1.2.2.1⟩

/-- C3, evaluated at a failing input: the record `Old` is legacy with map `2fort`, the record
`New` is not legacy and its map name starts with byte 0xC3; `MapCmpAscend` orders `Old`
before `New` in both argument orders, and sorting the table by map, ascending, puts the
legacy record first. -/
theorem C3_map_column_legacy_first :
    (sampleServer 1 "\\host\\Old\\map\\2fort\\legacy\\1".toList).isLegacy = true ∧
    (sampleServer 2 "\\host\\New\\map\\\xc3\xa9cole".toList).isLegacy = false ∧
    server_t.MapCmpAscend (sampleServer 1 "\\host\\Old\\map\\2fort\\legacy\\1".toList)
      (sampleServer 2 "\\host\\New\\map\\\xc3\xa9cole".toList) = -45 ∧
    server_t.MapCmpAscend (sampleServer 2 "\\host\\New\\map\\\xc3\xa9cole".toList)
      (sampleServer 1 "\\host\\Old\\map\\2fort\\legacy\\1".toList) = 45 ∧
    ((CMenuGameListModel.Sort sampleEngine
        (stateWithServers [sampleServer 2 "\\host\\New\\map\\\xc3\xa9cole".toList,
          sampleServer 1 "\\host\\Old\\map\\2fort\\legacy\\1".toList]
        ).menu_internetgames.gameListModel COLUMN_MAP true).2.servers.map
      (fun s => (s.name, s.isLegacy))) = [("Old".toList, true), ("New".toList, false)] := by
  decide!

/-! ## C4 and C5: the history list -/

/-- C4, evaluated at a failing input: with 20 entries in the history list, a successful
`Connect` in Internet mode leaves 21 entries. -/
theorem C4_history_reaches_21 :
    (stateWithHistory 20).menu_internetgames.historyList.length = 20 ∧
    (Connect sampleEngine (stateWithHistory 20)
      (sampleServer 21 "\\host\\Game".toList)).menu_internetgames.historyList.length = 21 := by
  decide!

/-- C5, evaluated at a failing input: starting from the history `10.0.0.1` to `10.0.0.20`,
connecting to `10.0.0.21`, `10.0.0.22` and `10.0.0.23` in turn. The second connect evicts
`10.0.0.1` but moves `10.0.0.21` to the front; the third then evicts `10.0.0.21`, while the
older `10.0.0.2` stays. -/
theorem C5_eviction_not_oldest :
    (Connect sampleEngine (Connect sampleEngine (stateWithHistory 20)
        (sampleServer 21 "\\host\\Game".toList))
        (sampleServer 22 "\\host\\Game".toList)).menu_internetgames.historyList.map
      (fun e => e.sadr) =
      ["10.0.0.21", "10.0.0.2", "10.0.0.3", "10.0.0.4", "10.0.0.5", "10.0.0.6", "10.0.0.7",
        "10.0.0.8", "10.0.0.9", "10.0.0.10", "10.0.0.11", "10.0.0.12", "10.0.0.13",
        "10.0.0.14", "10.0.0.15", "10.0.0.16", "10.0.0.17", "10.0.0.18", "10.0.0.19",
        "10.0.0.20", "10.0.0.22"].map String.toList ∧
    (Connect sampleEngine (Connect sampleEngine (Connect sampleEngine (stateWithHistory 20)
        (sampleServer 21 "\\host\\Game".toList))
        (sampleServer 22 "\\host\\Game".toList))
        (sampleServer 23 "\\host\\Game".toList)).menu_internetgames.historyList.map
      (fun e => e.sadr) =
      ["10.0.0.22", "10.0.0.2", "10.0.0.3", "10.0.0.4", "10.0.0.5", "10.0.0.6", "10.0.0.7",
        "10.0.0.8", "10.0.0.9", "10.0.0.10", "10.0.0.11", "10.0.0.12", "10.0.0.13",
        "10.0.0.14", "10.0.0.15", "10.0.0.16", "10.0.0.17", "10.0.0.18", "10.0.0.19",
        "10.0.0.20", "10.0.0.23"].map String.toList := by
  decide!

/-! ## C6 and C7: the connect flow -/

theorem commandsOf_append (l₁ l₂ : List Effect) :
    commandsOf (l₁ ++ l₂) = commandsOf l₁ ++ commandsOf l₂ := by
  induction l₁ with
  | nil => rfl
  | cons e rest ih => cases e <;> simp [commandsOf, ih]

theorem SaveServerListToFile_commands (u : UIState) (filename : CStr)
    (list : List favlist_entry_t) :
    commandsOf (SaveServerListToFile u filename list).effects = commandsOf u.effects := by
  unfold SaveServerListToFile
  split_ifs <;> simp [commandsOf_append, commandsOf]

theorem SaveServerListToFile_menu (u : UIState) (filename : CStr)
    (list : List favlist_entry_t) :
    (SaveServerListToFile u filename list).menu_internetgames = u.menu_internetgames := by
  unfold SaveServerListToFile
  split_ifs <;> rfl

theorem SaveServerListToFile_waiting (u : UIState) (filename : CStr)
    (list : List favlist_entry_t) :
    (SaveServerListToFile u filename list).staticWaitingPassword = u.staticWaitingPassword := by
  unfold SaveServerListToFile
  split_ifs <;> rfl

/-- C6, amended: for every target record that requires a password, if the awaiting-password
flag is not set, `Connect` stashes the target in the pending-connect slot, sets the flag,
shows the password prompt, issues no command, and leaves the history list, the favourites
list and the files alone. -/
theorem C6_password_gate (E : EngFuncs) (u : UIState) (server : server_t)
    (hpw : server.havePassword = true) (hflag : u.staticWaitingPassword = false) :
    (Connect E u server).staticServerSelect = server ∧
    (Connect E u server).staticWaitingPassword = true ∧
    (Connect E u server).effects = u.effects ++ [Effect.askPassword_Show] ∧
    commandsOf (Connect E u server).effects = commandsOf u.effects ∧
    (Connect E u server).menu_internetgames.historyList = u.menu_internetgames.historyList ∧
    (Connect E u server).menu_internetgames.favoritesList =
      u.menu_internetgames.favoritesList ∧
    (Connect E u server).files = u.files := by
  unfold Connect
  simp [hpw, hflag, commandsOf_append, commandsOf]

/-- Witness for C6: activating a password-protected row in the sample state. -/
theorem C6_password_gate_witness :
    (sampleServer 1 "\\host\\Locked\\password\\1".toList).havePassword = true ∧
    sampleState.staticWaitingPassword = false ∧
    (Connect sampleEngine sampleState
      (sampleServer 1 "\\host\\Locked\\password\\1".toList)).staticWaitingPassword = true ∧
    (Connect sampleEngine sampleState
      (sampleServer 1 "\\host\\Locked\\password\\1".toList)).effects =
        [Effect.askPassword_Show] :=
  ⟨by decide, by decide,
    (C6_password_gate sampleEngine sampleState _ (by decide) (by decide)).2.1,
    (C6_password_gate sampleEngine sampleState _ (by decide) (by decide)).2.2.1⟩

/-- Counterexample to C6 as stated: while the controller awaits the password of `10.0.0.1`,
`Connect` on the password-protected record of `10.0.0.2`, a different target, does not stash
it and issues the connect command at once. -/
theorem C6_counterexample :
    (Connect sampleEngine sampleState
      (sampleServer 1 "\\host\\Locked\\password\\1".toList)).staticWaitingPassword = true ∧
    (Connect sampleEngine sampleState
      (sampleServer 1 "\\host\\Locked\\password\\1".toList)).staticServerSelect =
        sampleServer 1 "\\host\\Locked\\password\\1".toList ∧
    (sampleServer 2 "\\host\\Other\\password\\1".toList).havePassword = true ∧
    sampleServer 2 "\\host\\Other\\password\\1".toList ≠
      sampleServer 1 "\\host\\Locked\\password\\1".toList ∧
    (Connect sampleEngine
      (Connect sampleEngine sampleState (sampleServer 1 "\\host\\Locked\\password\\1".toList))
      (sampleServer 2 "\\host\\Other\\password\\1".toList)).staticServerSelect =
        sampleServer 1 "\\host\\Locked\\password\\1".toList ∧
    commandsOf (Connect sampleEngine
      (Connect sampleEngine sampleState (sampleServer 1 "\\host\\Locked\\password\\1".toList))
      (sampleServer 2 "\\host\\Other\\password\\1".toList)).effects =
        ["connect \"10.0.0.2\" \"49\"\n".toList] := by
  decide!

/-- C7: whenever `Connect` proceeds (the target needs no password, or the awaiting-password
flag is already set), it clears the flag and issues exactly the command
`connect "<addr>" "<tag>"` with the target's address string and `ToProtocol` value. In
Internet mode it appends the entry (addr, tag) at the tail of the history list and saves both
lists; in LAN-only mode the history list, the favourites list and the files are unchanged and
nothing is saved. -/
theorem C7_connect_proceeds (E : EngFuncs) (u : UIState) (server : server_t)
    (h : server.havePassword = false ∨ u.staticWaitingPassword = true) :
    (Connect E u server).staticWaitingPassword = false ∧
    commandsOf (Connect E u server).effects =
      commandsOf u.effects ++ [connectCmd (E.NET_AdrToString server.adr) server.ToProtocol] ∧
    (Connect E u server).menu_internetgames.favoritesList =
      u.menu_internetgames.favoritesList ∧
    (u.menu_internetgames.m_bLanOnly = false →
      (Connect E u server).menu_internetgames.historyList =
        (if u.menu_internetgames.historyList.length > 20
          then FastRemove u.menu_internetgames.historyList 0
          else u.menu_internetgames.historyList) ++
        [{ sadr := E.NET_AdrToString server.adr, prot := server.ToProtocol,
           favorited := true }] ∧
      (Connect E u server).files =
        (SaveServerListToFile
          (SaveServerListToFile u "favorite_servers.lst".toList
            u.menu_internetgames.favoritesList)
          "history_servers.lst".toList
          (Connect E u server).menu_internetgames.historyList).files ∧
      (Connect E u server).effects =
        (SaveServerListToFile
          (SaveServerListToFile u "favorite_servers.lst".toList
            u.menu_internetgames.favoritesList)
          "history_servers.lst".toList
          (Connect E u server).menu_internetgames.historyList).effects ++
        [Effect.ClientCmd (connectCmd (E.NET_AdrToString server.adr) server.ToProtocol),
          Effect.UI_ConnectionProgress_Connect []]) ∧
    (u.menu_internetgames.m_bLanOnly = true →
      (Connect E u server).menu_internetgames.historyList =
        u.menu_internetgames.historyList ∧
      (Connect E u server).files = u.files ∧
      (Connect E u server).effects = u.effects ++
        [Effect.ClientCmd (connectCmd (E.NET_AdrToString server.adr) server.ToProtocol),
          Effect.UI_ConnectionProgress_Connect []]) := by
  have hprot : server.ToProtocol.length < 16 := by
    unfold server_t.ToProtocol
    split_ifs <;> decide
  have hentry : favlist_entry_t.new (E.NET_AdrToString server.adr) server.ToProtocol true =
      { sadr := E.NET_AdrToString server.adr, prot := server.ToProtocol, favorited := true } := by
    unfold favlist_entry_t.new
    rw [Q_strncpy_of_length_lt _ 128 (E.NET_AdrToString_length server.adr),
      Q_strncpy_of_length_lt _ 16 hprot]
  have hgate : (server.havePassword && !u.staticWaitingPassword) = false := by
    rcases h with h | h <;> simp [h]
  cases hlan : u.menu_internetgames.m_bLanOnly with
  | true =>
    unfold Connect
    simp only [hgate, hlan]
    cases server.havePassword <;> simp [commandsOf_append, commandsOf]
  | false =>
    unfold Connect SaveLists pushHistory
    simp only [hgate, hlan, hentry]
    cases server.havePassword <;>
      simp [commandsOf_append, commandsOf, SaveServerListToFile_commands,
        SaveServerListToFile_menu, SaveServerListToFile_waiting] <;>
      (unfold SaveServerListToFile; split_ifs <;> simp)

/-- Witness for C7: connecting to an open server from the sample state. -/
theorem C7_connect_proceeds_witness :
    (sampleServer 3 "\\host\\Open".toList).havePassword = false ∧
    commandsOf (Connect sampleEngine sampleState (sampleServer 3 "\\host\\Open".toList)).effects =
      ["connect \"10.0.0.3\" \"49\"\n".toList] :=
  ⟨by decide,
    (C7_connect_proceeds sampleEngine sampleState (sampleServer 3 "\\host\\Open".toList)
      (Or.inl (by decide))).2.1.trans (by decide!)⟩

/-! ## C8 and C9: persistence -/

theorem COM_LoadFile_delete (files : FileStore) (filename : CStr) :
    COM_LoadFile (files.delete filename) filename = none := by
  unfold COM_LoadFile FileStore.delete
  rw [Option.map_eq_none', List.find?_eq_none]
  intro p hp
  have := (List.mem_filter.1 hp).2
  simpa using this

theorem COM_LoadFile_save (files : FileStore) (filename data : CStr) :
    COM_LoadFile (files.save filename data) filename = some data := by
  unfold COM_LoadFile FileStore.save
  simp

theorem SaveServerListToFile_nil_files (u : UIState) (filename : CStr) :
    (SaveServerListToFile u filename []).files = u.files.delete filename := by
  simp [SaveServerListToFile]

theorem ParseServerListFromFile_absent (files : FileStore) (filename : CStr)
    (list : List favlist_entry_t) (h : COM_LoadFile files filename = none) :
    ParseServerListFromFile files filename list = list := by
  unfold ParseServerListFromFile
  rw [h]
  rfl

/-- C9: `SaveServerListToFile` given an empty list deletes the named file and performs no
write, so a following load sees an absent file and yields an empty list. -/
theorem C9_save_empty_deletes (u : UIState) (filename : CStr) :
    (SaveServerListToFile u filename []).effects = u.effects ++ [Effect.DeleteFile filename] ∧
    COM_LoadFile (SaveServerListToFile u filename []).files filename = none ∧
    ParseServerListFromFile (SaveServerListToFile u filename []).files filename [] = [] := by
  have hload : COM_LoadFile (SaveServerListToFile u filename []).files filename = none := by
    rw [SaveServerListToFile_nil_files]
    exact COM_LoadFile_delete u.files filename
  exact ⟨by simp [SaveServerListToFile], hload, ParseServerListFromFile_absent _ _ _ hload⟩

theorem dropWhile_append_of_all {α : Type} (p : α → Bool) (pre l : List α)
    (h : ∀ c ∈ pre, p c = true) : (pre ++ l).dropWhile p = l.dropWhile p := by
  induction pre with
  | nil => rfl
  | cons c cs ih =>
    have hc : p c = true := h c (List.mem_cons_self _ _)
    rw [List.cons_append, List.dropWhile_cons, if_pos hc]
    exact ih (fun x hx => h x (List.mem_cons_of_mem _ hx))

theorem takeWhile_append_stop {α : Type} (q : α → Bool) (tok : List α) (w : α) (rest : List α)
    (h : ∀ c ∈ tok, q c = true) (hw : q w = false) :
    (tok ++ w :: rest).takeWhile q = tok := by
  induction tok with
  | nil => simp [List.takeWhile, hw]
  | cons c cs ih =>
    have hc : q c = true := h c (List.mem_cons_self _ _)
    rw [List.cons_append, List.takeWhile_cons, if_pos hc,
      ih (fun x hx => h x (List.mem_cons_of_mem _ hx))]

theorem dropWhile_append_stop {α : Type} (q : α → Bool) (tok : List α) (w : α) (rest : List α)
    (h : ∀ c ∈ tok, q c = true) (hw : q w = false) :
    (tok ++ w :: rest).dropWhile q = w :: rest := by
  rw [dropWhile_append_of_all q tok (w :: rest) h, List.dropWhile_cons]
  simp [hw]

/-- The tokenizer reads back a clean token that is followed by a white-space byte, after
skipping any white space in front of it. -/
theorem COM_ParseFile_token (pre tok : CStr) (w : Char) (rest : CStr) (size : Nat)
    (hpre : ∀ c ∈ pre, c.isWhitespace = true) (htok : IsToken tok size)
    (hw : w.isWhitespace = true) :
    COM_ParseFile (some (pre ++ (tok ++ w :: rest))) size = (tok, some (w :: rest)) := by
  obtain ⟨hne, hclean, hlen⟩ := htok
  have hq : ∀ c ∈ tok, (fun x : Char => !x.isWhitespace) c = true := by
    intro c hc
    simp [hclean c hc]
  have hqw : (fun x : Char => !x.isWhitespace) w = false := by simp [hw]
  unfold COM_ParseFile
  simp only
  rw [dropWhile_append_of_all Char.isWhitespace pre _ hpre]
  cases tok with
  | nil => exact absurd rfl hne
  | cons c cs =>
    have hc : c.isWhitespace = false := hclean c (List.mem_cons_self _ _)
    rw [List.cons_append, List.dropWhile_cons]
    simp only [hc, Bool.false_eq_true, if_false]
    rw [← List.cons_append, takeWhile_append_stop _ (c :: cs) w rest hq hqw,
      dropWhile_append_stop _ (c :: cs) w rest hq hqw, Q_strncpy_of_length_lt _ _ hlen]

theorem COM_ParseFile_white (pre : CStr) (size : Nat)
    (hpre : ∀ c ∈ pre, c.isWhitespace = true) :
    COM_ParseFile (some pre) size = ([], none) := by
  have h := dropWhile_append_of_all Char.isWhitespace pre [] hpre
  rw [List.append_nil] at h
  unfold COM_ParseFile
  simp only
  rw [h]
  rfl

theorem COM_ParseFile_rest_length (d : CStr) (size : Nat) (tok rest : CStr)
    (h : COM_ParseFile (some d) size = (tok, some rest)) : rest.length < d.length := by
  unfold COM_ParseFile at h
  simp only at h
  have hdrop : (d.dropWhile Char.isWhitespace).length ≤ d.length :=
    (List.dropWhile_sublist _).length_le
  cases hd : d.dropWhile Char.isWhitespace with
  | nil => rw [hd] at h; simp at h
  | cons c cs =>
    rw [hd] at h hdrop
    simp only [Prod.mk.injEq, Option.some.injEq] at h
    have hc : c.isWhitespace = false := by
      have := List.head_dropWhile_not Char.isWhitespace d (by rw [hd]; simp)
      simpa [hd] using this
    have hrest : rest = cs.dropWhile (fun x => !x.isWhitespace) := by
      rw [← h.2, List.dropWhile_cons]
      simp [hc]
    have hle : (cs.dropWhile (fun x => !x.isWhitespace)).length ≤ cs.length :=
      (List.dropWhile_sublist _).length_le
    rw [hrest]
    simp only [List.length_cons] at hdrop
    omega

/-- The fuel that `ParseServerListFromFile` gives its loop is never used up: any amount of
fuel above the length of the text gives the same result. -/
theorem parseLoop_fuel (n : Nat) : ∀ (text : CStr) (fuel fuel2 : Nat)
    (acc : List favlist_entry_t), text.length ≤ n → text.length < fuel → text.length < fuel2 →
    parseLoop fuel (some text) acc = parseLoop fuel2 (some text) acc := by
  induction n with
  | zero =>
    intro text fuel fuel2 acc hn h1 h2
    have ht : text = [] := List.length_eq_zero.1 (Nat.le_zero.1 hn)
    subst ht
    cases fuel with
    | zero => simp at h1
    | succ f =>
      cases fuel2 with
      | zero => simp at h2
      | succ g => simp [parseLoop, COM_ParseFile]
  | succ k ih =>
    intro text fuel fuel2 acc hn h1 h2
    cases fuel with
    | zero => simp at h1
    | succ f =>
      cases fuel2 with
      | zero => simp at h2
      | succ g =>
        unfold parseLoop
        rcases hp1 : COM_ParseFile (some text) 128 with ⟨sadr, _ | afile1⟩
        · rfl
        · have hl1 := COM_ParseFile_rest_length text 128 sadr afile1 hp1
          simp only
          rcases hp2 : COM_ParseFile (some afile1) 16 with ⟨prot, _ | afile2⟩
          · rfl
          · have hl2 := COM_ParseFile_rest_length afile1 16 prot afile2 hp2
            simp only
            exact ih afile2 f g _ (by omega) (by omega) (by omega)

/-- The parse loop reads back what `saveText` wrote, given one unit of fuel per entry written
and one more. -/
theorem parseLoop_saveText (list : List favlist_entry_t) :
    ∀ (fuel : Nat) (pre : CStr) (acc : List favlist_entry_t),
      (∀ c ∈ pre, c.isWhitespace = true) →
      (∀ e ∈ list, e.favorited = true → IsToken e.sadr 128 ∧ IsToken e.prot 16) →
      (list.filter (fun e => e.favorited)).length < fuel →
      parseLoop fuel (some (pre ++ saveText list)) acc =
        acc ++ list.filter (fun e => e.favorited) := by
  induction list with
  | nil =>
    intro fuel pre acc hpre _ hfuel
    cases fuel with
    | zero => simp at hfuel
    | succ f =>
      simp only [saveText, List.append_nil, List.filter_nil]
      unfold parseLoop
      rw [COM_ParseFile_white pre 128 hpre]
  | cons e es ih =>
    intro fuel pre acc hpre hclean hfuel
    have hes : ∀ x ∈ es, x.favorited = true → IsToken x.sadr 128 ∧ IsToken x.prot 16 :=
      fun x hx => hclean x (List.mem_cons_of_mem _ hx)
    cases hfav : e.favorited with
    | false =>
      have hfilter : (e :: es).filter (fun e => e.favorited) =
          es.filter (fun e => e.favorited) := by simp [List.filter, hfav]
      rw [hfilter] at hfuel ⊢
      simp only [saveText, hfav, Bool.false_eq_true, if_false]
      exact ih fuel pre acc hpre hes hfuel
    | true =>
      have hfilter : (e :: es).filter (fun e => e.favorited) =
          e :: es.filter (fun e => e.favorited) := by simp [List.filter, hfav]
      rw [hfilter] at hfuel ⊢
      obtain ⟨hsadr, hprot⟩ := hclean e (List.mem_cons_self _ _) hfav
      cases fuel with
      | zero => simp at hfuel
      | succ f =>
        have hf : (es.filter (fun e => e.favorited)).length < f := by
          simp only [List.length_cons] at hfuel
          omega
        have h1 := COM_ParseFile_token pre e.sadr ' ' (e.prot ++ '\n' :: saveText es) 128
          hpre hsadr (by decide)
        have h2 := COM_ParseFile_token [' '] e.prot '\n' (saveText es) 16
          (by intro c hc; rw [List.mem_singleton] at hc; subst hc; decide) hprot (by decide)
        have h3 := ih f ['\n'] (acc ++ [{ sadr := e.sadr, prot := e.prot, favorited := true }])
          (by intro c hc; rw [List.mem_singleton] at hc; subst hc; decide) hes hf
        have he : ({ sadr := e.sadr, prot := e.prot, favorited := true } : favlist_entry_t)
            = e := by
          cases e
          simp_all
        simp only [saveText, hfav, if_true]
        unfold parseLoop
        rw [h1]
        simp only
        rw [show (' ' :: (e.prot ++ '\n' :: saveText es)) =
          [' '] ++ (e.prot ++ '\n' :: saveText es) from rfl, h2]
        simp only
        rw [show ('\n' :: saveText es) = ['\n'] ++ saveText es from rfl, h3, he]
        simp

theorem filter_length_le_saveText (list : List favlist_entry_t) :
    (list.filter (fun e => e.favorited)).length ≤ (saveText list).length := by
  induction list with
  | nil => simp [saveText]
  | cons e es ih =>
    cases hfav : e.favorited with
    | false => simpa [List.filter, saveText, hfav] using ih
    | true =>
      simp only [List.filter, saveText, hfav, if_true, List.length_cons, List.length_append]
      omega

/-- C8, amended: for every favourites or history list whose favorited entries have an address
text and a protocol tag that are not empty, contain no white space and fit their buffers
(`sadr[128]`, `prot[16]`), parsing the file that `SaveServerListToFile` leaves behind, into
an empty list, yields exactly the favorited entries in the same order, hence their
(address text, protocol tag) pairs. -/
theorem C8_round_trip (u : UIState) (filename : CStr) (list : List favlist_entry_t)
    (hclean : ∀ e ∈ list, e.favorited = true → IsToken e.sadr 128 ∧ IsToken e.prot 16) :
    ParseServerListFromFile (SaveServerListToFile u filename list).files filename [] =
      list.filter (fun e => e.favorited) ∧
    (ParseServerListFromFile (SaveServerListToFile u filename list).files filename []).map
        (fun e => (e.sadr, e.prot)) =
      (list.filter (fun e => e.favorited)).map (fun e => (e.sadr, e.prot)) := by
  have key : ParseServerListFromFile (SaveServerListToFile u filename list).files filename [] =
      list.filter (fun e => e.favorited) := by
    cases list with
    | nil =>
      refine ParseServerListFromFile_absent _ _ _ ?_
      rw [SaveServerListToFile_nil_files]
      exact COM_LoadFile_delete u.files filename
    | cons e es =>
      have hfiles : (SaveServerListToFile u filename (e :: es)).files =
          u.files.save filename (saveText (e :: es)) := by
        simp [SaveServerListToFile]
      unfold ParseServerListFromFile
      rw [hfiles, COM_LoadFile_save]
      simp only
      have h := parseLoop_saveText (e :: es) ((saveText (e :: es)).length + 1) [] []
        (by simp) hclean (Nat.lt_succ_of_le (filter_length_le_saveText (e :: es)))
      simpa using h
  exact ⟨key, by rw [key]⟩

/-- Witness for C8: a list of three entries, the second not favorited, saved and read back. -/
theorem C8_round_trip_witness :
    (∀ e ∈ [favlist_entry_t.new "10.0.0.1:27015".toList "49".toList true,
        favlist_entry_t.new "10.0.0.2:27015".toList "gs".toList false,
        favlist_entry_t.new "10.0.0.3:27015".toList "48".toList true],
      e.favorited = true → IsToken e.sadr 128 ∧ IsToken e.prot 16) ∧
    (ParseServerListFromFile (SaveServerListToFile sampleState "favorite_servers.lst".toList
        [favlist_entry_t.new "10.0.0.1:27015".toList "49".toList true,
         favlist_entry_t.new "10.0.0.2:27015".toList "gs".toList false,
         favlist_entry_t.new "10.0.0.3:27015".toList "48".toList true]).files
        "favorite_servers.lst".toList []).map (fun e => (e.sadr, e.prot)) =
      [("10.0.0.1:27015".toList, "49".toList), ("10.0.0.3:27015".toList, "48".toList)] :=
  ⟨by decide,
    (C8_round_trip sampleState "favorite_servers.lst".toList _ (by decide)).2.trans
      (by decide)⟩

/-- Counterexample to C8 as stated: a favorited entry whose address text contains a space is
written as three tokens and read back as a different pair. -/
theorem C8_counterexample :
    (ParseServerListFromFile (SaveServerListToFile sampleState "favorite_servers.lst".toList
        [{ sadr := "10.0.0.1 27015".toList, prot := "49".toList, favorited := true }]).files
        "favorite_servers.lst".toList []).map (fun e => (e.sadr, e.prot)) =
      [("10.0.0.1".toList, "27015".toList)] ∧
    (ParseServerListFromFile (SaveServerListToFile sampleState "favorite_servers.lst".toList
        [{ sadr := "10.0.0.1 27015".toList, prot := "49".toList, favorited := true }]).files
        "favorite_servers.lst".toList []).map (fun e => (e.sadr, e.prot)) ≠
      ([({ sadr := "10.0.0.1 27015".toList, prot := "49".toList, favorited := true } :
        favlist_entry_t)].filter (fun e => e.favorited)).map (fun e => (e.sadr, e.prot)) := by
  decide

/-! ## Toggling a favourite twice -/

theorem FastRemove_concat {α : Type} (init : List α) (y : α) (j : Nat) :
    FastRemove (init ++ [y]) j =
      if j < init.length then init.set j y
      else if j = init.length then init else init ++ [y] := by
  unfold FastRemove
  by_cases h1 : j < init.length
  · have h2 : j < (init ++ [y]).length := by simp; omega
    have h3 : ¬ j = (init ++ [y]).length - 1 := by simp; omega
    rw [dif_pos h2, if_neg h3, if_pos h1]
    have hy : (init ++ [y]).get ⟨(init ++ [y]).length - 1, by omega⟩ = y := by
      simp
    rw [hy, List.set_append_left _ _ h1, List.dropLast_concat]
  · rw [if_neg h1]
    by_cases h2 : j = init.length
    · subst h2
      simp
    · have h3 : ¬ j < (init ++ [y]).length := by simp; omega
      rw [dif_neg h3, if_neg h2]

theorem FastRemove_perm {α : Type} (l : List α) (j : Nat) (h : j < l.length) :
    (l.get ⟨j, h⟩ :: FastRemove l j).Perm l := by
  rcases List.eq_nil_or_concat l with hnil | ⟨init, y, hl⟩
  · subst hnil
    simp at h
  · have hl2 : l = init ++ [y] := by rw [hl, List.concat_eq_append]
    subst hl2
    rw [FastRemove_concat]
    by_cases h1 : j < init.length
    · rw [if_pos h1]
      have hget : (init ++ [y]).get ⟨j, h⟩ = init.get ⟨j, h1⟩ := by
        simp [List.getElem_append_left h1]
      rw [hget]
      have hset : init.set j y = init.take j ++ y :: init.drop (j + 1) :=
        List.set_eq_take_append_cons_drop.trans (by rw [if_pos h1])
      have hinit : init = init.take j ++ init.get ⟨j, h1⟩ :: init.drop (j + 1) := by
        simp
      rw [hset]
      conv_rhs => rw [hinit]
      refine (List.Perm.cons _ List.perm_middle).trans ?_
      refine (List.Perm.swap _ _ _).trans ?_
      refine List.Perm.trans ?_ (List.perm_append_singleton _ _).symm
      exact List.Perm.cons _ List.perm_middle.symm
    · have h2 : j = init.length := by simp at h; omega
      subst h2
      simp
      exact (List.perm_append_singleton _ _).symm


theorem ToggleFavoriteButton_fields (b : CMenuServerBrowser) (en : Bool) :
    (ToggleFavoriteButton b en).gameListModel = b.gameListModel ∧
    (ToggleFavoriteButton b en).gameList_iCurItem = b.gameList_iCurItem ∧
    (ToggleFavoriteButton b en).favoritesList = b.favoritesList := by
  unfold ToggleFavoriteButton
  split_ifs <;> exact ⟨rfl, rfl, rfl⟩

/-- One call of `FavoriteServer` on a valid selected row, field by field. -/
theorem FavoriteServer_of_valid (E : EngFuncs) (b : CMenuServerBrowser) (serv : server_t)
    (hvalid : IsValidIndex b.gameListModel.servers b.gameList_iCurItem = true)
    (hget : b.gameListModel.servers.get? b.gameList_iCurItem.toNat = some serv) :
    (FavoriteServer E b).gameList_iCurItem = b.gameList_iCurItem ∧
    (FavoriteServer E b).gameListModel = { b.gameListModel with
      servers := b.gameListModel.servers.set b.gameList_iCurItem.toNat
        { serv with favorite := !serv.favorite } } ∧
    (serv.favorite = false → (FavoriteServer E b).favoritesList =
      b.favoritesList ++
        [{ sadr := E.NET_AdrToString serv.adr, prot := serv.ToProtocol, favorited := true }]) ∧
    (serv.favorite = true → (FavoriteServer E b).favoritesList =
      match findFavorite b.favoritesList (E.NET_AdrToString serv.adr) with
      | some j => FastRemove b.favoritesList j
      | none => b.favoritesList) := by
  have hprot : serv.ToProtocol.length < 16 := by
    unfold server_t.ToProtocol
    split_ifs <;> decide
  have hentry : favlist_entry_t.new (E.NET_AdrToString serv.adr) serv.ToProtocol true =
      { sadr := E.NET_AdrToString serv.adr, prot := serv.ToProtocol, favorited := true } := by
    unfold favlist_entry_t.new
    rw [Q_strncpy_of_length_lt _ 128 (E.NET_AdrToString_length serv.adr),
      Q_strncpy_of_length_lt _ 16 hprot]
  have hprot2 : server_t.ToProtocol { serv with favorite := !serv.favorite } =
      serv.ToProtocol := rfl
  unfold FavoriteServer
  simp only [hvalid, hget, Bool.not_true, Bool.false_eq_true, if_false]
  cases hfav : serv.favorite with
  | false =>
    simp only [Bool.not_false, if_true, hprot2, hentry,
      (ToggleFavoriteButton_fields _ _).1, (ToggleFavoriteButton_fields _ _).2.1,
      (ToggleFavoriteButton_fields _ _).2.2]
    simp
    exact hentry
  | true =>
    simp only [Bool.not_true, Bool.false_eq_true, if_false]
    refine ⟨?_, ?_, by simp, ?_⟩
    · split <;> simp [(ToggleFavoriteButton_fields _ _).2.1]
    · split <;> simp [(ToggleFavoriteButton_fields _ _).1]
    · intro _
      simp only [(ToggleFavoriteButton_fields _ _).2.2]
      split <;> simp [(ToggleFavoriteButton_fields _ _).2.2]


theorem set_get_self {α : Type} (l : List α) :
    ∀ (n : Nat) (h : n < l.length), l.set n (l.get ⟨n, h⟩) = l := by
  induction l with
  | nil => intro n h; simp at h
  | cons a l ih =>
    intro n h
    cases n with
    | zero => rfl
    | succ k =>
      simp only [List.length_cons, Nat.succ_lt_succ_iff] at h
      simpa using ih k h

theorem findFavorite_of_exists (l : List favlist_entry_t) (s : CStr)
    (h : ∃ x ∈ l, x.sadr = s) :
    ∃ (j : Nat) (hj : j < l.length), findFavorite l s = some j ∧ (l.get ⟨j, hj⟩).sadr = s := by
  have hex : ∃ x ∈ l, (fun e : favlist_entry_t => decide (strcmp e.sadr s = 0)) x = true := by
    obtain ⟨x, hx, hxs⟩ := h
    exact ⟨x, hx, by simp [strcmp_eq_zero_iff, hxs]⟩
  have hlt := List.findIdx_lt_length_of_exists hex
  refine ⟨_, hlt, ?_, ?_⟩
  · unfold findFavorite
    simp only [hlt, if_true]
  · have hp := @List.findIdx_getElem _ (fun e : favlist_entry_t => decide (strcmp e.sadr s = 0))
      l hlt
    simp only [decide_eq_true_eq] at hp
    exact (strcmp_eq_zero_iff _ _).1 hp

theorem hasAddress_iff_mem_map (l : List favlist_entry_t) (s : CStr) :
    hasAddress l s ↔ s ∈ l.map (fun e => e.sadr) := by
  simp [hasAddress]

/-- Removing the first entry with a given address text and appending an entry with that
address text, in either order, keeps the address texts of the list up to their order. -/
theorem sadr_perm_remove_then_add (l : List favlist_entry_t) (e : favlist_entry_t)
    (h : ∃ x ∈ l, x.sadr = e.sadr) :
    ∃ j, findFavorite l e.sadr = some j ∧
      ((FastRemove l j ++ [e]).map (fun x => x.sadr)).Perm (l.map (fun x => x.sadr)) := by
  obtain ⟨j, hj, hfind, hsadr⟩ := findFavorite_of_exists l e.sadr h
  refine ⟨j, hfind, ?_⟩
  have hperm := (FastRemove_perm l j hj).map (fun x => x.sadr)
  rw [List.map_cons, hsadr] at hperm
  rw [List.map_append, List.map_singleton]
  exact (List.perm_append_singleton _ _).trans hperm

theorem sadr_perm_add_then_remove (l : List favlist_entry_t) (e : favlist_entry_t) :
    ∃ j, findFavorite (l ++ [e]) e.sadr = some j ∧
      ((FastRemove (l ++ [e]) j).map (fun x => x.sadr)).Perm (l.map (fun x => x.sadr)) := by
  obtain ⟨j, hj, hfind, hsadr⟩ := findFavorite_of_exists (l ++ [e]) e.sadr
    ⟨e, by simp, rfl⟩
  refine ⟨j, hfind, ?_⟩
  have hperm := (FastRemove_perm (l ++ [e]) j hj).map (fun x => x.sadr)
  rw [List.map_cons, hsadr, List.map_append, List.map_singleton] at hperm
  exact (hperm.trans (List.perm_append_singleton _ _)).cons_inv

/-- With a valid selected row whose record, if flagged favourite, has its address text in the
favourites list, applying `FavoriteServer` twice restores, for every address text, whether
the favourites list contains an entry with that address, and restores the records of the
table (the favourite flag of the selected record included). -/
theorem FavoriteServer_twice (E : EngFuncs) (b : CMenuServerBrowser)
    (hvalid : IsValidIndex b.gameListModel.servers b.gameList_iCurItem = true)
    (hcons : ∀ serv, b.gameListModel.servers.get? b.gameList_iCurItem.toNat = some serv →
      serv.favorite = true → hasAddress b.favoritesList (E.NET_AdrToString serv.adr)) :
    (∀ sadr, hasAddress (FavoriteServer E (FavoriteServer E b)).favoritesList sadr ↔
      hasAddress b.favoritesList sadr) ∧
    (FavoriteServer E (FavoriteServer E b)).gameListModel = b.gameListModel := by
  have hn : b.gameList_iCurItem.toNat < b.gameListModel.servers.length := by
    unfold IsValidIndex at hvalid
    simp only [Bool.and_eq_true, decide_eq_true_eq] at hvalid
    omega
  have hget : b.gameListModel.servers.get? b.gameList_iCurItem.toNat =
      some (b.gameListModel.servers.get ⟨_, hn⟩) := List.get?_eq_get hn
  generalize hserv : b.gameListModel.servers.get ⟨_, hn⟩ = serv at hget
  obtain ⟨hcur1, hmodel1, hadd1, hrem1⟩ := FavoriteServer_of_valid E b serv hvalid hget
  have hvalid1 : IsValidIndex (FavoriteServer E b).gameListModel.servers
      (FavoriteServer E b).gameList_iCurItem = true := by
    rw [hcur1, hmodel1]
    unfold IsValidIndex at hvalid ⊢
    simpa using hvalid
  have hget1 : (FavoriteServer E b).gameListModel.servers.get?
      (FavoriteServer E b).gameList_iCurItem.toNat =
      some { serv with favorite := !serv.favorite } := by
    rw [hcur1, hmodel1]
    simp [hn]
  obtain ⟨-, hmodel2, hadd2, hrem2⟩ :=
    FavoriteServer_of_valid E (FavoriteServer E b) _ hvalid1 hget1
  refine ⟨?_, ?_⟩
  · have hperm : ((FavoriteServer E (FavoriteServer E b)).favoritesList.map
        (fun x => x.sadr)).Perm (b.favoritesList.map (fun x => x.sadr)) := by
      cases hfav : serv.favorite with
      | false =>
        obtain ⟨j, hfind, hp⟩ := sadr_perm_add_then_remove b.favoritesList
          { sadr := E.NET_AdrToString serv.adr, prot := serv.ToProtocol, favorited := true }
        rw [hrem2 (by simp [hfav]), hadd1 hfav]
        simp only at hfind ⊢
        rw [hfind]
        exact hp
      | true =>
        obtain ⟨j, hfind, hp⟩ := sadr_perm_remove_then_add b.favoritesList
          { sadr := E.NET_AdrToString serv.adr, prot := serv.ToProtocol, favorited := true }
          (hcons serv hget hfav)
        rw [hadd2 (by simp [hfav]), hrem1 hfav]
        simp only at hfind ⊢
        rw [hfind]
        exact hp
    intro sadr
    rw [hasAddress_iff_mem_map, hasAddress_iff_mem_map]
    exact hperm.mem_iff
  · rw [hmodel2, hcur1, hmodel1]
    have hback : ({ ({ serv with favorite := !serv.favorite } : server_t) with
        favorite := !(!serv.favorite) } : server_t) = serv := by
      cases serv
      simp
    simp only [hback, List.set_set]
    have hself : b.gameListModel.servers.set b.gameList_iCurItem.toNat serv =
        b.gameListModel.servers := by
      rw [← hserv]
      exact set_get_self _ _ hn
    rw [hself]


/-! ## C11 and C12: the favourites list under `FavoriteServer` and `AddServer` -/

theorem perm_cons_eraseIdx {α : Type} (l : List α) (j : Nat) (h : j < l.length) :
    l.Perm (l.get ⟨j, h⟩ :: l.eraseIdx j) := by
  have hl : l = l.take j ++ l.get ⟨j, h⟩ :: l.drop (j + 1) := by simp
  rw [List.eraseIdx_eq_take_drop_succ]
  conv_lhs => rw [hl]
  exact List.perm_middle

theorem FastRemove_perm_eraseIdx {α : Type} (l : List α) (j : Nat) (h : j < l.length) :
    (FastRemove l j).Perm (l.eraseIdx j) :=
  ((FastRemove_perm l j h).trans (perm_cons_eraseIdx l j h)).cons_inv

theorem findFavorite_of_first (l : List favlist_entry_t) (sadr : CStr) (j : Nat)
    (h : IsFirstMatch l sadr j) : findFavorite l sadr = some j ∧ j < l.length := by
  obtain ⟨⟨e, hget, hsadr⟩, hbefore⟩ := h
  have hj : j < l.length := by
    by_contra hge
    rw [List.get?_eq_none.2 (Nat.le_of_not_lt hge)] at hget
    exact absurd hget (by simp)
  have hidx : l.findIdx (fun e => decide (strcmp e.sadr sadr = 0)) = j := by
    rw [List.findIdx_eq hj]
    constructor
    · have he : l.get ⟨j, hj⟩ = e := by
        rw [List.get?_eq_get hj] at hget
        exact Option.some.inj hget
      have he2 : l[j] = e := he
      have hp : strcmp e.sadr sadr = 0 := (strcmp_eq_zero_iff _ _).2 hsadr
      rw [he2]
      simpa using hp
    · intro k hk
      have hkl : k < l.length := Nat.lt_trans hk hj
      have hne := hbefore k (l.get ⟨k, hkl⟩) hk (List.get?_eq_get hkl)
      have hp : ¬ strcmp (l.get ⟨k, hkl⟩).sadr sadr = 0 :=
        fun h0 => hne ((strcmp_eq_zero_iff _ _).1 h0)
      have hk2 : l[k] = l.get ⟨k, hkl⟩ := rfl
      rw [hk2]
      simpa using hp
  refine ⟨?_, hj⟩
  unfold findFavorite
  simp only [hidx, hj, if_true]

theorem findFavorite_of_no_match (l : List favlist_entry_t) (sadr : CStr)
    (h : ∀ e ∈ l, e.sadr ≠ sadr) : findFavorite l sadr = none := by
  have hidx : l.findIdx (fun e => decide (strcmp e.sadr sadr = 0)) = l.length := by
    apply List.findIdx_eq_length_of_false
    intro e he
    simp [strcmp_eq_zero_iff, h e he]
  unfold findFavorite
  simp [hidx]

theorem FavoriteServer_of_invalid (E : EngFuncs) (b : CMenuServerBrowser)
    (h : IsValidIndex b.gameListModel.servers b.gameList_iCurItem = false) :
    FavoriteServer E b = b := by
  unfold FavoriteServer
  simp [h]

/-- C11: `FavoriteServer` on a valid selected row flips the favourite flag of the selected
record. When the flag becomes true, exactly one entry (address string, protocol tag,
favorited) is appended to the favourites list. When it becomes false, the first favourites
entry whose address text equals the address string of the record is removed and every other
entry is kept (their order aside), and nothing is removed when no entry matches. With an
invalid selected index nothing changes. -/
theorem C11_favorite_toggle (E : EngFuncs) (b : CMenuServerBrowser) :
    (IsValidIndex b.gameListModel.servers b.gameList_iCurItem = false →
      FavoriteServer E b = b) ∧
    (∀ serv, IsValidIndex b.gameListModel.servers b.gameList_iCurItem = true →
      b.gameListModel.servers.get? b.gameList_iCurItem.toNat = some serv →
      (FavoriteServer E b).gameListModel.servers =
        b.gameListModel.servers.set b.gameList_iCurItem.toNat
          { serv with favorite := !serv.favorite } ∧
      (serv.favorite = false → (FavoriteServer E b).favoritesList =
        b.favoritesList ++ [{ sadr := E.NET_AdrToString serv.adr, prot := serv.ToProtocol,
                              favorited := true }]) ∧
      (serv.favorite = true →
        (∀ j, IsFirstMatch b.favoritesList (E.NET_AdrToString serv.adr) j →
          (FavoriteServer E b).favoritesList.Perm (b.favoritesList.eraseIdx j)) ∧
        ((∀ e ∈ b.favoritesList, e.sadr ≠ E.NET_AdrToString serv.adr) →
          (FavoriteServer E b).favoritesList = b.favoritesList))) := by
  refine ⟨FavoriteServer_of_invalid E b, ?_⟩
  intro serv hvalid hget
  obtain ⟨-, hmodel, hadd, hrem⟩ := FavoriteServer_of_valid E b serv hvalid hget
  refine ⟨by rw [hmodel], hadd, ?_⟩
  intro hfav
  refine ⟨?_, ?_⟩
  · intro j hj
    obtain ⟨hfind, hlt⟩ := findFavorite_of_first _ _ j hj
    rw [hrem hfav, hfind]
    exact FastRemove_perm_eraseIdx _ j hlt
  · intro hno
    rw [hrem hfav, findFavorite_of_no_match _ _ hno]

/-- Witness for C11: with the record of `10.0.0.1` selected and not flagged, one call appends
its entry to the empty favourites list; with an empty table nothing changes. -/
theorem C11_favorite_toggle_witness :
    (FavoriteServer sampleEngine
      (stateWithServers [sampleServer 1 "\\host\\One".toList]).menu_internetgames
      ).favoritesList =
      [{ sadr := "10.0.0.1".toList, prot := "49".toList, favorited := true }] ∧
    FavoriteServer sampleEngine sampleBrowser = sampleBrowser :=
  ⟨(((C11_favorite_toggle sampleEngine
      (stateWithServers [sampleServer 1 "\\host\\One".toList]).menu_internetgames).2
      (sampleServer 1 "\\host\\One".toList) (by decide) (by decide!)).2.1 (by decide)).trans
      (by decide),
    (C11_favorite_toggle sampleEngine sampleBrowser).1 (by decide)⟩

theorem RefreshList_fields (u : UIState) :
    (RefreshList u).menu_internetgames.favoritesList = u.menu_internetgames.favoritesList ∧
    (RefreshList u).menu_internetgames.historyList = u.menu_internetgames.historyList ∧
    (RefreshList u).menu_internetgames.tabSwitch_state = u.menu_internetgames.tabSwitch_state ∧
    (RefreshList u).menu_internetgames.m_bLanOnly = u.menu_internetgames.m_bLanOnly ∧
    (RefreshList u).menu_internetgames.gameListModel.servers = [] ∧
    (RefreshList u).realTime = u.realTime := by
  unfold RefreshList QueryServerList UI_MenuResetPing_f ResetPing ClearList
    CMenuGameListModel.Flush
  simp only
  split_ifs <;> simp

theorem AddServer_of_valid (E : EngFuncs) (u : UIState) (adr : netadr_t)
    (h : E.StringToAdr u.menu_internetgames.addressField = some adr) :
    (AddServer E u).menu_internetgames.favoritesList =
      u.menu_internetgames.favoritesList ++
        [favlist_entry_t.new u.menu_internetgames.addressField
          (customServer E adr u.menu_internetgames.addressField
            u.menu_internetgames.serverProtocol).ToProtocol false] ∧
    (AddServer E u).menu_internetgames.tabSwitch_state = 2 ∧
    (AddServer E u).menu_internetgames.gameListModel.servers = [] := by
  unfold AddServer
  simp only [h]
  refine ⟨?_, ?_, (RefreshList_fields _).2.2.2.2.1⟩
  · rw [(RefreshList_fields _).1]
    simp only
    split_ifs <;> rfl
  · rw [(RefreshList_fields _).2.2.1]
    simp only
    split_ifs with h2
    · rfl
    · simpa using h2

theorem AddServer_of_invalid (E : EngFuncs) (u : UIState)
    (h : E.StringToAdr u.menu_internetgames.addressField = none) :
    AddServer E u =
      { u with effects := u.effects ++ [Effect.UI_ShowMessageBox "Invalid address".toList] } := by
  unfold AddServer
  simp only [h]

/-- C12, amended: starting from a favourites list with no two entries sharing the same address
text, `FavoriteServer` leaves it so when the selected record, if not flagged favourite, has
no entry with its address text in the list; and `AddServer` leaves it so when the list has no
entry with the entered text (as the 128-byte `sadr` field holds it). -/
theorem C12_favorites_unique (E : EngFuncs) (u : UIState)
    (huniq : UniqueAddresses u.menu_internetgames.favoritesList) :
    ((∀ serv, u.menu_internetgames.gameListModel.servers.get?
          u.menu_internetgames.gameList_iCurItem.toNat = some serv →
        serv.favorite = false →
        ¬ hasAddress u.menu_internetgames.favoritesList (E.NET_AdrToString serv.adr)) →
      UniqueAddresses (FavoriteServer E u.menu_internetgames).favoritesList) ∧
    (¬ hasAddress u.menu_internetgames.favoritesList
        (Q_strncpy u.menu_internetgames.addressField 128) →
      UniqueAddresses (AddServer E u).menu_internetgames.favoritesList) := by
  constructor
  · intro hcons
    cases hvalid : IsValidIndex u.menu_internetgames.gameListModel.servers
        u.menu_internetgames.gameList_iCurItem with
    | false => rw [FavoriteServer_of_invalid E _ hvalid]; exact huniq
    | true =>
      have hn : u.menu_internetgames.gameList_iCurItem.toNat <
          u.menu_internetgames.gameListModel.servers.length := by
        unfold IsValidIndex at hvalid
        simp only [Bool.and_eq_true, decide_eq_true_eq] at hvalid
        omega
      have hget := List.get?_eq_get hn
      obtain ⟨-, -, hadd, hrem⟩ := FavoriteServer_of_valid E _ _ hvalid hget
      cases hfav : (u.menu_internetgames.gameListModel.servers.get ⟨_, hn⟩).favorite with
      | false =>
        rw [hadd hfav]
        unfold UniqueAddresses at huniq ⊢
        rw [List.map_append, List.map_singleton]
        refine List.Nodup.append huniq (List.nodup_singleton _) ?_
        intro s hs1 hs2
        rw [List.mem_singleton] at hs2
        subst hs2
        exact hcons _ hget hfav ((hasAddress_iff_mem_map _ _).2 hs1)
      | true =>
        rw [hrem hfav]
        cases hfind : findFavorite u.menu_internetgames.favoritesList
            (E.NET_AdrToString (u.menu_internetgames.gameListModel.servers.get ⟨_, hn⟩).adr) with
        | none => exact huniq
        | some j =>
          simp only
          by_cases hj : j < u.menu_internetgames.favoritesList.length
          · unfold UniqueAddresses at huniq ⊢
            have hperm := (FastRemove_perm_eraseIdx u.menu_internetgames.favoritesList j hj).map
              (fun e => e.sadr)
            refine hperm.symm.nodup_iff.1 ?_
            exact List.Nodup.sublist ((List.eraseIdx_sublist _ _).map _) huniq
          · have : FastRemove u.menu_internetgames.favoritesList j =
                u.menu_internetgames.favoritesList := by
              unfold FastRemove
              rw [dif_neg hj]
            rw [this]
            exact huniq
  · intro hnew
    cases hadr : E.StringToAdr u.menu_internetgames.addressField with
    | none => rw [AddServer_of_invalid E u hadr]; exact huniq
    | some adr =>
      rw [(AddServer_of_valid E u adr hadr).1]
      unfold UniqueAddresses at huniq ⊢
      rw [List.map_append, List.map_singleton]
      refine List.Nodup.append huniq (List.nodup_singleton _) ?_
      intro s hs1 hs2
      rw [List.mem_singleton] at hs2
      subst hs2
      exact hnew ((hasAddress_iff_mem_map _ _).2 hs1)

/-- Witness for C12: adding the custom server `10.0.0.5` next to the favourite `10.0.0.1`. -/
theorem C12_favorites_unique_witness :
    UniqueAddresses (stateWithAddress "10.0.0.5".toList 0 2).menu_internetgames.favoritesList ∧
    UniqueAddresses (AddServer sampleEngine
      (stateWithAddress "10.0.0.5".toList 0 2)).menu_internetgames.favoritesList :=
  ⟨by decide, (C12_favorites_unique sampleEngine (stateWithAddress "10.0.0.5".toList 0 2)
    (by decide)).2 (by decide)⟩

/-- Counterexample to C12 as stated: `10.0.0.1` is the only favourite; adding `10.0.0.1` as a
custom server appends a second entry with the same address text. -/
theorem C12_counterexample :
    UniqueAddresses (stateWithAddress "10.0.0.1".toList 0 2).menu_internetgames.favoritesList ∧
    (AddServer sampleEngine
      (stateWithAddress "10.0.0.1".toList 0 2)).menu_internetgames.favoritesList.map
        (fun e => e.sadr) = ["10.0.0.1".toList, "10.0.0.1".toList] ∧
    ¬ UniqueAddresses (AddServer sampleEngine
      (stateWithAddress "10.0.0.1".toList 0 2)).menu_internetgames.favoritesList := by
  decide!

/-! ## C13: the ping clamp -/

theorem bound_eq_max_min (r hi : ℚ) (hhi : 0 ≤ hi) : bound 0 r hi = max 0 (min r hi) := by
  unfold bound
  split_ifs with h1 h2
  · rw [min_eq_left (le_of_lt h2), max_eq_right h1]
  · rw [min_eq_right (not_lt.1 h2), max_eq_right hhi]
  · have hr : r < 0 := not_le.1 h1
    rw [min_eq_left (le_trans (le_of_lt hr) hhi), max_eq_left (le_of_lt hr)]

/-- C13: for every measured value `r`, `server_t::SetPing` stores a ping in [0, 9.999]; for a
record that is not legacy the stored ping is `r` clamped to [0, 9.999], and for a legacy
record it is half of that (over exact rational arithmetic). -/
theorem C13_SetPing_clamp (s : server_t) (r : ℚ) :
    0 ≤ (s.SetPing r).ping ∧ (s.SetPing r).ping ≤ 9999 / 1000 ∧
    (s.isLegacy = false → (s.SetPing r).ping = max 0 (min r (9999 / 1000))) ∧
    (s.isLegacy = true → (s.SetPing r).ping = max 0 (min r (9999 / 1000)) / 2) := by
  have hb := bound_eq_max_min r (9999 / 1000) (by norm_num)
  have h0 : 0 ≤ max 0 (min r (9999 / 1000 : ℚ)) := le_max_left _ _
  have h1 : max 0 (min r (9999 / 1000 : ℚ)) ≤ 9999 / 1000 :=
    max_le (by norm_num) (min_le_right _ _)
  have hping : (s.SetPing r).ping =
      if s.isLegacy then bound 0 r (9999 / 1000) / 2 else bound 0 r (9999 / 1000) := rfl
  rw [hping, hb]
  have h2 : 0 ≤ max 0 (min r (9999 / 1000 : ℚ)) / 2 := by linarith
  have h3 : max 0 (min r (9999 / 1000 : ℚ)) / 2 ≤ 9999 / 1000 := by linarith
  cases s.isLegacy with
  | false => exact ⟨h0, h1, fun _ => rfl, fun h => Bool.noConfusion h⟩
  | true => exact ⟨h2, h3, fun h => Bool.noConfusion h, fun _ => rfl⟩

/-- Witness for C13: a legacy record measured at 30 seconds stores 4.9995, a record that is
not legacy measured at a quarter of a second stores that value. -/
theorem C13_SetPing_clamp_witness :
    ((sampleServer 1 "\\host\\Old\\legacy\\1".toList).SetPing 30).ping = 9999 / 2000 ∧
    ((sampleServer 2 "\\host\\New".toList).SetPing (1 / 4)).ping = 1 / 4 :=
  ⟨((C13_SetPing_clamp (sampleServer 1 "\\host\\Old\\legacy\\1".toList) 30).2.2.2
      (by decide)).trans (by norm_num),
    ((C13_SetPing_clamp (sampleServer 2 "\\host\\New".toList) (1 / 4)).2.2.1
      (by decide)).trans (by norm_num)⟩

/-! ## C14: the descriptor of a custom server -/

theorem splitBackslash_clean (a : CStr) : ∀ cur : CStr, '\\' ∉ a →
    splitBackslash cur a = [cur.reverse ++ a] := by
  induction a with
  | nil => intro cur _; simp [splitBackslash]
  | cons c cs ih =>
    intro cur h
    have hc : c ≠ '\\' := fun hc => h (by simp [hc])
    have hcs : '\\' ∉ cs := fun hm => h (List.mem_cons_of_mem _ hm)
    rw [splitBackslash, if_neg hc, ih (c :: cur) hcs]
    simp

theorem splitBackslash_append (a : CStr) : ∀ (cur rest : CStr), '\\' ∉ a →
    splitBackslash cur (a ++ '\\' :: rest) = (cur.reverse ++ a) :: splitBackslash [] rest := by
  induction a with
  | nil => intro cur rest _; simp [splitBackslash]
  | cons c cs ih =>
    intro cur rest h
    have hc : c ≠ '\\' := fun hc => h (by simp [hc])
    have hcs : '\\' ∉ cs := fun hm => h (List.mem_cons_of_mem _ hm)
    rw [List.cons_append, splitBackslash, if_neg hc, ih (c :: cur) rest hcs]
    simp

theorem splitBackslash_join (toks : List CStr) (hne : toks ≠ [])
    (h : ∀ t ∈ toks, '\\' ∉ t) : splitBackslash [] (joinBackslash toks) = toks := by
  induction toks with
  | nil => exact absurd rfl hne
  | cons t ts ih =>
    cases ts with
    | nil =>
      rw [joinBackslash, splitBackslash_clean t [] (h t (List.mem_cons_self _ _))]
      simp
    | cons t2 ts2 =>
      rw [joinBackslash, splitBackslash_append t [] _ (h t (List.mem_cons_self _ _)),
        ih (by simp) (fun x hx => h x (List.mem_cons_of_mem _ hx))]
      simp

theorem customServerInfo_eq_join (host gamefolder : CStr) (protocol : Int) :
    customServerInfo host gamefolder protocol =
      '\\' :: joinBackslash (customServerKeys host gamefolder protocol) := by
  unfold customServerInfo customServerKeys
  split_ifs <;> simp [joinBackslash]

theorem customServerKeys_clean (host gamefolder : CStr) (protocol : Int)
    (hhost : '\\' ∉ host) (hfolder : '\\' ∉ gamefolder) :
    ∀ t ∈ customServerKeys host gamefolder protocol, '\\' ∉ t := by
  intro t ht
  unfold customServerKeys at ht
  rw [List.mem_append] at ht
  rcases ht with h | h
  · simp only [List.mem_cons, List.mem_singleton, List.not_mem_nil, or_false] at h
    rcases h with rfl | rfl | rfl | rfl | rfl | rfl | rfl | rfl | rfl | rfl
    all_goals first | exact hhost | exact hfolder | decide
  · split_ifs at h
    · simp only [List.mem_cons, List.mem_singleton, List.not_mem_nil, or_false] at h
      rcases h with rfl | rfl <;> decide
    · simp only [List.mem_cons, List.mem_singleton, List.not_mem_nil, or_false] at h
      rcases h with rfl | rfl | rfl | rfl <;> decide
    · simp only [List.mem_cons, List.mem_singleton, List.not_mem_nil, or_false] at h
      rcases h with rfl | rfl | rfl | rfl <;> decide
    · exact absurd h (List.not_mem_nil _)

theorem Info_ValueForKey_custom (host gamefolder : CStr) (protocol : Int) (key : CStr)
    (hhost : '\\' ∉ host) (hfolder : '\\' ∉ gamefolder) :
    Info_ValueForKey (customServerInfo host gamefolder protocol) key =
      lookupKV key (customServerKeys host gamefolder protocol) := by
  rw [customServerInfo_eq_join]
  unfold Info_ValueForKey
  simp only
  rw [splitBackslash_join _ (by simp [customServerKeys])
    (customServerKeys_clean host gamefolder protocol hhost hfolder)]

theorem customServerInfo_length (host gamefolder : CStr) (protocol : Int) :
    (customServerInfo host gamefolder protocol).length ≤
      host.length + gamefolder.length + 57 := by
  have e1 : "\\host\\".toList.length = 6 := by decide
  have e2 : "\\gamedir\\".toList.length = 9 := by decide
  have e3 : "\\map\\unknown\\numcl\\0\\maxcl\\0".toList.length = 28 := by decide
  have e4 : "\\p\\49".toList.length = 5 := by decide
  have e5 : "\\p\\48\\legacy\\1".toList.length = 14 := by decide
  have e6 : "\\p\\48\\gs\\1".toList.length = 10 := by decide
  unfold customServerInfo
  split_ifs <;> simp only [List.length_append, List.length_nil, e1, e2, e3, e4, e5, e6] <;> omega

theorem ToProtocol_SetPing (s : server_t) (ping : ℚ) :
    (s.SetPing ping).ToProtocol = s.ToProtocol := rfl

/-- The protocol flags of the record built for a custom server, read from its descriptor. -/
theorem customServer_flags (E : EngFuncs) (adr : netadr_t) (host : CStr) (protocol : Int)
    (hhost : '\\' ∉ host) (hfit : (customServerInfo host E.gamefolder protocol).length < 512) :
    (customServer E adr host protocol).isLegacy =
      decide (lookupKV "legacy".toList (customServerKeys host E.gamefolder protocol)
        = "1".toList) ∧
    (customServer E adr host protocol).isGoldSrc =
      decide (lookupKV "gs".toList (customServerKeys host E.gamefolder protocol)
        = "1".toList) := by
  obtain ⟨hfolder, -⟩ := E.gamefolder_name
  have hinfo : (server_t.new adr (customServerInfo host E.gamefolder protocol) false).info =
      customServerInfo host E.gamefolder protocol := Q_strncpy_of_length_lt _ 512 hfit
  unfold customServer
  constructor
  · show decide (strcmp (Info_ValueForKey (server_t.new adr _ false).info "legacy".toList)
      "1".toList = 0) = _
    rw [hinfo, Info_ValueForKey_custom _ _ _ _ hhost hfolder]
    simp only [strcmp_eq_zero_iff]
  · show decide (strcmp (Info_ValueForKey (server_t.new adr _ false).info "gs".toList)
      "1".toList = 0) = _
    rw [hinfo, Info_ValueForKey_custom _ _ _ _ hhost hfolder]
    simp only [strcmp_eq_zero_iff]

/-- C14, amended: for every valid entered address that contains no backslash and whose
descriptor fits the 512-byte `info` buffer of the record, and for each protocol selection,
`AddServer` builds a descriptor with host = entered text, gamedir = current game folder, map = unknown, numcl = 0,
maxcl = 0, plus p = 49 (current), p = 48 and legacy = 1 (legacy), or p = 48 and gs = 1 with no
legacy key (GoldSource); the record built from it has `ToProtocol` equal to `49`, `48` and
`gs` respectively, and that tag is stored in the favourites entry that `AddServer` appends. -/
theorem C14_custom_server_protocol (E : EngFuncs) (adr : netadr_t) (host : CStr)
    (hvalid : E.StringToAdr host = some adr) (hclean : '\\' ∉ host)
    (hfit : ∀ p : Int, (customServerInfo host E.gamefolder p).length < 512) :
    (customServerInfo host E.gamefolder 0 = "\\host\\".toList ++ host ++
        "\\gamedir\\".toList ++ E.gamefolder ++
        "\\map\\unknown\\numcl\\0\\maxcl\\0\\p\\49".toList ∧
      customServerInfo host E.gamefolder 1 = "\\host\\".toList ++ host ++
        "\\gamedir\\".toList ++ E.gamefolder ++
        "\\map\\unknown\\numcl\\0\\maxcl\\0\\p\\48\\legacy\\1".toList ∧
      customServerInfo host E.gamefolder 2 = "\\host\\".toList ++ host ++
        "\\gamedir\\".toList ++ E.gamefolder ++
        "\\map\\unknown\\numcl\\0\\maxcl\\0\\p\\48\\gs\\1".toList) ∧
    (∀ p : Int, p = 0 ∨ p = 1 ∨ p = 2 →
      Info_ValueForKey (customServerInfo host E.gamefolder p) "host".toList = host ∧
      Info_ValueForKey (customServerInfo host E.gamefolder p) "gamedir".toList =
        E.gamefolder ∧
      Info_ValueForKey (customServerInfo host E.gamefolder p) "map".toList =
        "unknown".toList ∧
      Info_ValueForKey (customServerInfo host E.gamefolder p) "numcl".toList = "0".toList ∧
      Info_ValueForKey (customServerInfo host E.gamefolder p) "maxcl".toList = "0".toList) ∧
    (Info_ValueForKey (customServerInfo host E.gamefolder 0) "p".toList = "49".toList ∧
      Info_ValueForKey (customServerInfo host E.gamefolder 0) "legacy".toList = [] ∧
      Info_ValueForKey (customServerInfo host E.gamefolder 0) "gs".toList = []) ∧
    (Info_ValueForKey (customServerInfo host E.gamefolder 1) "p".toList = "48".toList ∧
      Info_ValueForKey (customServerInfo host E.gamefolder 1) "legacy".toList = "1".toList ∧
      Info_ValueForKey (customServerInfo host E.gamefolder 1) "gs".toList = []) ∧
    (Info_ValueForKey (customServerInfo host E.gamefolder 2) "p".toList = "48".toList ∧
      Info_ValueForKey (customServerInfo host E.gamefolder 2) "legacy".toList = [] ∧
      Info_ValueForKey (customServerInfo host E.gamefolder 2) "gs".toList = "1".toList) ∧
    ((customServer E adr host 0).ToProtocol = "49".toList ∧
      (customServer E adr host 1).ToProtocol = "48".toList ∧
      (customServer E adr host 2).ToProtocol = "gs".toList) ∧
    (∀ u : UIState, u.menu_internetgames.addressField = host →
      (AddServer E u).menu_internetgames.favoritesList =
        u.menu_internetgames.favoritesList ++ [favlist_entry_t.new host
          (customServer E adr host u.menu_internetgames.serverProtocol).ToProtocol false]) := by
  obtain ⟨hfolder, -⟩ := E.gamefolder_name
  have hkey := fun (p : Int) (key : CStr) =>
    Info_ValueForKey_custom host E.gamefolder p key hclean hfolder
  refine ⟨?_, ?_, ?_, ?_, ?_, ?_, ?_⟩
  · refine ⟨?_, ?_, ?_⟩ <;> simp [customServerInfo]
  · intro p hp
    simp only [hkey]
    rcases hp with rfl | rfl | rfl <;> exact ⟨rfl, rfl, rfl, rfl, rfl⟩
  · simp only [hkey]
    exact ⟨rfl, rfl, rfl⟩
  · simp only [hkey]
    exact ⟨rfl, rfl, rfl⟩
  · simp only [hkey]
    exact ⟨rfl, rfl, rfl⟩
  · have h0 := customServer_flags E adr host 0 hclean (hfit 0)
    have h1 := customServer_flags E adr host 1 hclean (hfit 1)
    have h2 := customServer_flags E adr host 2 hclean (hfit 2)
    refine ⟨?_, ?_, ?_⟩
    · unfold server_t.ToProtocol
      rw [h0.1, h0.2]
      rfl
    · unfold server_t.ToProtocol
      rw [h1.1, h1.2]
      rfl
    · unfold server_t.ToProtocol
      rw [h2.1, h2.2]
      rfl
  · intro u hu
    subst hu
    exact (AddServer_of_valid E u adr hvalid).1

/-- Witness for C14: the custom server `203.0.113.5:27015` with the GoldSource selection. -/
theorem C14_custom_server_protocol_witness :
    sampleEngine.StringToAdr "203.0.113.5:27015".toList = some ⟨[203, 0, 113, 5, 27015]⟩ ∧
    customServerInfo "203.0.113.5:27015".toList sampleEngine.gamefolder 2 =
      "\\host\\203.0.113.5:27015\\gamedir\\valve\\map\\unknown\\numcl\\0\\maxcl\\0\\p\\48\\gs\\1".toList ∧
    (customServer sampleEngine ⟨[203, 0, 113, 5, 27015]⟩ "203.0.113.5:27015".toList
      2).ToProtocol = "gs".toList :=
  ⟨by decide, by decide,
    (C14_custom_server_protocol sampleEngine ⟨[203, 0, 113, 5, 27015]⟩
      "203.0.113.5:27015".toList (by decide) (by decide)
      (fun p => lt_of_le_of_lt (customServerInfo_length _ _ p) (by decide))
      ).2.2.2.2.2.1.2.2⟩

/-- Counterexample to C14 as stated, with a parser that reads the leading address and ignores
what follows it. The accepted text `1.2.3.4:27015\legacy\1` carries a legacy key of its own:
with the selection 0 (current) the record is flagged legacy and its tag, also the one stored
in the favourites entry, is `48`. The accepted text of 513 bytes `1.2.3.4:27015xxx...` leaves
no room for the protocol keys in the 512-byte buffer: with the selection 1 (legacy) the tag
is `49`. -/
theorem C14_counterexample :
    sampleEngine.StringToAdr "1.2.3.4:27015\\legacy\\1".toList =
      some ⟨[1, 2, 3, 4, 27015]⟩ ∧
    (customServer sampleEngine ⟨[1, 2, 3, 4, 27015]⟩ "1.2.3.4:27015\\legacy\\1".toList
      0).ToProtocol = "48".toList ∧
    (AddServer sampleEngine (stateWithAddress "1.2.3.4:27015\\legacy\\1".toList 0 2)
      ).menu_internetgames.favoritesList.map (fun e => (e.sadr, e.prot)) =
      [("10.0.0.1".toList, "49".toList),
        ("1.2.3.4:27015\\legacy\\1".toList, "48".toList)] ∧
    sampleEngine.StringToAdr ("1.2.3.4:27015".toList ++ List.replicate 500 'x') =
      some ⟨[1, 2, 3, 4, 27015]⟩ ∧
    (customServer sampleEngine ⟨[1, 2, 3, 4, 27015]⟩
      ("1.2.3.4:27015".toList ++ List.replicate 500 'x') 1).ToProtocol = "49".toList := by
  refine ⟨?_, ?_, ?_, ?_, ?_⟩ <;> decide!

/-! ## C15 and C20: discovery replies -/

theorem ToggleFavoriteButton_buttons (b : CMenuServerBrowser) (en : Bool) :
    (ToggleFavoriteButton b en).gameListModel = b.gameListModel ∧
    (ToggleFavoriteButton b en).favoritesList = b.favoritesList ∧
    (ToggleFavoriteButton b en).joinGame_grayed = b.joinGame_grayed ∧
    (ToggleFavoriteButton b en).viewGameInfo_grayed = b.viewGameInfo_grayed ∧
    (ToggleFavoriteButton b en).favorite_grayed = b.favorite_grayed := by
  unfold ToggleFavoriteButton
  split_ifs <;> exact ⟨rfl, rfl, rfl, rfl, rfl⟩

theorem OnChangeSelectedServer_fields (b : CMenuServerBrowser) :
    (OnChangeSelectedServer b).gameListModel = b.gameListModel ∧
    (OnChangeSelectedServer b).favoritesList = b.favoritesList ∧
    (OnChangeSelectedServer b).joinGame_grayed = b.joinGame_grayed ∧
    (OnChangeSelectedServer b).viewGameInfo_grayed = b.viewGameInfo_grayed ∧
    (OnChangeSelectedServer b).favorite_grayed = b.favorite_grayed := by
  unfold OnChangeSelectedServer
  split_ifs
  · exact ⟨rfl, rfl, rfl, rfl, rfl⟩
  · split
    · exact ToggleFavoriteButton_buttons b _
    · exact ⟨rfl, rfl, rfl, rfl, rfl⟩

theorem any_strcmp_eq_decide_hasAddress (list : List favlist_entry_t) (sadr : CStr) :
    list.any (fun e => decide (strcmp e.sadr sadr = 0)) = decide (hasAddress list sadr) := by
  rw [Bool.eq_iff_iff]
  simp [hasAddress, strcmp_eq_zero_iff]

/-- A reply that passes the three tests of the discovery callback is handed to the model with
the favourite hint read from the favourites list. -/
theorem AddServerToList_forwarded (E : EngFuncs) (u : UIState) (adr : netadr_t) (info : CStr)
    (hgame : stricmp E.gamefolder (Info_ValueForKey info "gamedir".toList) = 0)
    (hinit : u.menu_internetgames.wasInit = true)
    (hvis : u.menu_internetgames.isVisible = true) :
    (CMenuServerBrowser.AddServerToList E u adr info).menu_internetgames.gameListModel =
      u.menu_internetgames.gameListModel.AddServerToList E adr info
        (decide (hasAddress u.menu_internetgames.favoritesList (E.NET_AdrToString adr)))
        u.doubleTime ∧
    (CMenuServerBrowser.AddServerToList E u adr info).menu_internetgames.joinGame_grayed =
      false ∧
    (CMenuServerBrowser.AddServerToList E u adr info).menu_internetgames.viewGameInfo_grayed =
      false ∧
    (CMenuServerBrowser.AddServerToList E u adr info).menu_internetgames.favorite_grayed =
      decide (u.cl_nat > 0) := by
  unfold CMenuServerBrowser.AddServerToList MaybeEnableFavoriteButton
  rw [if_neg (not_not.mpr hgame), if_neg (by simp [hinit]), if_neg (by simp [hvis])]
  refine ⟨?_, ?_, ?_, ?_⟩
  · rw [(OnChangeSelectedServer_fields _).1]
    simp only [any_strcmp_eq_decide_hasAddress]
  · rw [(OnChangeSelectedServer_fields _).2.2.1]
  · rw [(OnChangeSelectedServer_fields _).2.2.2.1]
  · rw [(OnChangeSelectedServer_fields _).2.2.2.2]

theorem AddServerToList_dropped (E : EngFuncs) (u : UIState) (adr : netadr_t) (info : CStr)
    (h : stricmp E.gamefolder (Info_ValueForKey info "gamedir".toList) ≠ 0 ∨
      u.menu_internetgames.wasInit = false ∨ u.menu_internetgames.isVisible = false) :
    CMenuServerBrowser.AddServerToList E u adr info = u := by
  unfold CMenuServerBrowser.AddServerToList
  by_cases hgame : stricmp E.gamefolder (Info_ValueForKey info "gamedir".toList) = 0
  · rw [if_neg (not_not.mpr hgame)]
    rcases h with h | h | h
    · exact absurd hgame h
    · rw [if_pos (by simp [h])]
    · by_cases hinit : u.menu_internetgames.wasInit = true
      · rw [if_neg (by simp [hinit]), if_pos (by simp [h])]
      · rw [if_pos (by simpa using hinit)]
  · rw [if_pos hgame]

/-- C20: `CMenuServerBrowser::AddServerToList` leaves the whole state, the server list and the
button states included, unchanged whenever the gamedir value of the descriptor names a game
folder other than the current one (compared by `stricmp`), or the browser is not initialised,
or not visible; in every other case the reply is handed to the model with the favourite hint
computed from the favourites list. -/
theorem C20_dropped_replies (E : EngFuncs) (u : UIState) (adr : netadr_t) (info : CStr) :
    ((stricmp E.gamefolder (Info_ValueForKey info "gamedir".toList) ≠ 0 ∨
        u.menu_internetgames.wasInit = false ∨ u.menu_internetgames.isVisible = false) →
      CMenuServerBrowser.AddServerToList E u adr info = u) ∧
    (stricmp E.gamefolder (Info_ValueForKey info "gamedir".toList) = 0 →
      u.menu_internetgames.wasInit = true → u.menu_internetgames.isVisible = true →
      (CMenuServerBrowser.AddServerToList E u adr info).menu_internetgames.gameListModel =
        u.menu_internetgames.gameListModel.AddServerToList E adr info
          (decide (hasAddress u.menu_internetgames.favoritesList (E.NET_AdrToString adr)))
          u.doubleTime) :=
  ⟨AddServerToList_dropped E u adr info,
    fun hgame hinit hvis => (AddServerToList_forwarded E u adr info hgame hinit hvis).1⟩

/-- Witness for C20: a reply for another game folder is dropped; a reply for the current one
reaches the table. -/
theorem C20_dropped_replies_witness :
    CMenuServerBrowser.AddServerToList sampleEngine sampleState ⟨[10, 0, 0, 1]⟩
      "\\host\\Far\\gamedir\\cstrike".toList = sampleState ∧
    (CMenuServerBrowser.AddServerToList sampleEngine sampleState ⟨[10, 0, 0, 1]⟩
      "\\host\\Near\\gamedir\\valve".toList).menu_internetgames.gameListModel.servers.map
        (fun s => s.name) = ["Near".toList] :=
  ⟨(C20_dropped_replies sampleEngine sampleState ⟨[10, 0, 0, 1]⟩
      "\\host\\Far\\gamedir\\cstrike".toList).1 (Or.inl (by decide)),
    (congrArg (fun m : CMenuGameListModel => m.servers.map (fun s => s.name))
      ((C20_dropped_replies sampleEngine sampleState ⟨[10, 0, 0, 1]⟩
        "\\host\\Near\\gamedir\\valve".toList).2 (by decide) (by decide) (by decide))).trans
      (by decide!)⟩

theorem digitVal_of_isDigit (c : Char) (h : c.isDigit = true) :
    digitVal c = some (c.toNat - 48) := by
  unfold digitVal
  have h2 : 48 ≤ c.toNat ∧ c.toNat ≤ 57 := by
    simpa [Char.isDigit, Char.toNat, UInt32.le_def, Fin.le_def] using h
  rw [if_pos h2]

theorem atoiDigits_eq_ofDigits (s : CStr) :
    ∀ acc : Nat, s.all Char.isDigit = true →
      atoiDigits acc s =
        acc * 10 ^ s.length + Nat.ofDigits 10 (s.reverse.map (fun c => c.toNat - 48)) := by
  induction s with
  | nil => intro acc _; simp [atoiDigits]
  | cons c cs ih =>
    intro acc h
    simp only [List.all_cons, Bool.and_eq_true] at h
    unfold atoiDigits
    rw [digitVal_of_isDigit c h.1]
    simp only
    rw [ih _ h.2, List.reverse_cons, List.map_append, Nat.ofDigits_append]
    simp only [List.map_cons, List.map_nil, Nat.ofDigits_singleton, List.length_map,
      List.length_reverse, List.length_cons]
    ring

/-- On a plain decimal numeral below 2^31, `atoi` returns the number the numeral denotes. -/
theorem atoi_of_decimalValue (s : CStr) (n : Nat) (h : decimalValue s = some n)
    (hn : n < 2147483648) : atoi s = (n : Int) := by
  unfold decimalValue at h
  split at h
  · rename_i hs
    obtain ⟨hne, hall⟩ := hs
    have hn2 : Nat.ofDigits 10 (s.reverse.map (fun c => c.toNat - 48)) = n := by
      simpa using h
    have hdig := atoiDigits_eq_ofDigits s 0 hall
    rw [hn2] at hdig
    simp only [Nat.zero_mul, Nat.zero_add] at hdig
    obtain ⟨c, cs, rfl⟩ := List.exists_cons_of_ne_nil hne
    have hc : c.isDigit = true := by
      simp only [List.all_cons, Bool.and_eq_true] at hall
      exact hall.1
    have hc2 : 48 ≤ c.toNat ∧ c.toNat ≤ 57 := by
      simpa [Char.isDigit, Char.toNat, UInt32.le_def, Fin.le_def] using hc
    have hsp : isspace c = false := by
      unfold isspace
      have h1 : c ≠ ' ' := by
        intro he
        rw [he] at hc2
        exact absurd hc2.1 (by decide)
      simp [h1]
      omega
    have hminus : c ≠ '-' := by
      intro he
      rw [he] at hc2
      exact absurd hc2.1 (by decide)
    have hplus : c ≠ '+' := by
      intro he
      rw [he] at hc2
      exact absurd hc2.1 (by decide)
    have hval : strtolValue (c :: cs) = (n : Int) := by
      unfold strtolValue
      rw [List.dropWhile_cons_of_neg (by simp [hsp])]
      split
      · rename_i heq
        exact absurd (List.cons.inj heq).1 hminus
      · rename_i heq
        exact absurd (List.cons.inj heq).1 hplus
      · rw [hdig]
    unfold atoi toInt32
    simp only [hval]
    have h0 : (0 : Int) ≤ (n : Int) := Int.ofNat_nonneg n
    have h1 : (n : Int) < 2147483648 := by exact_mod_cast hn
    rw [if_neg (by omega), if_neg (by omega)]
    omega
  · exact absurd h (by simp)

/-- C15, amended: for every discovery reply delivered to the visible, initialised browser
whose gamedir value names the current game folder, whose descriptor fits the 512-byte `info`
buffer and which is not a duplicate, exactly one record is added; its `clientsstr` is
`<numcl>\<maxcl>`, the decimal renderings of the `int` values that `atoi` reads from the numcl
and maxcl values, which for a value that is a plain decimal numeral below 2^31 is the number
it denotes; its `name` and `mapname` are the host and map values, each as far as its 64-byte
field holds it, and `havePassword` is true exactly when the password value is `1`. -/
theorem C15_derived_fields (E : EngFuncs) (u : UIState) (adr : netadr_t) (info : CStr)
    (hgame : stricmp E.gamefolder (Info_ValueForKey info "gamedir".toList) = 0)
    (hinit : u.menu_internetgames.wasInit = true)
    (hvis : u.menu_internetgames.isVisible = true)
    (hnew : ¬ ∃ s ∈ u.menu_internetgames.gameListModel.servers,
      E.NET_CompareAdr s.adr adr = 0 ∨ stricmp s.info info = 0)
    (hfit : info.length < 512) :
    ∃ r : server_t,
      (CMenuServerBrowser.AddServerToList E u adr info
        ).menu_internetgames.gameListModel.servers.Perm
        (u.menu_internetgames.gameListModel.servers ++ [r]) ∧
      r.adr = adr ∧ r.info = info ∧
      r.clientsstr = Q_strncpy (fmt_d (atoi (Info_ValueForKey info "numcl".toList)) ++
        '\\' :: fmt_d (atoi (Info_ValueForKey info "maxcl".toList))) 64 ∧
      (∀ n m : Nat, decimalValue (Info_ValueForKey info "numcl".toList) = some n →
        decimalValue (Info_ValueForKey info "maxcl".toList) = some m →
        n < 2147483648 → m < 2147483648 →
        r.numcl = n ∧ r.maxcl = m ∧
        r.clientsstr = Q_strncpy (fmt_d n ++ '\\' :: fmt_d m) 64) ∧
      r.name = Q_strncpy (Info_ValueForKey info "host".toList) 64 ∧
      r.mapname = Q_strncpy (Info_ValueForKey info "map".toList) 64 ∧
      (r.havePassword = true ↔ Info_ValueForKey info "password".toList = "1".toList) := by
  have hdup : isDuplicated E u.menu_internetgames.gameListModel.servers adr info = false := by
    rw [← Bool.not_eq_true, isDuplicated_eq_true_iff]
    exact hnew
  have hinfo : (server_t.new adr info (decide (hasAddress u.menu_internetgames.favoritesList
      (E.NET_AdrToString adr)))).info = info := Q_strncpy_of_length_lt info 512 hfit
  refine ⟨((server_t.new adr info (decide (hasAddress u.menu_internetgames.favoritesList
      (E.NET_AdrToString adr)))).UpdateData E).SetPing
      (u.doubleTime - u.menu_internetgames.gameListModel.serversRefreshTime),
    ?_, rfl, hinfo, ?_, ?_, ?_, ?_, ?_⟩
  · rw [(AddServerToList_forwarded E u adr info hgame hinit hvis).1]
    exact AddServerToList_servers_of_not_duplicated E _ adr info _ _ hdup
  · show Q_strncpy (fmt_d (atoi (Info_ValueForKey (server_t.new adr info _).info _)) ++
      '\\' :: fmt_d (atoi (Info_ValueForKey (server_t.new adr info _).info _))) 64 = _
    rw [hinfo]
  · intro n m hn hm hnlt hmlt
    refine ⟨?_, ?_, ?_⟩
    · show atoi (Info_ValueForKey (server_t.new adr info _).info _) = _
      rw [hinfo]
      exact atoi_of_decimalValue _ n hn hnlt
    · show atoi (Info_ValueForKey (server_t.new adr info _).info _) = _
      rw [hinfo]
      exact atoi_of_decimalValue _ m hm hmlt
    · show Q_strncpy (fmt_d (atoi (Info_ValueForKey (server_t.new adr info _).info _)) ++
        '\\' :: fmt_d (atoi (Info_ValueForKey (server_t.new adr info _).info _))) 64 = _
      rw [hinfo, atoi_of_decimalValue _ n hn hnlt, atoi_of_decimalValue _ m hm hmlt]
  · show Q_strncpy (Info_ValueForKey (server_t.new adr info _).info _) 64 = _
    rw [hinfo]
  · show Q_strncpy (Info_ValueForKey (server_t.new adr info _).info _) 64 = _
    rw [hinfo]
  · show decide (strcmp (Info_ValueForKey (server_t.new adr info _).info _) "1".toList = 0)
      = true ↔ _
    rw [hinfo, decide_eq_true_eq, strcmp_eq_zero_iff]

/-- Counterexample to C15 as stated, in the browser of game folder `valve`: the reply of the
example, which has no gamedir key, is dropped although the browser is initialised and visible;
a reply whose host value is 70 bytes long gives a record whose `name` is its first 63 bytes
only; and a reply whose numcl value is `99999999999` gives a record showing
`1215752191\32`, the value cut to the 32-bit `int`. -/
theorem C15_counterexample :
    sampleState.menu_internetgames.wasInit = true ∧
    sampleState.menu_internetgames.isVisible = true ∧
    (CMenuServerBrowser.AddServerToList sampleEngine sampleState ⟨[1, 2, 3, 4]⟩
      "\\host\\Test\\map\\de_dust\\numcl\\5\\maxcl\\10\\password\\1".toList
      ).menu_internetgames.gameListModel.servers = [] ∧
    (CMenuServerBrowser.AddServerToList sampleEngine sampleState ⟨[1, 2, 3, 4]⟩
      ("\\gamedir\\valve\\host\\".toList ++ List.replicate 70 'x')
      ).menu_internetgames.gameListModel.servers.map (fun s => s.name) =
        [List.replicate 63 'x'] ∧
    Info_ValueForKey ("\\gamedir\\valve\\host\\".toList ++ List.replicate 70 'x')
      "host".toList = List.replicate 70 'x' ∧
    (CMenuServerBrowser.AddServerToList sampleEngine sampleState ⟨[1, 2, 3, 4]⟩
      "\\gamedir\\valve\\numcl\\99999999999\\maxcl\\32".toList
      ).menu_internetgames.gameListModel.servers.map (fun s => s.clientsstr) =
        ["1215752191\\32".toList] := by
  refine ⟨rfl, rfl, ?_, ?_, ?_, ?_⟩
  · decide
  · decide!
  · decide
  · decide!

/-- Witness for C15: the reply of the example with the gamedir key of the current game
folder. -/
theorem C15_derived_fields_witness :
    ∃ r : server_t,
      (CMenuServerBrowser.AddServerToList sampleEngine sampleState ⟨[1, 2, 3, 4]⟩
        "\\host\\Test\\gamedir\\valve\\map\\de_dust\\numcl\\5\\maxcl\\10\\password\\1".toList
        ).menu_internetgames.gameListModel.servers.Perm [r] ∧
      r.clientsstr = "5\\10".toList ∧ r.name = "Test".toList ∧
      r.mapname = "de_dust".toList ∧ r.havePassword = true := by
  obtain ⟨r, hperm, _, _, _, hnum, hname, hmap, hpass⟩ :=
    C15_derived_fields sampleEngine sampleState ⟨[1, 2, 3, 4]⟩
      "\\host\\Test\\gamedir\\valve\\map\\de_dust\\numcl\\5\\maxcl\\10\\password\\1".toList
      (by decide) (by decide) (by decide) (by decide) (by decide)
  exact ⟨r, hperm,
    (hnum 5 10 (by decide!) (by decide!) (by decide) (by decide)).2.2.trans (by decide),
    hname.trans (by decide), hmap.trans (by decide), hpass.mpr (by decide)⟩

/-! ## C16 to C19: refreshing the list -/

theorem commandsOf_map_ClientCmd (l : List favlist_entry_t) :
    commandsOf (l.map (fun e => Effect.ClientCmd (queryCmd e.sadr e.prot))) =
      l.map (fun e => queryCmd e.sadr e.prot) := by
  induction l with
  | nil => rfl
  | cons e rest ih => simp [commandsOf, ih]

/-- The commands of one call of `RefreshList`. -/
theorem RefreshList_effects (u : UIState) :
    (RefreshList u).effects = u.effects ++
      (if u.menu_internetgames.m_bLanOnly = true then
        [Effect.ClientCmd "localservers\n".toList]
      else if u.realTime > u.menu_internetgames.refreshTime2 then
        (if u.menu_internetgames.tabSwitch_state = 2 then
          u.menu_internetgames.favoritesList.map
            (fun e => Effect.ClientCmd (queryCmd e.sadr e.prot))
        else if u.menu_internetgames.tabSwitch_state = 3 then
          u.menu_internetgames.historyList.map
            (fun e => Effect.ClientCmd (queryCmd e.sadr e.prot))
        else [Effect.ClientCmd "internetservers\n".toList])
      else []) := by
  unfold RefreshList QueryServerList UI_MenuResetPing_f ResetPing ClearList
  simp only
  split_ifs <;> simp

/-- The deadlines after a call of `RefreshList` that takes the query branch. -/
theorem RefreshList_deadlines (u : UIState) (hlan : u.menu_internetgames.m_bLanOnly = false)
    (hnow : u.realTime > u.menu_internetgames.refreshTime2) :
    (RefreshList u).menu_internetgames.refreshTime2 =
      u.realTime + (if u.cl_nat ≠ 0 then 4000 else 1000) ∧
    (RefreshList u).menu_internetgames.refresh_grayed = true ∧
    (RefreshList u).menu_internetgames.refreshTime =
      min u.menu_internetgames.refreshTime (u.realTime + 20000) := by
  unfold RefreshList QueryServerList UI_MenuResetPing_f ResetPing ClearList
  simp only [hlan, Bool.false_eq_true, if_false, hnow, if_true]
  split_ifs with h1 h2 h3 h4 h5 h6 <;>
    first
    | exact ⟨rfl, rfl, (min_eq_right (le_of_lt (by assumption))).symm⟩
    | exact ⟨rfl, rfl, (min_eq_left (not_lt.mp (by assumption))).symm⟩

/-- One call of `RefreshList` never moves the outer deadline later. -/
theorem RefreshList_refreshTime_le (u : UIState) :
    (RefreshList u).menu_internetgames.refreshTime ≤ u.menu_internetgames.refreshTime := by
  unfold RefreshList QueryServerList UI_MenuResetPing_f ResetPing ClearList
  simp only
  split_ifs <;> first | exact le_refl _ | exact le_of_lt (by assumption)

/-- The state that `OnTabSwitch` hands to `RefreshList`, field by field. -/
theorem OnTabSwitch_eq (u : UIState) :
    ∃ u1 : UIState, OnTabSwitch u = RefreshList u1 ∧ u1.effects = u.effects ∧
      u1.realTime = u.realTime ∧
      u1.menu_internetgames.m_bLanOnly = u.menu_internetgames.m_bLanOnly ∧
      u1.menu_internetgames.refreshTime2 = u.menu_internetgames.refreshTime2 ∧
      u1.menu_internetgames.tabSwitch_state = u.menu_internetgames.tabSwitch_state ∧
      u1.menu_internetgames.favoritesList = u.menu_internetgames.favoritesList ∧
      u1.menu_internetgames.historyList = u.menu_internetgames.historyList := by
  refine ⟨_, rfl, ?_⟩
  unfold ClearList
  simp only
  split_ifs <;> exact ⟨rfl, rfl, rfl, rfl, rfl, rfl, rfl⟩

/-- C16, amended: for every tab state and every current time, `OnTabSwitch` in non-LAN mode
empties the server list; when the current time is past the reissue deadline `refreshTime2` it
issues a discovery request (`internetservers` for Direct/NAT, one `queryserver` per entry of
the favourites or history list for Favorites/History), and otherwise it issues nothing. -/
theorem C16_tab_switch (u : UIState) (hlan : u.menu_internetgames.m_bLanOnly = false) :
    (OnTabSwitch u).menu_internetgames.gameListModel.servers = [] ∧
    (u.realTime > u.menu_internetgames.refreshTime2 →
      commandsOf (OnTabSwitch u).effects = commandsOf u.effects ++
        (if u.menu_internetgames.tabSwitch_state = 2 then
          u.menu_internetgames.favoritesList.map (fun e => queryCmd e.sadr e.prot)
        else if u.menu_internetgames.tabSwitch_state = 3 then
          u.menu_internetgames.historyList.map (fun e => queryCmd e.sadr e.prot)
        else ["internetservers\n".toList])) ∧
    (¬ u.realTime > u.menu_internetgames.refreshTime2 →
      (OnTabSwitch u).effects = u.effects) := by
  obtain ⟨u1, heq, heff, hreal, hl, hr2, htab, hfav, hhist⟩ := OnTabSwitch_eq u
  rw [heq]
  refine ⟨(RefreshList_fields u1).2.2.2.2.1, ?_, ?_⟩
  · intro hnow
    rw [RefreshList_effects, hl, hlan, hreal, hr2, htab, hfav, hhist, heff, commandsOf_append]
    simp only [Bool.false_eq_true, if_false, hnow, if_true]
    split_ifs
    · rw [commandsOf_map_ClientCmd]
    · rw [commandsOf_map_ClientCmd]
    · rfl
  · intro hnow
    rw [RefreshList_effects, hl, hlan, hreal, hr2, heff]
    simp only [Bool.false_eq_true, if_false, hnow, List.append_nil]

/-- Witness for C16: switching to the Favorites tab after the reissue deadline queries the
one favourite. -/
theorem C16_tab_switch_witness :
    (stateWithAddress [] 0 2).menu_internetgames.m_bLanOnly = false ∧
    commandsOf (OnTabSwitch (stateWithAddress [] 0 2)).effects =
      ["queryserver \"10.0.0.1\" \"49\"".toList] :=
  ⟨rfl, ((C16_tab_switch (stateWithAddress [] 0 2) rfl).2.1 (by decide!)).trans (by decide)⟩

/-- Counterexample to C16 as stated: at time 0, before the reissue deadline 500, a tab switch
in non-LAN mode issues no command. -/
theorem C16_counterexample :
    sampleState.menu_internetgames.m_bLanOnly = false ∧
    sampleState.realTime = 0 ∧ sampleState.menu_internetgames.refreshTime2 = 500 ∧
    commandsOf (OnTabSwitch sampleState).effects = [] := by
  refine ⟨rfl, rfl, rfl, ?_⟩
  decide!

/-- C17: whenever `RefreshList` issues a query in non-LAN mode (the current time is past
`refreshTime2`), it sets `refreshTime2` to now + 1000, or now + 4000 when `cl_nat` is
non-zero, grays the refresh button, and sets `refreshTime` to the smaller of its previous
value and now + 20000; and no call of `RefreshList` moves `refreshTime` later. -/
theorem C17_refresh_throttling (u : UIState) :
    (u.menu_internetgames.m_bLanOnly = false →
      u.realTime > u.menu_internetgames.refreshTime2 →
      (RefreshList u).menu_internetgames.refreshTime2 =
        u.realTime + (if u.cl_nat ≠ 0 then 4000 else 1000) ∧
      (RefreshList u).menu_internetgames.refresh_grayed = true ∧
      (RefreshList u).menu_internetgames.refreshTime =
        min u.menu_internetgames.refreshTime (u.realTime + 20000)) ∧
    (RefreshList u).menu_internetgames.refreshTime ≤ u.menu_internetgames.refreshTime :=
  ⟨RefreshList_deadlines u, RefreshList_refreshTime_le u⟩

/-- Witness for C17: a refresh at time 1000 with `cl_nat` zero and outer deadline 500. -/
theorem C17_refresh_throttling_witness :
    (RefreshList (stateWithAddress [] 0 2)).menu_internetgames.refreshTime2 = 2000 ∧
    (RefreshList (stateWithAddress [] 0 2)).menu_internetgames.refresh_grayed = true ∧
    (RefreshList (stateWithAddress [] 0 2)).menu_internetgames.refreshTime = 500 := by
  obtain ⟨h2, hg, h1⟩ :=
    (C17_refresh_throttling (stateWithAddress [] 0 2)).1 rfl (by decide!)
  exact ⟨h2.trans (by decide!), hg, h1.trans (by decide!)⟩

/-- C18, evaluation: with the Favorites tab active at time 1000 and reissue deadline 500, a
refresh would query the favourite `10.0.0.1`; `AddServer` for the valid address `10.0.0.5`
appends the entry and keeps the tab, sets `refreshTime2` to the current time, and its call of
`RefreshList` then issues no command at all. -/
theorem C18_no_immediate_refresh :
    sampleEngine.StringToAdr "10.0.0.5".toList = some ⟨[10, 0, 0, 5]⟩ ∧
    commandsOf (RefreshList (stateWithAddress "10.0.0.5".toList 2 2)).effects =
      ["queryserver \"10.0.0.1\" \"49\"".toList] ∧
    (AddServer sampleEngine (stateWithAddress "10.0.0.5".toList 2 2)
      ).menu_internetgames.tabSwitch_state = 2 ∧
    (AddServer sampleEngine (stateWithAddress "10.0.0.5".toList 2 2)
      ).menu_internetgames.favoritesList.map (fun e => (e.sadr, e.prot)) =
      [("10.0.0.1".toList, "49".toList), ("10.0.0.5".toList, "gs".toList)] ∧
    (AddServer sampleEngine (stateWithAddress "10.0.0.5".toList 2 2)
      ).menu_internetgames.refreshTime2 = 1000 ∧
    (AddServer sampleEngine (stateWithAddress "10.0.0.5".toList 2 2)).effects = [] := by
  refine ⟨?_, ?_, ?_, ?_, ?_, ?_⟩ <;> decide!

/-- C19: when the address parser rejects the entered text, `AddServer` only shows the
`Invalid address` prompt: the state is the one before with that prompt appended to the
effects, so the server list, the favourites list, the active tab and both refresh deadlines
are unchanged and no command is issued. -/
theorem C19_invalid_address (E : EngFuncs) (u : UIState)
    (h : E.StringToAdr u.menu_internetgames.addressField = none) :
    AddServer E u =
      { u with effects := u.effects ++ [Effect.UI_ShowMessageBox "Invalid address".toList] } ∧
    (AddServer E u).menu_internetgames = u.menu_internetgames ∧
    commandsOf (AddServer E u).effects = commandsOf u.effects := by
  rw [AddServer_of_invalid E u h]
  refine ⟨rfl, rfl, ?_⟩
  rw [commandsOf_append]
  simp [commandsOf]

/-- Witness for C19: the text `bad host` is rejected by the sample parser. -/
theorem C19_invalid_address_witness :
    sampleEngine.StringToAdr "bad host".toList = none ∧
    AddServer sampleEngine (stateWithAddress "bad host".toList 0 0) =
      { stateWithAddress "bad host".toList 0 0 with
        effects := [Effect.UI_ShowMessageBox "Invalid address".toList] } :=
  ⟨by decide, (C19_invalid_address sampleEngine (stateWithAddress "bad host".toList 0 0)
    (by decide)).1⟩

/-! ## C21: sort dispatch -/

/-- What `Sort` does for each column of the table. -/
theorem Sort_of_column (E : EngFuncs) (m : CMenuGameListModel) (ascend : Bool) :
    m.Sort E COLUMN_PASSWORD ascend =
      (false, { m with m_iSortingColumn := COLUMN_PASSWORD, m_bAscend := ascend }) ∧
    m.Sort E COLUMN_FAVORITE ascend =
      (false, { m with m_iSortingColumn := COLUMN_FAVORITE, m_bAscend := ascend }) ∧
    m.Sort E COLUMN_NAME ascend =
      (true,
        { m with m_iSortingColumn := COLUMN_NAME, m_bAscend := ascend,
                 servers := (qsort (if ascend then server_t.NameCmpAscend E
                   else server_t.NameCmpDescend E) m.servers) }) ∧
    m.Sort E COLUMN_MAP ascend =
      (true,
        { m with m_iSortingColumn := COLUMN_MAP, m_bAscend := ascend,
                 servers := (qsort (if ascend then server_t.MapCmpAscend
                   else server_t.MapCmpDescend) m.servers) }) ∧
    m.Sort E COLUMN_PLAYERS ascend =
      (true,
        { m with m_iSortingColumn := COLUMN_PLAYERS, m_bAscend := ascend,
                 servers := (qsort (if ascend then server_t.ClientCmpAscend
                   else server_t.ClientCmpDescend) m.servers) }) ∧
    m.Sort E COLUMN_PING ascend =
      (true,
        { m with m_iSortingColumn := COLUMN_PING, m_bAscend := ascend,
                 servers := (qsort (if ascend then server_t.PingCmpAscend
                   else server_t.PingCmpDescend) m.servers) }) ∧
    m.Sort E COLUMN_IP ascend =
      (true,
        { m with m_iSortingColumn := COLUMN_IP, m_bAscend := ascend,
                 servers := (qsort (if ascend then server_t.AdrCmpAscend E
                   else server_t.AdrCmpDescend E) m.servers) }) :=
  ⟨rfl, rfl, rfl, rfl, rfl, rfl, rfl⟩

/-- Apart from the column -1, `Sort` records the column and the direction and keeps the
refresh time. -/
theorem Sort_records (E : EngFuncs) (m : CMenuGameListModel) (column : Int) (ascend : Bool)
    (hcol : column ≠ -1) :
    (m.Sort E column ascend).2.m_iSortingColumn = column ∧
    (m.Sort E column ascend).2.m_bAscend = ascend ∧
    (m.Sort E column ascend).2.serversRefreshTime = m.serversRefreshTime := by
  unfold CMenuGameListModel.Sort
  simp only [hcol, if_false]
  split_ifs <;> exact ⟨rfl, rfl, rfl⟩

/-- C21, amended: `Sort` returns false and leaves the record order unchanged for the password
column and for the favorite column; for each of the columns name, map, players, ping and
address it sorts the records with the comparator of that column in the requested direction
and returns true; in all these cases it records the column and the direction, so that a later
accepted insertion sorts the list with the new record the same way. -/
theorem C21_sort_dispatch (E : EngFuncs) (m : CMenuGameListModel) (ascend : Bool) :
    ((m.Sort E COLUMN_PASSWORD ascend).1 = false ∧
      (m.Sort E COLUMN_PASSWORD ascend).2.servers = m.servers) ∧
    ((m.Sort E COLUMN_FAVORITE ascend).1 = false ∧
      (m.Sort E COLUMN_FAVORITE ascend).2.servers = m.servers) ∧
    ((m.Sort E COLUMN_NAME ascend).1 = true ∧
      (m.Sort E COLUMN_NAME ascend).2.servers =
        qsort (if ascend then server_t.NameCmpAscend E else server_t.NameCmpDescend E)
          m.servers) ∧
    ((m.Sort E COLUMN_MAP ascend).1 = true ∧
      (m.Sort E COLUMN_MAP ascend).2.servers =
        qsort (if ascend then server_t.MapCmpAscend else server_t.MapCmpDescend) m.servers) ∧
    ((m.Sort E COLUMN_PLAYERS ascend).1 = true ∧
      (m.Sort E COLUMN_PLAYERS ascend).2.servers =
        qsort (if ascend then server_t.ClientCmpAscend else server_t.ClientCmpDescend)
          m.servers) ∧
    ((m.Sort E COLUMN_PING ascend).1 = true ∧
      (m.Sort E COLUMN_PING ascend).2.servers =
        qsort (if ascend then server_t.PingCmpAscend else server_t.PingCmpDescend)
          m.servers) ∧
    ((m.Sort E COLUMN_IP ascend).1 = true ∧
      (m.Sort E COLUMN_IP ascend).2.servers =
        qsort (if ascend then server_t.AdrCmpAscend E else server_t.AdrCmpDescend E)
          m.servers) ∧
    (∀ column : Int, column ≠ -1 →
      (m.Sort E column ascend).2.m_iSortingColumn = column ∧
      (m.Sort E column ascend).2.m_bAscend = ascend ∧
      (m.Sort E column ascend).2.servers.Perm m.servers ∧
      ∀ (adr : netadr_t) (info : CStr) (fav : Bool) (now : ℚ),
        isDuplicated E (m.Sort E column ascend).2.servers adr info = false →
        (m.Sort E column ascend).2.AddServerToList E adr info fav now =
          (CMenuGameListModel.Sort E
            { (m.Sort E column ascend).2 with
              servers := ((m.Sort E column ascend).2.servers ++
                [((server_t.new adr info fav).UpdateData E).SetPing
                  (now - m.serversRefreshTime)]) }
            column ascend).2) := by
  obtain ⟨h0, h1, h2, h3, h4, h5, h6⟩ := Sort_of_column E m ascend
  refine ⟨by rw [h0]; exact ⟨rfl, rfl⟩, by rw [h1]; exact ⟨rfl, rfl⟩,
    by rw [h2]; exact ⟨rfl, rfl⟩, by rw [h3]; exact ⟨rfl, rfl⟩, by rw [h4]; exact ⟨rfl, rfl⟩,
    by rw [h5]; exact ⟨rfl, rfl⟩, by rw [h6]; exact ⟨rfl, rfl⟩, ?_⟩
  intro column hcol
  obtain ⟨hc, ha, ht⟩ := Sort_records E m column ascend hcol
  refine ⟨hc, ha, Sort_servers_perm E m column ascend, ?_⟩
  intro adr info fav now hdup
  unfold CMenuGameListModel.AddServerToList
  rw [hdup]
  simp only [Bool.false_eq_true, if_false, hc, ha, ht, ne_eq, hcol, not_false_eq_true, if_true]

/-- Witness for C21: a table of two records sorted by name, then an accepted reply. -/
theorem C21_sort_dispatch_witness :
    ((CMenuGameListModel.Sort sampleEngine
        { CMenuGameListModel.new with
          servers := [sampleServer 2 "\\host\\b".toList, sampleServer 1 "\\host\\a".toList] }
        COLUMN_NAME true).2.servers.map (fun s => s.name) =
      ["a".toList, "b".toList]) ∧
    ((CMenuGameListModel.Sort sampleEngine
        { CMenuGameListModel.new with
          servers := [sampleServer 2 "\\host\\b".toList, sampleServer 1 "\\host\\a".toList] }
        COLUMN_NAME true).2.m_iSortingColumn = COLUMN_NAME) :=
  ⟨(congrArg (fun l : List server_t => l.map (fun s => s.name))
      (C21_sort_dispatch sampleEngine
        { CMenuGameListModel.new with
          servers := [sampleServer 2 "\\host\\b".toList, sampleServer 1 "\\host\\a".toList] }
        true).2.2.1.2).trans (by decide!),
    ((C21_sort_dispatch sampleEngine
        { CMenuGameListModel.new with
          servers := [sampleServer 2 "\\host\\b".toList, sampleServer 1 "\\host\\a".toList] }
        true).2.2.2.2.2.2.2 COLUMN_NAME (by decide)).1⟩

/-- Counterexample to C21 as stated: on the favorite column `Sort` returns false and leaves a
table with an unflagged record before a favourite one as it is, in either direction. -/
theorem C21_counterexample :
    (CMenuGameListModel.Sort sampleEngine
      { CMenuGameListModel.new with
        servers := [sampleServer 2 "\\host\\b".toList,
          { sampleServer 1 "\\host\\a".toList with favorite := true }] }
      COLUMN_FAVORITE true).1 = false ∧
    (CMenuGameListModel.Sort sampleEngine
      { CMenuGameListModel.new with
        servers := [sampleServer 2 "\\host\\b".toList,
          { sampleServer 1 "\\host\\a".toList with favorite := true }] }
      COLUMN_FAVORITE true).2.servers.map (fun s => s.favorite) = [false, true] ∧
    (CMenuGameListModel.Sort sampleEngine
      { CMenuGameListModel.new with
        servers := [sampleServer 2 "\\host\\b".toList,
          { sampleServer 1 "\\host\\a".toList with favorite := true }] }
      COLUMN_FAVORITE false).1 = false ∧
    (CMenuGameListModel.Sort sampleEngine
      { CMenuGameListModel.new with
        servers := [sampleServer 2 "\\host\\b".toList,
          { sampleServer 1 "\\host\\a".toList with favorite := true }] }
      COLUMN_FAVORITE false).2.servers.map (fun s => s.favorite) = [false, true] := by
  refine ⟨rfl, ?_, rfl, ?_⟩ <;> decide!

/-! ## C22: cell colours -/

/-- C22, amended: for every legacy row and every column, `GetCellColors` returns true, sets the
text colour to the prompt colour with its alpha halved (as a byte, the fraction dropped) and
sets `force` to true for every column other than the name column and to false for the name
column; for a row that is not legacy it returns false and leaves both outputs as they were. -/
theorem C22_cell_colors (m : CMenuGameListModel) (uiPromptTextColor : CColor)
    (line column : Int) (textColor : CColor) (force : Bool) (s : server_t)
    (hline : IsValidIndex m.servers line = true)
    (hrow : m.servers.get? line.toNat = some s) :
    (s.isLegacy = true →
      m.GetCellColors uiPromptTextColor line column textColor force =
        some (true, { uiPromptTextColor with a := uiPromptTextColor.a / 2 },
          decide (column ≠ COLUMN_NAME))) ∧
    (s.isLegacy = false →
      m.GetCellColors uiPromptTextColor line column textColor force =
        some (false, textColor, force)) := by
  unfold CMenuGameListModel.GetCellColors
  simp only [hline, Bool.not_true, Bool.false_eq_true, if_false, hrow]
  constructor
  · intro h
    rw [if_pos h]
  · intro h
    rw [if_neg (by simp [h])]

/-- Witness for C22: the map cell and the name cell of a legacy row under an opaque prompt
colour. -/
theorem C22_cell_colors_witness :
    CMenuGameListModel.GetCellColors
      { CMenuGameListModel.new with servers := [sampleServer 1 "\\host\\a\\legacy\\1".toList] }
      ⟨240, 180, 24, 255⟩ 0 COLUMN_MAP ⟨0, 0, 0, 0⟩ false =
        some (true, ⟨240, 180, 24, 127⟩, true) ∧
    CMenuGameListModel.GetCellColors
      { CMenuGameListModel.new with servers := [sampleServer 1 "\\host\\a\\legacy\\1".toList] }
      ⟨240, 180, 24, 255⟩ 0 COLUMN_NAME ⟨0, 0, 0, 0⟩ true =
        some (true, ⟨240, 180, 24, 127⟩, false) :=
  ⟨((C22_cell_colors
      { CMenuGameListModel.new with servers := [sampleServer 1 "\\host\\a\\legacy\\1".toList] }
      ⟨240, 180, 24, 255⟩ 0 COLUMN_MAP ⟨0, 0, 0, 0⟩ false
      (sampleServer 1 "\\host\\a\\legacy\\1".toList) (by decide) rfl).1 (by decide)).trans
      (by decide),
    ((C22_cell_colors
      { CMenuGameListModel.new with servers := [sampleServer 1 "\\host\\a\\legacy\\1".toList] }
      ⟨240, 180, 24, 255⟩ 0 COLUMN_NAME ⟨0, 0, 0, 0⟩ true
      (sampleServer 1 "\\host\\a\\legacy\\1".toList) (by decide) rfl).1 (by decide)).trans
      (by decide)⟩

/-- Counterexample to C22 as stated: for a row that is not legacy `GetCellColors` returns false
and leaves `force` as the caller passed it, so the map cell is not forced when it enters as
false and the name cell is forced when it enters as true. -/
theorem C22_counterexample :
    (sampleServer 1 "\\host\\a".toList).isLegacy = false ∧
    CMenuGameListModel.GetCellColors
      { CMenuGameListModel.new with servers := [sampleServer 1 "\\host\\a".toList] }
      ⟨240, 180, 24, 255⟩ 0 COLUMN_MAP ⟨255, 255, 255, 255⟩ false =
        some (false, ⟨255, 255, 255, 255⟩, false) ∧
    CMenuGameListModel.GetCellColors
      { CMenuGameListModel.new with servers := [sampleServer 1 "\\host\\a".toList] }
      ⟨240, 180, 24, 255⟩ 0 COLUMN_NAME ⟨255, 255, 255, 255⟩ true =
        some (false, ⟨255, 255, 255, 255⟩, true) := by
  refine ⟨?_, ?_, ?_⟩ <;> decide

/-! ## C25: the players and ping comparators -/

theorem comparAscend_eq {K : Type} [LinearOrder K] (method : server_t → server_t → Int)
    (key : server_t → K)
    (hm : ∀ a b, method a b = if key a > key b then 1 else if key a < key b then -1 else 0)
    (a b : server_t) :
    comparAscend method a b =
      if a.isLegacy = b.isLegacy then
        (if key a > key b then 1 else if key a < key b then -1 else 0)
      else if a.isLegacy = true then
        100 + (if key a > key b then 1 else if key a < key b then -1 else 0)
      else -100 + (if key a > key b then 1 else if key a < key b then -1 else 0) := by
  unfold comparAscend server_t.Rank
  rw [hm]
  cases a.isLegacy <;> cases b.isLegacy <;> simp

theorem comparAscend_sign {K : Type} [LinearOrder K] (method : server_t → server_t → Int)
    (key : server_t → K)
    (hm : ∀ a b, method a b = if key a > key b then 1 else if key a < key b then -1 else 0)
    (a b : server_t) :
    (comparAscend method a b < 0 ↔ toLex (a.isLegacy, key a) < toLex (b.isLegacy, key b)) ∧
    (comparAscend method a b = 0 ↔ toLex (a.isLegacy, key a) = toLex (b.isLegacy, key b)) ∧
    (0 < comparAscend method a b ↔
      toLex (b.isLegacy, key b) < toLex (a.isLegacy, key a)) := by
  rw [comparAscend_eq method key hm]
  simp only [Prod.Lex.lt_iff, toLex_inj, Prod.mk.injEq, ofLex_toLex]
  rcases lt_trichotomy (key a) (key b) with h | h | h
  · cases a.isLegacy <;> cases b.isLegacy <;> simp [h, h.not_lt, ne_of_lt h]
  · cases a.isLegacy <;> cases b.isLegacy <;> simp [h]
  · cases a.isLegacy <;> cases b.isLegacy <;> simp [h, h.not_lt, ne_of_gt h]

theorem comparAscend_le_iff {K : Type} [LinearOrder K] (method : server_t → server_t → Int)
    (key : server_t → K)
    (hm : ∀ a b, method a b = if key a > key b then 1 else if key a < key b then -1 else 0)
    (a b : server_t) :
    comparAscend method a b ≤ 0 ↔ toLex (a.isLegacy, key a) ≤ toLex (b.isLegacy, key b) := by
  obtain ⟨_, _, h3⟩ := comparAscend_sign method key hm a b
  rw [← not_lt, ← not_lt, h3]

theorem comparAscend_order {K : Type} [LinearOrder K] (method : server_t → server_t → Int)
    (key : server_t → K)
    (hm : ∀ a b, method a b = if key a > key b then 1 else if key a < key b then -1 else 0) :
    IsLegacyKeyOrder (comparAscend method) key := by
  have hle := comparAscend_le_iff method key hm
  have htrans : ∀ a b c, comparAscend method a b ≤ 0 → comparAscend method b c ≤ 0 →
      comparAscend method a c ≤ 0 := by
    intro a b c hab hbc
    rw [hle] at hab hbc ⊢
    exact le_trans hab hbc
  refine ⟨comparAscend_sign method key hm, ?_, htrans, ?_, ?_⟩
  · intro a b
    obtain ⟨h1, h2, h3⟩ := comparAscend_sign method key hm a b
    obtain ⟨g1, g2, g3⟩ := comparAscend_sign method key hm b a
    rcases lt_trichotomy (comparAscend method a b) 0 with h | h | h
    · rw [Int.sign_eq_neg_one_of_neg h, Int.sign_eq_one_of_pos (g3.2 (h1.1 h))]
      decide
    · rw [h, g2.2 (h2.1 h).symm]
      decide
    · rw [Int.sign_eq_one_of_pos h, Int.sign_eq_neg_one_of_neg (g1.2 (h3.1 h))]
  · intro a b
    rw [hle, hle]
    exact le_total _ _
  · intro l hl
    haveI : IsTrans server_t (fun x y => comparAscend method x y ≤ 0) :=
      ⟨htrans⟩
    have hp := List.chain'_iff_pairwise.1 hl
    unfold LegacyLastOrderedBy
    refine hp.imp ?_
    intro x y hxy
    rw [hle, Prod.Lex.le_iff] at hxy
    simp only at hxy
    rcases hxy with h | ⟨h1, h2⟩
    · have hx : x.isLegacy = false := by
        cases hx : x.isLegacy with
        | false => rfl
        | true => rw [hx] at h; cases hy : y.isLegacy <;> rw [hy] at h <;> exact absurd h (by decide)
      have hy : y.isLegacy = true := by
        cases hy : y.isLegacy with
        | true => rfl
        | false => rw [hx, hy] at h; exact absurd h (by decide)
      exact ⟨fun _ => hy, fun he => by rw [hx, hy] at he; exact Bool.noConfusion he⟩
    · exact ⟨fun hx => h1 ▸ hx, fun _ => h2⟩

/-- A list sorted by `qsort` with a transitive and total comparator is in order. -/
theorem qsort_chain {α : Type} (compar : α → α → Int)
    (htrans : ∀ a b c, compar a b ≤ 0 → compar b c ≤ 0 → compar a c ≤ 0)
    (htotal : ∀ a b, compar a b ≤ 0 ∨ compar b a ≤ 0) (l : List α) :
    (qsort compar l).Chain' (fun x y => compar x y ≤ 0) := by
  haveI : IsTrans α (fun x y => compar x y ≤ 0) := ⟨htrans⟩
  haveI : IsTotal α (fun x y => compar x y ≤ 0) := ⟨htotal⟩
  exact (List.sorted_insertionSort (fun x y => compar x y ≤ 0) l).chain'

theorem comparDescend_order {K : Type} [LinearOrder K] (method : server_t → server_t → Int)
    (key : server_t → K)
    (hm : ∀ a b, method b a = if key a > key b then 1 else if key a < key b then -1 else 0) :
    IsLegacyKeyOrder (comparDescend method) key :=
  comparAscend_order (fun a b => method b a) key hm

theorem ClientCmpAscend_order :
    IsLegacyKeyOrder server_t.ClientCmpAscend (fun s => s.numcl) :=
  comparAscend_order server_t.ClientCmp (fun s => s.numcl) (fun _ _ => rfl)

theorem ClientCmpDescend_order :
    IsLegacyKeyOrder server_t.ClientCmpDescend (fun s => -s.numcl) := by
  refine comparDescend_order server_t.ClientCmp (fun s => -s.numcl) ?_
  intro a b
  unfold server_t.ClientCmp
  simp only [gt_iff_lt, neg_lt_neg_iff]

theorem PingCmpAscend_order :
    IsLegacyKeyOrder server_t.PingCmpAscend (fun s => s.ping) :=
  comparAscend_order server_t.PingCmp (fun s => s.ping) (fun _ _ => rfl)

theorem PingCmpDescend_order :
    IsLegacyKeyOrder server_t.PingCmpDescend (fun s => -s.ping) := by
  refine comparDescend_order server_t.PingCmp (fun s => -s.ping) ?_
  intro a b
  unfold server_t.PingCmp
  simp only [gt_iff_lt, neg_lt_neg_iff]

theorem LegacyLastOrderedBy_imp {r r2 : server_t → server_t → Prop} {l : List server_t}
    (h : LegacyLastOrderedBy r l) (himp : ∀ x y, r x y → r2 x y) :
    LegacyLastOrderedBy r2 l := by
  unfold LegacyLastOrderedBy at h ⊢
  exact h.imp (fun hxy => ⟨hxy.1, fun he => himp _ _ (hxy.2 he)⟩)

/-- The result of `qsort` with a comparator that is a consistent order on (isLegacy, key). -/
theorem qsort_LegacyLastOrderedBy {K : Type} [LinearOrder K]
    (cmp : server_t → server_t → Int) (key : server_t → K) (h : IsLegacyKeyOrder cmp key)
    (l : List server_t) :
    LegacyLastOrderedBy (fun x y => key x ≤ key y) (qsort cmp l) :=
  h.2.2.2.2 _ (qsort_chain cmp h.2.2.1 h.2.2.2.1 l)

/-- C25: the players and ping comparators are consistent orders. `ClientCmpAscend` has the
sign of the lexicographic comparison of (isLegacy, numcl), `ClientCmpDescend` that of
(isLegacy, -numcl), `PingCmpAscend` and `PingCmpDescend` likewise on the stored ping; each is
antisymmetric in sign, transitive and total, and a list in the order of one of them has all
records that are not legacy first, ordered by the field in that direction. So has the table
after `Sort` on the players or the ping column. -/
theorem C25_comparators_consistent :
    IsLegacyKeyOrder server_t.ClientCmpAscend (fun s => s.numcl) ∧
    IsLegacyKeyOrder server_t.ClientCmpDescend (fun s => -s.numcl) ∧
    IsLegacyKeyOrder server_t.PingCmpAscend (fun s => s.ping) ∧
    IsLegacyKeyOrder server_t.PingCmpDescend (fun s => -s.ping) ∧
    (∀ (E : EngFuncs) (m : CMenuGameListModel),
      LegacyLastOrderedBy (fun x y => x.numcl ≤ y.numcl)
        (m.Sort E COLUMN_PLAYERS true).2.servers ∧
      LegacyLastOrderedBy (fun x y => y.numcl ≤ x.numcl)
        (m.Sort E COLUMN_PLAYERS false).2.servers ∧
      LegacyLastOrderedBy (fun x y => x.ping ≤ y.ping)
        (m.Sort E COLUMN_PING true).2.servers ∧
      LegacyLastOrderedBy (fun x y => y.ping ≤ x.ping)
        (m.Sort E COLUMN_PING false).2.servers) := by
  refine ⟨ClientCmpAscend_order, ClientCmpDescend_order, PingCmpAscend_order,
    PingCmpDescend_order, ?_⟩
  intro E m
  refine ⟨?_, ?_, ?_, ?_⟩
  · rw [(Sort_of_column E m true).2.2.2.2.1]
    exact qsort_LegacyLastOrderedBy _ _ ClientCmpAscend_order _
  · rw [(Sort_of_column E m false).2.2.2.2.1]
    exact LegacyLastOrderedBy_imp
      (qsort_LegacyLastOrderedBy _ _ ClientCmpDescend_order _)
      (fun x y h => neg_le_neg_iff.1 h)
  · rw [(Sort_of_column E m true).2.2.2.2.2.1]
    exact qsort_LegacyLastOrderedBy _ _ PingCmpAscend_order _
  · rw [(Sort_of_column E m false).2.2.2.2.2.1]
    exact LegacyLastOrderedBy_imp
      (qsort_LegacyLastOrderedBy _ _ PingCmpDescend_order _)
      (fun x y h => neg_le_neg_iff.1 h)

/-! ## C23 and C24: the record of a custom server -/

theorem customServer_ping (E : EngFuncs) (adr : netadr_t) (host : CStr) (protocol : Int) :
    (customServer E adr host protocol).ping =
      if (customServer E adr host protocol).isLegacy = true then 9999 / 2000
      else 9999 / 1000 := by
  have hb : bound 0 (99999 / 10000) (9999 / 1000) = 9999 / 1000 := by
    unfold bound
    norm_num
  have hping : (customServer E adr host protocol).ping =
      if (customServer E adr host protocol).isLegacy = true
      then bound 0 (99999 / 10000) (9999 / 1000) / 2
      else bound 0 (99999 / 10000) (9999 / 1000) := rfl
  rw [hping, hb]
  norm_num

/-- C23, amended (over exact rational arithmetic, as C13): for every valid entered address
that contains no backslash and whose descriptor fits the 512-byte `info` buffer of the record,
the record `AddServer` builds has its stored ping equal to the maximum clamp value 9.999 for
every protocol selection other than legacy, and equal to half of it, 4.9995, for the legacy
selection. The record is built from the entered text and the address the parser returned
for it, and its ping does not depend on that address. -/
theorem C23_custom_server_ping (E : EngFuncs) (adr : netadr_t) (host : CStr)
    (hclean : '\\' ∉ host)
    (hfit : ∀ p : Int, (customServerInfo host E.gamefolder p).length < 512) :
    (∀ protocol : Int, protocol ≠ 1 →
      (customServer E adr host protocol).ping = 9999 / 1000) ∧
    (customServer E adr host 1).ping = 9999 / 2000 := by
  refine ⟨?_, ?_⟩
  · intro protocol hp
    have hflag := (customServer_flags E adr host protocol hclean (hfit protocol)).1
    have hleg : (customServer E adr host protocol).isLegacy = false := by
      rw [hflag]
      unfold customServerKeys
      by_cases h0 : protocol = 0
      · subst h0
        rfl
      · by_cases h2 : protocol = 2
        · subst h2
          rfl
        · rw [if_neg h0, if_neg hp, if_neg h2]
          rfl
    rw [customServer_ping, hleg]
    rfl
  · have hflag := (customServer_flags E adr host 1 hclean (hfit 1)).1
    have hleg : (customServer E adr host 1).isLegacy = true := by
      rw [hflag]
      rfl
    rw [customServer_ping, hleg]
    rfl

/-- Witness for C23: the custom server `203.0.113.5:27015` with the GoldSource and with the
legacy selection. The record is built from the entered text and the address the parser returned
for it, and its ping does not depend on that address. -/
theorem C23_custom_server_ping_witness :
    sampleEngine.StringToAdr "203.0.113.5:27015".toList = some ⟨[203, 0, 113, 5, 27015]⟩ ∧
    (customServer sampleEngine ⟨[203, 0, 113, 5, 27015]⟩ "203.0.113.5:27015".toList 2).ping =
      9999 / 1000 ∧
    (customServer sampleEngine ⟨[203, 0, 113, 5, 27015]⟩ "203.0.113.5:27015".toList 1).ping =
      9999 / 2000 :=
  ⟨by decide,
    (C23_custom_server_ping sampleEngine ⟨[203, 0, 113, 5, 27015]⟩
      "203.0.113.5:27015".toList (by decide)
      (fun p => lt_of_le_of_lt (customServerInfo_length _ _ p) (by decide))).1 2
      (by decide),
    (C23_custom_server_ping sampleEngine ⟨[203, 0, 113, 5, 27015]⟩
      "203.0.113.5:27015".toList (by decide)
      (fun p => lt_of_le_of_lt (customServerInfo_length _ _ p) (by decide))).2⟩

/-- Counterexample to C23 as stated, with a parser that reads the leading address and ignores
what follows it. With the legacy selection the record built for the valid address `10.0.0.5`
stores the ping 4.9995, not 9.999; and so does, with the selection 0 (current), the record
built for the accepted text `1.2.3.4:27015\legacy\1`, which carries a legacy key of its own.
For the accepted text of 513 bytes `1.2.3.4:27015xxx...`, whose descriptor does not fit the
buffer, the legacy selection gives 9.999. -/
theorem C23_counterexample :
    sampleEngine.StringToAdr "10.0.0.5".toList = some ⟨[10, 0, 0, 5]⟩ ∧
    (customServer sampleEngine ⟨[10, 0, 0, 5]⟩ "10.0.0.5".toList 1).ping = 9999 / 2000 ∧
    (customServer sampleEngine ⟨[10, 0, 0, 5]⟩ "10.0.0.5".toList 1).ping ≠ 9999 / 1000 ∧
    sampleEngine.StringToAdr "1.2.3.4:27015\\legacy\\1".toList =
      some ⟨[1, 2, 3, 4, 27015]⟩ ∧
    (customServer sampleEngine ⟨[1, 2, 3, 4, 27015]⟩ "1.2.3.4:27015\\legacy\\1".toList
      0).ping = 9999 / 2000 ∧
    sampleEngine.StringToAdr ("1.2.3.4:27015".toList ++ List.replicate 500 'x') =
      some ⟨[1, 2, 3, 4, 27015]⟩ ∧
    (customServer sampleEngine ⟨[1, 2, 3, 4, 27015]⟩
      ("1.2.3.4:27015".toList ++ List.replicate 500 'x') 1).ping = 9999 / 1000 := by
  refine ⟨?_, ?_, ?_, ?_, ?_, ?_, ?_⟩ <;> decide!

/-- C24, evaluation: `AddServer` on the valid address `10.0.0.5` returns with an empty server
list, whether the Favorites tab was active before (state 2) or not (state 0): the record
appended to the list is removed again by the `ClearList` at the start of `RefreshList`. -/
theorem C24_dummy_row_cleared :
    sampleEngine.StringToAdr "10.0.0.5".toList = some ⟨[10, 0, 0, 5]⟩ ∧
    (AddServer sampleEngine (stateWithAddress "10.0.0.5".toList 0 2)
      ).menu_internetgames.gameListModel.servers = [] ∧
    (AddServer sampleEngine (stateWithAddress "10.0.0.5".toList 0 0)
      ).menu_internetgames.gameListModel.servers = [] ∧
    (AddServer sampleEngine (stateWithAddress "10.0.0.5".toList 0 2)
      ).menu_internetgames.favoritesList.map (fun e => e.sadr) =
      ["10.0.0.1".toList, "10.0.0.5".toList] := by
  refine ⟨?_, ?_, ?_, ?_⟩ <;> decide!

/-! ## C26: what is written of a list -/

theorem saveText_eq_savedLines (list : List favlist_entry_t) :
    saveText list = (savedLines list).flatten := by
  induction list with
  | nil => rfl
  | cons e es ih =>
    have hcons : savedLines (e :: es) =
        if e.favorited = true then
          (e.sadr ++ " ".toList ++ e.prot ++ "\n".toList) :: savedLines es
        else savedLines es := by
      unfold savedLines
      cases hfav : e.favorited <;> simp [List.filter_cons, hfav]
    rw [hcons]
    unfold saveText
    cases hfav : e.favorited with
    | false => simpa using ih
    | true => simp [ih]

theorem savedLines_append (l₁ l₂ : List favlist_entry_t) :
    savedLines (l₁ ++ l₂) = savedLines l₁ ++ savedLines l₂ := by
  simp [savedLines]

theorem SaveServerListToFile_of_ne_nil (u : UIState) (filename : CStr)
    (list : List favlist_entry_t) (hne : list ≠ []) :
    SaveServerListToFile u filename list =
      { u with files := u.files.save filename (saveText list),
               effects := u.effects ++ [Effect.COM_SaveFile filename (saveText list)] } := by
  unfold SaveServerListToFile
  rw [if_neg (by simpa using hne)]

/-- C26: entries flagged favorited = false are never persisted. For every non-empty list the
one engine call of `SaveServerListToFile` is `COM_SaveFile` with a text that consists of
exactly one line `<sadr> <prot>` per entry with favorited = true, in list order, and that text
is the content of the file afterwards; a non-empty list whose entries are all favorited =
false is saved as zero bytes and the file is present; and the list that `AddServer` leaves for
a valid address is saved with the lines of the list before it, without a line for the entry
it appended. -/
theorem C26_unfavorited_not_saved (E : EngFuncs) (u : UIState) (filename : CStr)
    (list : List favlist_entry_t) (hne : list ≠ []) :
    (SaveServerListToFile u filename list).effects =
      u.effects ++ [Effect.COM_SaveFile filename (savedLines list).flatten] ∧
    COM_LoadFile (SaveServerListToFile u filename list).files filename =
      some (savedLines list).flatten ∧
    ((∀ e ∈ list, e.favorited = false) →
      (SaveServerListToFile u filename list).effects =
        u.effects ++ [Effect.COM_SaveFile filename []] ∧
      COM_LoadFile (SaveServerListToFile u filename list).files filename = some []) ∧
    (∀ (v : UIState) (adr : netadr_t),
      E.StringToAdr v.menu_internetgames.addressField = some adr →
      (SaveServerListToFile u filename (AddServer E v).menu_internetgames.favoritesList).effects
        = u.effects ++ [Effect.COM_SaveFile filename
            (savedLines v.menu_internetgames.favoritesList).flatten]) := by
  have hsave := SaveServerListToFile_of_ne_nil u filename list hne
  have hload : COM_LoadFile (SaveServerListToFile u filename list).files filename =
      some (savedLines list).flatten := by
    rw [hsave, ← saveText_eq_savedLines]
    exact COM_LoadFile_save u.files filename _
  have heff : (SaveServerListToFile u filename list).effects =
      u.effects ++ [Effect.COM_SaveFile filename (savedLines list).flatten] := by
    rw [hsave, ← saveText_eq_savedLines]
  refine ⟨heff, hload, ?_, ?_⟩
  · intro hall
    have hnone : savedLines list = [] := by
      unfold savedLines
      rw [List.map_eq_nil_iff, List.filter_eq_nil_iff]
      intro e he
      simp [hall e he]
    rw [heff, hload, hnone]
    exact ⟨rfl, rfl⟩
  · intro v adr hadr
    rw [(AddServer_of_valid E v adr hadr).1, SaveServerListToFile_of_ne_nil _ _ _ (by simp),
      saveText_eq_savedLines, savedLines_append]
    have hentry : savedLines [favlist_entry_t.new v.menu_internetgames.addressField
        (customServer E adr v.menu_internetgames.addressField
          v.menu_internetgames.serverProtocol).ToProtocol false] = [] := rfl
    rw [hentry, List.append_nil]

/-- Witness for C26: a list of three entries, the second not favorited. -/
theorem C26_unfavorited_not_saved_witness :
    (SaveServerListToFile sampleState "favorite_servers.lst".toList
        [favlist_entry_t.new "10.0.0.1:27015".toList "49".toList true,
         favlist_entry_t.new "10.0.0.2:27015".toList "gs".toList false,
         favlist_entry_t.new "10.0.0.3:27015".toList "48".toList true]).effects =
      [Effect.COM_SaveFile "favorite_servers.lst".toList
        "10.0.0.1:27015 49\n10.0.0.3:27015 48\n".toList] :=
  (C26_unfavorited_not_saved sampleEngine sampleState "favorite_servers.lst".toList
    [favlist_entry_t.new "10.0.0.1:27015".toList "49".toList true,
     favlist_entry_t.new "10.0.0.2:27015".toList "gs".toList false,
     favlist_entry_t.new "10.0.0.3:27015".toList "48".toList true]
    (by decide)).1.trans (by decide)

/-! ## C10: toggling a favourite twice in a state the browser can be in -/

theorem FlagsAgree_nil (E : EngFuncs) (favorites : List favlist_entry_t) :
    FlagsAgree E [] favorites :=
  ⟨fun s hs => absurd hs (List.not_mem_nil s), List.nodup_nil⟩

theorem FlagsAgree_perm (E : EngFuncs) {l l2 : List server_t}
    (favorites : List favlist_entry_t) (hp : l2.Perm l) (h : FlagsAgree E l favorites) :
    FlagsAgree E l2 favorites :=
  ⟨fun s hs => h.1 s (hp.mem_iff.1 hs),
    ((hp.map (fun s => E.NET_AdrToString s.adr)).nodup_iff).2 h.2⟩

theorem FlagsAgree_map_UpdateData (E : EngFuncs) {l : List server_t}
    (favorites : List favlist_entry_t) (h : FlagsAgree E l favorites) :
    FlagsAgree E (l.map (server_t.UpdateData E)) favorites := by
  refine ⟨?_, ?_⟩
  · intro s hs hfav
    obtain ⟨s0, hs0, rfl⟩ := List.mem_map.1 hs
    exact h.1 s0 hs0 hfav
  · have hmap : (l.map (server_t.UpdateData E)).map (fun s => E.NET_AdrToString s.adr) =
        l.map (fun s => E.NET_AdrToString s.adr) := by
      rw [List.map_map]
      rfl
    rw [hmap]
    exact h.2

theorem AddServerToList_of_duplicated (E : EngFuncs) (m : CMenuGameListModel)
    (adr : netadr_t) (info : CStr) (fav : Bool) (now : ℚ)
    (h : isDuplicated E m.servers adr info = true) :
    m.AddServerToList E adr info fav now = m := by
  unfold CMenuGameListModel.AddServerToList
  rw [if_pos h]

/-- The model's `AddServerToList` keeps the agreement when the hint is the membership of the
address text in the favourites list. -/
theorem FlagsAgree_AddServerToList (E : EngFuncs)
    (hstr : ∀ a b, E.NET_AdrToString a = E.NET_AdrToString b → E.NET_CompareAdr a b = 0)
    (m : CMenuGameListModel) (favorites : List favlist_entry_t) (adr : netadr_t)
    (info : CStr) (now : ℚ) (h : FlagsAgree E m.servers favorites) :
    FlagsAgree E (m.AddServerToList E adr info
      (decide (hasAddress favorites (E.NET_AdrToString adr))) now).servers favorites := by
  cases hdup : isDuplicated E m.servers adr info with
  | true => rw [AddServerToList_of_duplicated E m adr info _ now hdup]; exact h
  | false =>
    refine FlagsAgree_perm E favorites
      (AddServerToList_servers_of_not_duplicated E m adr info _ now hdup) ?_
    refine ⟨?_, ?_⟩
    · intro s hs hfav
      rcases List.mem_append.1 hs with hs | hs
      · exact h.1 s hs hfav
      · rw [List.mem_singleton] at hs
        subst hs
        have hflag : decide (hasAddress favorites (E.NET_AdrToString adr)) = true := hfav
        exact of_decide_eq_true hflag
    · rw [List.map_append, List.map_singleton]
      refine List.Nodup.append h.2 (List.nodup_singleton _) ?_
      intro x hx1 hx2
      rw [List.mem_singleton] at hx2
      obtain ⟨s, hs, hsx⟩ := List.mem_map.1 hx1
      have hcmp : E.NET_CompareAdr s.adr adr = 0 := by
        apply hstr
        rw [hsx, hx2]
        rfl
      have : isDuplicated E m.servers adr info = true :=
        (isDuplicated_eq_true_iff E _ adr info).2 ⟨s, hs, Or.inl hcmp⟩
      rw [hdup] at this
      exact Bool.noConfusion this

theorem AddServerToList_favoritesList (E : EngFuncs) (u : UIState) (adr : netadr_t)
    (info : CStr) :
    (CMenuServerBrowser.AddServerToList E u adr info).menu_internetgames.favoritesList =
      u.menu_internetgames.favoritesList := by
  unfold CMenuServerBrowser.AddServerToList MaybeEnableFavoriteButton
  split_ifs
  · rfl
  · rfl
  · rfl
  · rw [(OnChangeSelectedServer_fields _).2.1]

theorem findFavorite_some (l : List favlist_entry_t) (sadr : CStr) (j : Nat)
    (h : findFavorite l sadr = some j) :
    ∃ hj : j < l.length, (l.get ⟨j, hj⟩).sadr = sadr := by
  unfold findFavorite at h
  simp only at h
  split_ifs at h with hlt
  have hj : l.findIdx (fun e => decide (strcmp e.sadr sadr = 0)) = j := Option.some.inj h
  rw [hj] at hlt
  refine ⟨hlt, ?_⟩
  have hp := @List.findIdx_getElem _ (fun e : favlist_entry_t => decide (strcmp e.sadr sadr = 0))
    l (by rw [hj]; exact hlt)
  simp only [decide_eq_true_eq, hj] at hp
  exact (strcmp_eq_zero_iff _ _).1 hp

theorem hasAddress_FastRemove (l : List favlist_entry_t) (j : Nat) (hj : j < l.length)
    (x : CStr) (hx : x ≠ (l.get ⟨j, hj⟩).sadr) (h : hasAddress l x) :
    hasAddress (FastRemove l j) x := by
  obtain ⟨e, he, hex⟩ := h
  have hmem : e ∈ l.get ⟨j, hj⟩ :: FastRemove l j := (FastRemove_perm l j hj).mem_iff.2 he
  rcases List.mem_cons.1 hmem with heq | hmem2
  · rw [heq] at hex
    exact absurd hex.symm hx
  · exact ⟨e, hmem2, hex⟩

/-- One call of `FavoriteServer` keeps the agreement. -/
theorem FlagsAgree_FavoriteServer (E : EngFuncs) (b : CMenuServerBrowser)
    (h : FlagsAgree E b.gameListModel.servers b.favoritesList) :
    FlagsAgree E (FavoriteServer E b).gameListModel.servers
      (FavoriteServer E b).favoritesList := by
  cases hvalid : IsValidIndex b.gameListModel.servers b.gameList_iCurItem with
  | false => rw [FavoriteServer_of_invalid E b hvalid]; exact h
  | true =>
    have hn : b.gameList_iCurItem.toNat < b.gameListModel.servers.length := by
      unfold IsValidIndex at hvalid
      simp only [Bool.and_eq_true, decide_eq_true_eq] at hvalid
      omega
    have hget : b.gameListModel.servers.get? b.gameList_iCurItem.toNat =
        some (b.gameListModel.servers.get ⟨_, hn⟩) := List.get?_eq_get hn
    generalize hserv : b.gameListModel.servers.get ⟨_, hn⟩ = serv at hget
    obtain ⟨-, hmodel, hadd, hrem⟩ := FavoriteServer_of_valid E b serv hvalid hget
    rw [hmodel]
    simp only
    generalize hi : b.gameList_iCurItem.toNat = i at hn hserv hadd hrem ⊢
    generalize hl : b.gameListModel.servers = l at hn hserv h ⊢
    have hmapset : (l.set i { serv with favorite := !serv.favorite }).map
        (fun s => E.NET_AdrToString s.adr) = l.map (fun s => E.NET_AdrToString s.adr) := by
      rw [List.map_set]
      have : (l.map (fun s => E.NET_AdrToString s.adr)).get ⟨i, by simpa using hn⟩ =
          E.NET_AdrToString serv.adr := by
        simp [← hserv]
      have h2 := set_get_self (l.map (fun s => E.NET_AdrToString s.adr)) i (by simpa using hn)
      rw [this] at h2
      exact h2
    refine ⟨?_, by rw [hmapset]; exact h.2⟩
    intro s hs hfav
    obtain ⟨k, hk, hks⟩ := List.getElem_of_mem hs
    have hk2 : k < l.length := by simpa using hk
    rw [List.getElem_set] at hks
    by_cases hik : i = k
    · rw [if_pos hik] at hks
      subst hks
      have hfalse : serv.favorite = false := by
        have h3 : (!serv.favorite) = true := hfav
        simpa using h3
      rw [hadd hfalse]
      exact ⟨_, List.mem_append_right _ (List.mem_singleton_self _), rfl⟩
    · rw [if_neg hik] at hks
      have hsl : s ∈ l := by rw [← hks]; exact List.getElem_mem _
      have hin := h.1 s hsl hfav
      have hne : E.NET_AdrToString s.adr ≠ E.NET_AdrToString serv.adr := by
        intro heq
        have hnd := h.2
        rw [List.nodup_iff_injective_get] at hnd
        have hinj := @hnd ⟨k, by simpa using hk2⟩ ⟨i, by simpa using hn⟩
          (by
            simp only [List.get_eq_getElem, List.getElem_map]
            rw [hks, heq, ← hserv]
            rfl)
        exact hik (by simpa using (Fin.mk.inj hinj).symm)
      cases hsf : serv.favorite with
      | false =>
        rw [hadd hsf]
        obtain ⟨e, he, hex⟩ := hin
        exact ⟨e, List.mem_append_left _ he, hex⟩
      | true =>
        rw [hrem hsf]
        cases hfind : findFavorite b.favoritesList (E.NET_AdrToString serv.adr) with
        | none => exact hin
        | some j =>
          obtain ⟨hj, hjs⟩ := findFavorite_some _ _ j hfind
          exact hasAddress_FastRemove _ j hj _ (by rw [hjs]; exact hne) hin

/-- The method `Update` permutes the records it has refreshed and keeps the favourites. -/
theorem FlagsAgree_Update (E : EngFuncs) (u : UIState)
    (h : FlagsAgree E u.menu_internetgames.gameListModel.servers
      u.menu_internetgames.favoritesList) :
    FlagsAgree E (CMenuGameListModel.Update E u).menu_internetgames.gameListModel.servers
      (CMenuGameListModel.Update E u).menu_internetgames.favoritesList := by
  have hmap := FlagsAgree_map_UpdateData E u.menu_internetgames.favoritesList h
  unfold CMenuGameListModel.Update MaybeEnableFavoriteButton
  simp only
  split_ifs
  · simp only [(OnChangeSelectedServer_fields _).1, (OnChangeSelectedServer_fields _).2.1]
    exact FlagsAgree_perm E _ (Sort_servers_perm E _ _ _) hmap
  · simp only [(OnChangeSelectedServer_fields _).1, (OnChangeSelectedServer_fields _).2.1]
    exact hmap
  · exact hmap

/-- In every state the browser can be in, the favourite flags agree with the favourites list,
provided the engine prints two addresses alike only if it compares them equal. -/
theorem Reachable_FlagsAgree (E : EngFuncs)
    (hstr : ∀ a b, E.NET_AdrToString a = E.NET_AdrToString b → E.NET_CompareAdr a b = 0)
    (u : UIState) (hreach : Reachable E u) :
    FlagsAgree E u.menu_internetgames.gameListModel.servers
      u.menu_internetgames.favoritesList := by
  induction hreach with
  | cleared u h => rw [h]; exact FlagsAgree_nil E _
  | reply u adr info _ ih =>
    rw [AddServerToList_favoritesList]
    by_cases hdrop : stricmp E.gamefolder (Info_ValueForKey info "gamedir".toList) ≠ 0 ∨
        u.menu_internetgames.wasInit = false ∨ u.menu_internetgames.isVisible = false
    · rw [AddServerToList_dropped E u adr info hdrop]
      exact ih
    · have hgame : stricmp E.gamefolder (Info_ValueForKey info "gamedir".toList) = 0 := by
        by_contra hne
        exact hdrop (Or.inl hne)
      have hinit : u.menu_internetgames.wasInit = true := by
        cases hw : u.menu_internetgames.wasInit with
        | true => rfl
        | false => exact absurd (Or.inr (Or.inl hw)) hdrop
      have hvis : u.menu_internetgames.isVisible = true := by
        cases hw : u.menu_internetgames.isVisible with
        | true => rfl
        | false => exact absurd (Or.inr (Or.inr hw)) hdrop
      rw [(AddServerToList_forwarded E u adr info hgame hinit hvis).1]
      exact FlagsAgree_AddServerToList E hstr _ _ adr info _ ih
  | favorite u _ ih => exact FlagsAgree_FavoriteServer E _ ih
  | sort u column ascend _ ih =>
    exact FlagsAgree_perm E _ (Sort_servers_perm E _ column ascend) ih
  | update u _ ih => exact FlagsAgree_Update E u ih
  | addServer u _ ih =>
    cases hadr : E.StringToAdr u.menu_internetgames.addressField with
    | none => rw [AddServer_of_invalid E u hadr]; exact ih
    | some adr =>
      rw [(AddServer_of_valid E u adr hadr).2.2]
      exact FlagsAgree_nil E _
  | refresh u _ _ =>
    rw [(RefreshList_fields u).2.2.2.2.1]
    exact FlagsAgree_nil E _
  | tabSwitch u _ _ =>
    obtain ⟨u1, heq, -⟩ := OnTabSwitch_eq u
    rw [heq, (RefreshList_fields u1).2.2.2.2.1]
    exact FlagsAgree_nil E _
  | other u v _ hservers hfavorites ih =>
    rw [hservers, hfavorites]
    exact ih

/-- C10: in every state the browser can be in, with a valid selected row, applying
`FavoriteServer` twice to the same record restores, for every address text, whether the
favourites list contains an entry with that address to what it was before the first toggle,
and restores the records of the table, the favourite flag of the selected record included.
The engine is taken to print two addresses alike only if it compares them equal. -/
theorem C10_toggle_twice (E : EngFuncs)
    (hstr : ∀ a b, E.NET_AdrToString a = E.NET_AdrToString b → E.NET_CompareAdr a b = 0)
    (u : UIState) (hreach : Reachable E u)
    (hvalid : IsValidIndex u.menu_internetgames.gameListModel.servers
      u.menu_internetgames.gameList_iCurItem = true) :
    (∀ sadr,
      hasAddress (FavoriteServer E (FavoriteServer E u.menu_internetgames)).favoritesList sadr ↔
        hasAddress u.menu_internetgames.favoritesList sadr) ∧
    (FavoriteServer E (FavoriteServer E u.menu_internetgames)).gameListModel =
      u.menu_internetgames.gameListModel := by
  have hagree := Reachable_FlagsAgree E hstr u hreach
  refine FavoriteServer_twice E _ hvalid ?_
  intro serv hget hfav
  exact hagree.1 serv (List.get?_mem hget) hfav

/-- Witness for C10: `10.0.0.1` is the only favourite and its reply has put a record flagged
favourite in row 0 of the table; after two toggles the list still holds `10.0.0.1` and the
table is as before. -/
theorem C10_toggle_twice_witness :
    (CMenuServerBrowser.AddServerToList textEngine (stateWithAddress [] 0 0) ⟨[10, 0, 0, 1]⟩
      "\\host\\One\\gamedir\\valve".toList).menu_internetgames.gameListModel.servers.map
      (fun s => (s.ipstr, s.favorite)) = [("10.0.0.1".toList, true)] ∧
    hasAddress (FavoriteServer textEngine (FavoriteServer textEngine
      (CMenuServerBrowser.AddServerToList textEngine (stateWithAddress [] 0 0) ⟨[10, 0, 0, 1]⟩
        "\\host\\One\\gamedir\\valve".toList).menu_internetgames)).favoritesList
      "10.0.0.1".toList ∧
    (FavoriteServer textEngine (FavoriteServer textEngine
      (CMenuServerBrowser.AddServerToList textEngine (stateWithAddress [] 0 0) ⟨[10, 0, 0, 1]⟩
        "\\host\\One\\gamedir\\valve".toList).menu_internetgames)).gameListModel =
      (CMenuServerBrowser.AddServerToList textEngine (stateWithAddress [] 0 0) ⟨[10, 0, 0, 1]⟩
        "\\host\\One\\gamedir\\valve".toList).menu_internetgames.gameListModel :=
  ⟨by decide!,
    ((C10_toggle_twice textEngine (fun _ _ h => if_pos h)
      (CMenuServerBrowser.AddServerToList textEngine (stateWithAddress [] 0 0) ⟨[10, 0, 0, 1]⟩
        "\\host\\One\\gamedir\\valve".toList)
      (Reachable.reply _ _ _ (Reachable.cleared _ rfl)) (by decide!)).1 "10.0.0.1".toList).2
      (by decide!),
    (C10_toggle_twice textEngine (fun _ _ h => if_pos h)
      (CMenuServerBrowser.AddServerToList textEngine (stateWithAddress [] 0 0) ⟨[10, 0, 0, 1]⟩
        "\\host\\One\\gamedir\\valve".toList)
      (Reachable.reply _ _ _ (Reachable.cleared _ rfl)) (by decide!)).2⟩

end ServerBrowser
